import Mathlib

/-!
# Verification of the chibicc wasm back end and JSON dumper

Shallow embedding of `src/codegen_wasm.c` and `src/dump.c`.  C structs
become Lean inductives; the linked `next` pointers become `Option`
fields; emission of text through `println`/`fprintf` becomes lists of
output chunks; the wasm instructions printed by the code generator are
modelled by an `Instr` inductive together with a rendering function that
reproduces the printed lines.  Null pointers are `Option.none`; fallible
code (the `error_tok` paths) returns `Except`.

Machine integers (`int`, `int64_t`, `long`) are modelled as `Int`, with
explicit wrapping where the C casts between widths.  `long double fval`
is carried as a rational number `Rat`; the C's printf floating-point
formatting (`%f`, `%Lg`) is abstracted by total formatting functions,
which is immaterial to the properties proved here (none of them depend
on the digits of a formatted float).
-/

namespace Chibicc

/-- The `TypeKind` enumeration of chibicc (`chibicc.h`). -/
inductive TyKind where
  | ty_void | ty_bool | ty_char | ty_short | ty_int | ty_long
  | ty_float | ty_double | ty_ldouble | ty_enum | ty_ptr | ty_func
  | ty_array | ty_vla | ty_struct | ty_union
deriving DecidableEq, Repr

/-- The `Type` struct of chibicc, restricted to the fields the back end
and the dumper read: `kind`, `size`, `align`, `is_unsigned`, `base`,
`return_ty`, `array_len`.  `base` and `return_ty` are nullable pointers,
hence `Option`. -/
inductive CType where
  | mk (kind : TyKind) (size : Int) (align : Int) (is_unsigned : Bool)
       (base : Option CType) (return_ty : Option CType) (array_len : Int)

namespace CType

def kind : CType → TyKind
  | .mk k _ _ _ _ _ _ => k

def size : CType → Int
  | .mk _ s _ _ _ _ _ => s

def align : CType → Int
  | .mk _ _ a _ _ _ _ => a

def is_unsigned : CType → Bool
  | .mk _ _ _ u _ _ _ => u

def base : CType → Option CType
  | .mk _ _ _ _ b _ _ => b

def return_ty : CType → Option CType
  | .mk _ _ _ _ _ r _ => r

def array_len : CType → Int
  | .mk _ _ _ _ _ _ n => n

end CType

/-- The four wasm value types, the semantic counterpart of the strings
returned by `wasm_type`. -/
inductive WTy where
  | i32 | i64 | f32 | f64
deriving DecidableEq, Repr

/-- Text of a wasm value type, as printed by the C code. -/
def WTy.str : WTy → String
  | .i32 => "i32"
  | .i64 => "i64"
  | .f32 => "f32"
  | .f64 => "f64"

/-- `wasm_type` of `codegen_wasm.c`, at the level of `WTy`.  A null type
maps to i32 (`if (!ty) return "i32";`); `TY_FLOAT` to f32;
`TY_DOUBLE`/`TY_LDOUBLE` to f64; `TY_LONG` of size 8 to i64, otherwise
i32; every other kind to i32. -/
def wasm_type_w (ty : Option CType) : WTy :=
  match ty with
  | none => .i32
  | some t =>
    match t.kind with
    | .ty_float => .f32
    | .ty_double => .f64
    | .ty_ldouble => .f64
    | .ty_long => if t.size = 8 then .i64 else .i32
    | _ => .i32

/-- `wasm_type` of `codegen_wasm.c`: the string actually printed. -/
def wasm_type (ty : Option CType) : String :=
  (wasm_type_w ty).str

/-- `is_wasm_i64` of `codegen_wasm.c`:
`ty && ty->kind == TY_LONG && ty->size == 8`. -/
def is_wasm_i64 (ty : Option CType) : Bool :=
  match ty with
  | none => false
  | some t => t.kind = .ty_long && t.size = 8

/-- `is_wasm_f32` of `codegen_wasm.c`: `ty && ty->kind == TY_FLOAT`. -/
def is_wasm_f32 (ty : Option CType) : Bool :=
  match ty with
  | none => false
  | some t => t.kind = .ty_float

/-- `is_wasm_f64` of `codegen_wasm.c`:
`ty && (ty->kind == TY_DOUBLE || ty->kind == TY_LDOUBLE)`. -/
def is_wasm_f64 (ty : Option CType) : Bool :=
  match ty with
  | none => false
  | some t => t.kind = .ty_double || t.kind = .ty_ldouble

/-- `is_wasm_float` of `codegen_wasm.c`. -/
def is_wasm_float (ty : Option CType) : Bool :=
  is_wasm_f32 ty || is_wasm_f64 ty

/-- `wasm_size` of `codegen_wasm.c`: null reports 4, pointers and
functions report 4, `TY_LONG` reports 4 (long is treated as i32 in
wasm32), every other kind reports `ty->size`. -/
def wasm_size (ty : Option CType) : Int :=
  match ty with
  | none => 4
  | some t =>
    if t.kind = .ty_ptr || t.kind = .ty_func then 4
    else if t.kind = .ty_long then 4
    else t.size

/-- One output line produced by the code generator, modulo indentation.
Structured wasm constructs (`block`/`loop`/`if`) carry their bodies so
that the printed nesting produced by `indent()`/`dedent()` can be
reproduced during rendering; every other constructor corresponds to one
`println` in the C code.  `f32_const`/`f64_const` carry the `double`
value as a rational; `comment` carries the text after `;;`. -/
inductive Instr where
  | i32_const (n : Int)
  | i64_const (n : Int)
  | f32_const (x : Rat)
  | f64_const (x : Rat)
  /-- `(%s.const 0)` with a wasm type, as in the COND else branch and
  the implicit-return path. -/
  | const_zero (t : WTy)
  /-- `(i32.add (local.get $__bp) (i32.const off))`: address of a local. -/
  | addr_bp (off : Int)
  /-- `(i32.const off) ;; &name`: address of a global. -/
  | addr_global (off : Int) (name : Option String)
  | f32_load | f64_load
  | i32_load8_u | i32_load8_s | i32_load16_u | i32_load16_s | i32_load
  | f32_store | f64_store
  | i32_store8 | i32_store16 | i32_store
  | drop
  | f32_neg | f64_neg
  | i32_eqz
  /-- `(%s.add)` etc. of the binary fallback; `t` is the printed type
  prefix and `op` the operation suffix (`add`, `sub`, `mul`, `div`,
  `div_s`, `rem_u`, `eq`, `lt_s`, ...). -/
  | binop (t : WTy) (op : String)
  | i32_extend8_s | i32_extend16_s
  /-- `(i32.const n) (i32.and)`: the single-line masking pattern of the
  cast code. -/
  | mask_and (n : Int)
  | f64_promote_f32 | f32_demote_f64
  | i32_trunc_f32_u | i32_trunc_f32_s | i32_trunc_f64_u | i32_trunc_f64_s
  | f32_convert_i32_u | f32_convert_i32_s
  | f64_convert_i32_u | f64_convert_i32_s
  | local_set (name : String)
  | local_get (name : String)
  | call (name : Option String)
  | memory_fill
  | comment (s : String)
  | br (label : String)
  | br_if (label : String)
  /-- `(block $l ;; break target` ... `) ;; end block`: FOR and DO. -/
  | block_brk (label : String) (body : List Instr)
  /-- `(loop $l ;; continue target` ... `) ;; end loop`. -/
  | loop_cont (label : String) (body : List Instr)
  /-- `(block $l ;; break target` ... `) ;; end break block`: SWITCH. -/
  | block_brk_switch (label : String) (body : List Instr)
  /-- `(if (then` ... `))`: one case test of the SWITCH lowering. -/
  | if_case (body : List Instr)
  /-- `(if (result t)` / `(then` ... `)` / `(else` ... `)` / `)`:
  the COND lowering; the else body is `[const_zero t]` when `els`
  is missing. -/
  | if_result (t : WTy) (thenB : List Instr) (elseB : List Instr)
  /-- LOGAND: `(if (result i32)`, then-body as given, else-line
  `(else (i32.const 0))`. -/
  | if_logand (thenB : List Instr)
  /-- LOGOR: then-line `(then (i32.const 1))`, else-body as given. -/
  | if_logor (elseB : List Instr)
  /-- `(if` / `(then` ... `)` / optional `(else` ... `)` / `)`: IF. -/
  | if_stmt (thenB : List Instr) (elseB : Option (List Instr))
  /-- `(block $__return` with an optional result type; closing line
  `) ;; end block $__return`.  Only emitted by the function emitter. -/
  | block_return (t : Option WTy) (body : List Instr)

/-- `wasm_load` of `codegen_wasm.c`: the instructions printed for a load
from an address on the stack.  Null and aggregate/function types emit
nothing (the address is the value); floats use typed loads; integers
pick the width by `wasm_size` and the signedness by `is_unsigned`. -/
def wasm_load (ty : Option CType) : List Instr :=
  match ty with
  | none => []
  | some t =>
    if t.kind = .ty_array || t.kind = .ty_struct ||
       t.kind = .ty_union || t.kind = .ty_func then
      []
    else if t.kind = .ty_float then
      [.f32_load]
    else if t.kind = .ty_double || t.kind = .ty_ldouble then
      [.f64_load]
    else
      match wasm_size (some t) with
      | 1 => if t.is_unsigned then [.i32_load8_u] else [.i32_load8_s]
      | 2 => if t.is_unsigned then [.i32_load16_u] else [.i32_load16_s]
      | _ => [.i32_load]

/-- `wasm_store` of `codegen_wasm.c`: the instructions printed for a
store of the top of stack to the address beneath it.  Null emits
nothing; structs and unions are unsupported and emit a diagnostic
comment plus two drops; floats use typed stores; integers pick the
width by `wasm_size`. -/
def wasm_store (ty : Option CType) : List Instr :=
  match ty with
  | none => []
  | some t =>
    if t.kind = .ty_struct || t.kind = .ty_union then
      [.comment ("TODO: struct store (size=" ++ toString t.size ++ ")"),
       .drop, .drop]
    else if t.kind = .ty_float then
      [.f32_store]
    else if t.kind = .ty_double || t.kind = .ty_ldouble then
      [.f64_store]
    else
      match wasm_size (some t) with
      | 1 => [.i32_store8]
      | 2 => [.i32_store16]
      | _ => [.i32_store]

/-! ## The AST model

`Node`, `Obj` and `Token` of chibicc, restricted to the fields the back
end and the dumper read.  The C's intrusive linked lists (`next`,
`args`, `case_next`) stay `Option` pointers inside `Node`; a node's
`var` pointer is modelled by the record of Obj fields the two source
files read through it (`LVar`), carrying an `id` into an offset store
that stands for the mutable `offset` field written by the layout pass
and read through every alias. -/

/-- The `TokenKind` enumeration of chibicc. -/
inductive TokKind where
  | tk_ident | tk_punct | tk_keyword | tk_str | tk_num | tk_pp_num | tk_eof
deriving DecidableEq, Repr

/-- The fields of a chibicc `Token` read by the dumper: `kind`, the
`loc`/`len` window into the source text, `line_no`, `file->name`
(as `filename`), the token's type and numeric values. -/
structure Tok where
  kind : TokKind
  loc : List Char
  len : Nat
  line_no : Int
  filename : Option String
  ty : Option CType
  val : Int
  fval : Rat

/-- The fields of an `Obj` read through a node's `var` pointer:
`name`, `ty`, `is_local`, and the identity `id` under which the layout
pass stores the object's mutable `offset`. -/
structure LVar where
  id : Nat
  name : Option String
  ty : Option CType
  is_local : Bool

/-- The fields of a `Member` read by the back end and the dumper. -/
structure Mem where
  name : Option Tok
  offset : Int

/-- The `NodeKind` enumeration of chibicc (names as in `dump.c`). -/
inductive NodeKind where
  | nd_null_expr | nd_add | nd_sub | nd_mul | nd_div | nd_neg | nd_mod
  | nd_bitand | nd_bitor | nd_bitxor | nd_shl | nd_shr
  | nd_eq | nd_ne | nd_lt | nd_le
  | nd_assign | nd_cond | nd_comma | nd_member | nd_addr | nd_deref
  | nd_not | nd_bitnot | nd_logand | nd_logor
  | nd_return | nd_if | nd_for | nd_do | nd_switch | nd_case | nd_block
  | nd_goto | nd_goto_expr | nd_label | nd_label_val
  | nd_funcall | nd_expr_stmt | nd_stmt_expr
  | nd_var | nd_vla_ptr | nd_num | nd_cast | nd_memzero
  | nd_asm | nd_cas | nd_exch
deriving DecidableEq, Repr

theorem NodeKind.sizeOf_one (k : NodeKind) : sizeOf k = 1 := by
  cases k <;> rfl

/-- The `Node` struct of chibicc: one constructor mirroring the C
struct, with every nullable child pointer an `Option Node`.  Field
names follow the C (`then`, `begin`, `end` get a prime because they are
Lean keywords). -/
inductive Node where
  | mk (kind : NodeKind) (next : Option Node) (ty : Option CType)
       (tok : Option Tok)
       (lhs rhs : Option Node)
       (body : Option Node)
       (cond then' els init inc : Option Node)
       (brk_label cont_label : Option String)
       (args : Option Node)
       (var : Option LVar) (member : Option Mem)
       (val : Int) (fval : Rat)
       (begin' end' : Int)
       (label unique_label asm_str : Option String)
       (case_next default_case : Option Node)
       (cas_addr cas_old cas_new : Option Node)

/-- The mutable offset/stack-size store.  `offs id` models the `offset`
field of the Obj with identity `id` (written by the layout passes, read
through every pointer to that Obj); `ssize id` models a function Obj's
`stack_size` field. -/
structure Store where
  offs : Nat → Int
  ssize : Nat → Int

/-- Write one object's `offset` field. -/
def Store.setOff (s : Store) (id : Nat) (v : Int) : Store :=
  { s with offs := fun i => if i = id then v else s.offs i }

/-- Write one function's `stack_size` field. -/
def Store.setSsize (s : Store) (id : Nat) (v : Int) : Store :=
  { s with ssize := fun i => if i = id then v else s.ssize i }

/-- glibc renders `%s` of a null `char *` as `(null)`; the model keeps
that behaviour for nullable name fields interpolated into output. -/
def showName : Option String → String
  | some s => s
  | none => "(null)"

/-- The value printed by `%d` for an `int`-cast of an `int64_t`:
wrap to the signed 32-bit range. -/
def wrap32 (v : Int) : Int :=
  (v + 2 ^ 31) % 2 ^ 32 - 2 ^ 31

def Node.kind : Node → NodeKind
  | .mk k _ _ _ _ _ _ _ _ _ _ _ _ _ _ _ _ _ _ _ _ _ _ _ _ _ _ _ _ => k

def Node.next : Node → Option Node
  | .mk _ nx _ _ _ _ _ _ _ _ _ _ _ _ _ _ _ _ _ _ _ _ _ _ _ _ _ _ _ => nx

def Node.ty : Node → Option CType
  | .mk _ _ t _ _ _ _ _ _ _ _ _ _ _ _ _ _ _ _ _ _ _ _ _ _ _ _ _ _ => t

def Node.lhs : Node → Option Node
  | .mk _ _ _ _ l _ _ _ _ _ _ _ _ _ _ _ _ _ _ _ _ _ _ _ _ _ _ _ _ => l

def Node.var : Node → Option LVar
  | .mk _ _ _ _ _ _ _ _ _ _ _ _ _ _ _ v _ _ _ _ _ _ _ _ _ _ _ _ _ => v

/-! ## The code generator

Translation of `gen_addr` / `gen_expr` / `gen_stmt` of
`codegen_wasm.c`.  The C functions print lines as they walk the tree
and call `error_tok` (which terminates the process) on unsupported
nodes; the model returns the printed instruction list in
`Except String`, the error message being the `error_tok` format string.
A null `Node *` argument is `none`: `gen_expr(NULL)` and
`gen_stmt(NULL)` return without printing, while `gen_addr` and the
C's unchecked pointer dereferences would fault on null, which the model
reports as a "null deref" error. -/

/-- The ND_CAST conversion suffix (`codegen_wasm.c` lines 256-293,
after the operand has been generated).  `if (!from || !to) return;`
becomes the empty list on a null side. -/
def cast_instrs (fromTy toTy : Option CType) : List Instr :=
  match fromTy, toTy with
  | some f, some t =>
    if !is_wasm_float (some f) && !is_wasm_float (some t) &&
       !is_wasm_i64 (some f) && !is_wasm_i64 (some t) then
      -- i32 -> i32, possibly with truncation
      if t.kind = .ty_bool then
        [.i32_const 0, .binop .i32 "ne"]
      else if t.size = 1 then
        if t.is_unsigned then [.mask_and 255] else [.i32_extend8_s]
      else if t.size = 2 then
        if t.is_unsigned then [.mask_and 65535] else [.i32_extend16_s]
      else []
    -- float conversions
    else if is_wasm_f32 (some f) && is_wasm_f64 (some t) then
      [.f64_promote_f32]
    else if is_wasm_f64 (some f) && is_wasm_f32 (some t) then
      [.f32_demote_f64]
    else if is_wasm_float (some f) && !is_wasm_float (some t) then
      -- float -> int
      if is_wasm_f32 (some f) then
        if t.is_unsigned then [.i32_trunc_f32_u] else [.i32_trunc_f32_s]
      else
        if t.is_unsigned then [.i32_trunc_f64_u] else [.i32_trunc_f64_s]
    else if !is_wasm_float (some f) && is_wasm_float (some t) then
      -- int -> float
      if is_wasm_f32 (some t) then
        if f.is_unsigned then [.f32_convert_i32_u] else [.f32_convert_i32_s]
      else
        if f.is_unsigned then [.f64_convert_i32_u] else [.f64_convert_i32_s]
    else []
  | _, _ => []

/-- The ND_VAR case of `gen_addr`: local address is `$__bp + offset`,
global address is the constant `offset` (read from the store through
the node's `var` pointer, which the C dereferences unchecked). -/
def var_addr (σ : Store) : Option LVar → Except String (List Instr)
  | some v =>
    if v.is_local then
      .ok [.addr_bp (σ.offs v.id)]
    else
      .ok [.addr_global (σ.offs v.id) v.name]
  | none => .error "null deref (node->var)"

/-- The ND_MEMBER tail of `gen_addr`: add the member's offset. -/
def member_tail : Option Mem → Except String (List Instr)
  | some m => .ok [.i32_const m.offset, .binop .i32 "add"]
  | none => .error "null deref (node->member)"

/-- The case-test chain of the ND_SWITCH lowering: for each node on the
`case_next` list, reload the selector, compare with `begin`, and open
an `(if (then`; the innermost body is the switch body, and the closing
`))` lines are the rendering of `if_case`. -/
def switch_cases (cs : Option Node) (bodyI : List Instr) : List Instr :=
  match cs with
  | none => bodyI
  | some (.mk _ _ _ _ _ _ _ _ _ _ _ _ _ _ _ _ _ _ _ be _ _ _ _ cnext _ _ _ _) =>
    [.local_get "__tmp_i32", .i32_const be, .binop .i32 "eq",
     .if_case (switch_cases cnext bodyI)]
termination_by sizeOf cs
decreasing_by
  all_goals simp_wf
  all_goals omega

set_option maxHeartbeats 2000000

mutual

/-- `gen_addr` of `codegen_wasm.c`: push the address of an lvalue. -/
def gen_addr (σ : Store) : Option Node → Except String (List Instr)
  | none => .error "null deref (gen_addr on null node)"
  | some (.mk k _ _ _ lhs rhs _ _ _ _ _ _ _ _ _ var mem _ _ _ _ _ _ _ _ _ _ _ _) =>
    match k with
    | .nd_var => var_addr σ var
    | .nd_deref => gen_expr σ lhs
    | .nd_comma => do
      let a ← gen_expr σ lhs
      let b ← gen_addr σ rhs
      .ok (a ++ [.drop] ++ b)
    | .nd_member => do
      let a ← gen_addr σ lhs
      let t ← member_tail mem
      .ok (a ++ t)
    | _ => .error "not an lvalue (wasm gen_addr)"
termination_by n => sizeOf n * 8 + 0
decreasing_by
  all_goals simp_wf
  all_goals try simp only [NodeKind.sizeOf_one]
  all_goals omega

/-- `gen_expr` of `codegen_wasm.c`: push the value of an expression. -/
def gen_expr (σ : Store) : Option Node → Except String (List Instr)
  | none => .ok []
  | some (.mk k _ ty _ lhs rhs body cond then' els _ _ _ _ args var mem val fval _ _ _ _ _ _ _ _ _ _) =>
    match k with
    | .nd_null_expr => .ok [.i32_const 0]
    | .nd_num =>
      if is_wasm_f32 ty then .ok [.f32_const fval]
      else if is_wasm_f64 ty then .ok [.f64_const fval]
      else if is_wasm_i64 ty then .ok [.i64_const val]
      else .ok [.i32_const (wrap32 val)]
    | .nd_var => do
      -- gen_addr(node) on an ND_VAR node, then wasm_load
      let a ← var_addr σ var
      .ok (a ++ wasm_load ty)
    | .nd_member => do
      -- gen_addr(node) on an ND_MEMBER node, then wasm_load
      let a ← gen_addr σ lhs
      let t ← member_tail mem
      .ok (a ++ t ++ wasm_load ty)
    | .nd_addr => gen_addr σ lhs
    | .nd_deref => do
      let a ← gen_expr σ lhs
      .ok (a ++ wasm_load ty)
    | .nd_neg =>
      if is_wasm_f32 ty then do
        let a ← gen_expr σ lhs
        .ok (a ++ [.f32_neg])
      else if is_wasm_f64 ty then do
        let a ← gen_expr σ lhs
        .ok (a ++ [.f64_neg])
      else do
        let a ← gen_expr σ lhs
        .ok ([.i32_const 0] ++ a ++ [.binop .i32 "sub"])
    | .nd_not => do
      let a ← gen_expr σ lhs
      .ok (a ++ [.i32_eqz])
    | .nd_bitnot => do
      let a ← gen_expr σ lhs
      .ok (a ++ [.i32_const (-1), .binop .i32 "xor"])
    | .nd_assign => do
      let a ← gen_addr σ lhs
      let b ← gen_expr σ rhs
      if is_wasm_float ty then
        let wt := wasm_type ty
        .ok (a ++ b ++
          [.local_set ("__tmp_" ++ wt), .local_get ("__tmp_" ++ wt)] ++
          wasm_store ty ++ [.local_get ("__tmp_" ++ wt)])
      else
        .ok (a ++ b ++ [.local_set "__tmp_i32", .local_get "__tmp_i32"] ++
          wasm_store ty ++ [.local_get "__tmp_i32"])
    | .nd_comma => do
      let a ← gen_expr σ lhs
      let b ← gen_expr σ rhs
      .ok (a ++ [.drop] ++ b)
    | .nd_cast => do
      let a ← gen_expr σ lhs
      match lhs with
      | some l => .ok (a ++ cast_instrs l.ty ty)
      | none => .error "null deref (node->lhs->ty in ND_CAST)"
    | .nd_cond => do
      let wt := wasm_type_w ty
      let c ← gen_expr σ cond
      let t ← gen_expr σ then'
      let e ← cond_else_code σ els wt
      .ok (c ++ [.if_result wt t e])
    | .nd_logand => do
      let a ← gen_expr σ lhs
      let b ← gen_expr σ rhs
      .ok (a ++ [.if_logand (b ++ [.i32_const 0, .binop .i32 "ne"])])
    | .nd_logor => do
      let a ← gen_expr σ lhs
      let b ← gen_expr σ rhs
      .ok (a ++ [.if_logor (b ++ [.i32_const 0, .binop .i32 "ne"])])
    | .nd_funcall => do
      let as' ← gen_args σ args
      match lhs with
      | some l =>
        if l.kind = .nd_var then
          match l.var with
          | some v => .ok (as' ++ [.call v.name])
          | none => .error "null deref (node->lhs->var in ND_FUNCALL)"
        else
          .ok (as' ++ [.comment "TODO: indirect call", .drop, .i32_const 0])
      | none => .error "null deref (node->lhs in ND_FUNCALL)"
    | .nd_stmt_expr => gen_stmt_expr_body σ body
    | .nd_memzero =>
      match var with
      | some v =>
        match v.ty with
        | some vt =>
          .ok [.comment ("memzero " ++ showName v.name ++ " (" ++
                toString vt.size ++ " bytes)"),
               .addr_bp (σ.offs v.id), .i32_const 0, .i32_const vt.size,
               .memory_fill]
        | none => .error "null deref (node->var->ty in ND_MEMZERO)"
      | none => .error "null deref (node->var in ND_MEMZERO)"
    | _ =>
      -- binary operations
      match lhs, rhs with
      | some l, some r => do
        let a ← gen_expr σ (some l)
        let b ← gen_expr σ (some r)
        let isUns := match l.ty with
          | some lt => lt.is_unsigned
          | none => false
        let isFl := is_wasm_float ty
        let t := if isFl then wasm_type_w ty else .i32
        match k with
        | .nd_add => .ok (a ++ b ++ [.binop t "add"])
        | .nd_sub => .ok (a ++ b ++ [.binop t "sub"])
        | .nd_mul => .ok (a ++ b ++ [.binop t "mul"])
        | .nd_div =>
          if isFl then .ok (a ++ b ++ [.binop t "div"])
          else .ok (a ++ b ++ [.binop t (if isUns then "div_u" else "div_s")])
        | .nd_mod => .ok (a ++ b ++ [.binop t (if isUns then "rem_u" else "rem_s")])
        | .nd_bitand => .ok (a ++ b ++ [.binop t "and"])
        | .nd_bitor => .ok (a ++ b ++ [.binop t "or"])
        | .nd_bitxor => .ok (a ++ b ++ [.binop t "xor"])
        | .nd_shl => .ok (a ++ b ++ [.binop t "shl"])
        | .nd_shr => .ok (a ++ b ++ [.binop t (if isUns then "shr_u" else "shr_s")])
        | .nd_eq => .ok (a ++ b ++ [.binop t "eq"])
        | .nd_ne => .ok (a ++ b ++ [.binop t "ne"])
        | .nd_lt =>
          if isFl then .ok (a ++ b ++ [.binop t "lt"])
          else .ok (a ++ b ++ [.binop t (if isUns then "lt_u" else "lt_s")])
        | .nd_le =>
          if isFl then .ok (a ++ b ++ [.binop t "le"])
          else .ok (a ++ b ++ [.binop t (if isUns then "le_u" else "le_s")])
        | _ => .error "unsupported expression in wasm codegen"
      | _, _ => .error "unsupported expression in wasm codegen"
termination_by n => sizeOf n * 8 + 1
decreasing_by
  all_goals simp_wf
  all_goals try simp only [NodeKind.sizeOf_one]
  all_goals omega

/-- The argument-pushing loop of ND_FUNCALL
(`for (Node *arg = node->args; arg; arg = arg->next) gen_expr(arg);`). -/
def gen_args (σ : Store) : Option Node → Except String (List Instr)
  | none => .ok []
  | some (.mk k nx ty tk lhs rhs bd cond then' els init inc bl cl args var mem
      val fv be en la ul astr cnext dcase caddr cold cnew) => do
    let a ← gen_expr σ (some (.mk k nx ty tk lhs rhs bd cond then' els init inc
      bl cl args var mem val fv be en la ul astr cnext dcase caddr cold cnew))
    let rest ← gen_args σ nx
    .ok (a ++ rest)
termination_by n => sizeOf n * 8 + 2
decreasing_by
  all_goals simp_wf
  all_goals try simp only [NodeKind.sizeOf_one]
  all_goals omega

/-- The else arm of the ND_COND lowering: `if (node->els)
gen_expr(node->els); else println("(%s.const 0)", wt);`. -/
def cond_else_code (σ : Store) (els : Option Node) (wt : WTy) :
    Except String (List Instr) :=
  match els with
  | some el => gen_expr σ (some el)
  | none => .ok [.const_zero wt]
termination_by sizeOf els * 8 + 6
decreasing_by
  all_goals simp_wf
  all_goals omega

/-- The conditional-test segment of the ND_FOR lowering:
`if (node->cond) { gen_expr(node->cond); (i32.eqz); (br_if $brk); }`. -/
def for_cond_code (σ : Store) (cond : Option Node) (brk : String) :
    Except String (List Instr) :=
  match cond with
  | some e => do
    let c ← gen_expr σ (some e)
    pure (c ++ [.i32_eqz, .br_if brk])
  | none => pure []
termination_by sizeOf cond * 8 + 6
decreasing_by
  all_goals simp_wf
  all_goals omega

/-- The increment segment of the ND_FOR lowering:
`if (node->inc) { gen_expr(node->inc); (drop); }`. -/
def for_inc_code (σ : Store) (inc : Option Node) :
    Except String (List Instr) :=
  match inc with
  | some e => do
    let x ← gen_expr σ (some e)
    pure (x ++ [.drop])
  | none => pure []
termination_by sizeOf inc * 8 + 6
decreasing_by
  all_goals simp_wf
  all_goals omega

/-- The else arm of the ND_IF lowering. -/
def if_else_code (σ : Store) (els : Option Node) :
    Except String (Option (List Instr)) :=
  match els with
  | some el => do
    let x ← gen_stmt σ (some el)
    pure (some x)
  | none => pure none
termination_by sizeOf els * 8 + 6
decreasing_by
  all_goals simp_wf
  all_goals omega

/-- `gen_stmt` of `codegen_wasm.c`: lower one statement. -/
def gen_stmt (σ : Store) : Option Node → Except String (List Instr)
  | none => .ok []
  | some (.mk k _ _ _ lhs _ body cond then' els init inc bl cl _ _ _ _ _ _ _
      label ulabel _ cnext _ _ _ _) =>
    match k with
    | .nd_return => do
      -- `if (node->lhs) gen_expr(node->lhs);`: gen_expr itself returns
      -- nothing on null, so the null check is the callee's
      let a ← gen_expr σ lhs
      .ok (a ++ [.br "__return"])
    | .nd_expr_stmt => do
      let a ← gen_expr σ lhs
      let needDrop := match lhs with
        | some l =>
          match l.ty with
          | some lt => lt.kind != TyKind.ty_void
          | none => false
        | none => false
      .ok (a ++ if needDrop then [.drop] else [])
    | .nd_block => gen_block σ body
    | .nd_if => do
      let c ← gen_expr σ cond
      let t ← gen_stmt σ then'
      let e ← if_else_code σ els
      .ok (c ++ [.if_stmt t e])
    | .nd_for => do
      -- `if (node->init) gen_stmt(node->init);`: the null check is the
      -- callee's
      let i ← gen_stmt σ init
      let condCode ← for_cond_code σ cond (showName bl)
      let b ← gen_stmt σ then'
      let incCode ← for_inc_code σ inc
      .ok (i ++ [.block_brk (showName bl)
        [.loop_cont (showName cl)
          (condCode ++ b ++ incCode ++ [.br (showName cl)])]])
    | .nd_do => do
      let b ← gen_stmt σ then'
      let c ← gen_expr σ cond
      .ok [.block_brk (showName bl)
        [.loop_cont (showName cl) (b ++ c ++ [.br_if (showName cl)])]]
    | .nd_switch => do
      let c ← gen_expr σ cond
      let b ← gen_stmt σ then'
      .ok (c ++ [.local_set "__tmp_i32",
        .block_brk_switch (showName bl) (switch_cases cnext b)])
    | .nd_case => gen_stmt σ lhs
    | .nd_goto => .ok [.comment ("TODO: goto " ++ showName ulabel)]
    | .nd_label => do
      let s ← gen_stmt σ lhs
      .ok ([.comment ("label: " ++ showName label)] ++ s)
    | _ => .error "unsupported statement in wasm codegen"
termination_by n => sizeOf n * 8 + 3
decreasing_by
  all_goals simp_wf
  all_goals try simp only [NodeKind.sizeOf_one]
  all_goals omega

/-- The ND_BLOCK loop
(`for (Node *n = node->body; n; n = n->next) gen_stmt(n);`). -/
def gen_block (σ : Store) : Option Node → Except String (List Instr)
  | none => .ok []
  | some (.mk k nx ty tk lhs rhs bd cond then' els init inc bl cl args var mem
      val fv be en la ul astr cnext dcase caddr cold cnew) => do
    let a ← gen_stmt σ (some (.mk k nx ty tk lhs rhs bd cond then' els init inc
      bl cl args var mem val fv be en la ul astr cnext dcase caddr cold cnew))
    let rest ← gen_block σ nx
    .ok (a ++ rest)
termination_by n => sizeOf n * 8 + 4
decreasing_by
  all_goals simp_wf
  all_goals try simp only [NodeKind.sizeOf_one]
  all_goals omega

/-- The ND_STMT_EXPR body loop: every statement but the last is lowered
as a statement; a last ND_EXPR_STMT is lowered as an expression, and a
last statement of any other kind is lowered as a statement followed by
a zero to satisfy the result contract. -/
def gen_stmt_expr_body (σ : Store) : Option Node → Except String (List Instr)
  | none => .ok []
  | some (.mk k nx ty tk lhs rhs bd cond then' els init inc bl cl args var mem
      val fv be en la ul astr cnext dcase caddr cold cnew) =>
    match nx with
    | none =>
      if k = .nd_expr_stmt then
        gen_expr σ lhs
      else do
        let s ← gen_stmt σ (some (.mk k none ty tk lhs rhs bd cond then' els
          init inc bl cl args var mem val fv be en la ul astr cnext dcase caddr
          cold cnew))
        .ok (s ++ [.i32_const 0])
    | some nx2 => do
      let s ← gen_stmt σ (some (.mk k (some nx2) ty tk lhs rhs bd cond then'
        els init inc bl cl args var mem val fv be en la ul astr cnext dcase
        caddr cold cnew))
      let rest ← gen_stmt_expr_body σ (some nx2)
      .ok (s ++ rest)
termination_by n => sizeOf n * 8 + 5
decreasing_by
  all_goals simp_wf
  all_goals try simp only [NodeKind.sizeOf_one]
  all_goals omega

end

/-! ## A typed operand-stack checker

A small validator in the style of the wasm 1.0 validation algorithm,
specialised to the instruction forms the generator emits.  `Flow.ok st`
is the typed operand stack; `Flow.dead` is the polymorphic state after
a taken branch (instructions after an unconditional `br` in the same
block are skipped, which is the permissive reading of
unreachable-code validation).  Structured instructions validate their
bodies from an empty stack against the block's result arity, matching
the wasm rule that a block cannot touch its enclosing operand stack. -/

inductive Flow where
  | ok (st : List WTy)
  | dead
deriving DecidableEq, Repr

/-- Association-list lookup keyed by strings (labels, locals,
function names). -/
def lookupStr {α : Type} : List (String × α) → String → Option α
  | [], _ => none
  | (k, v) :: rest, x => if k = x then some v else lookupStr rest x

/-- Pop one value of the given type. -/
def popT (t : WTy) : List WTy → Option (List WTy)
  | [] => none
  | x :: st => if x = t then some st else none

/-- Pop a list of types, first element popped first (so the list is
given top-of-stack first). -/
def popTs : List WTy → List WTy → Option (List WTy)
  | [], st => some st
  | t :: ts, st =>
    match popT t st with
    | some st' => popTs ts st'
    | none => none

/-- Pop `pops` (top first) and push `pushes`. -/
def effect (pops pushes : List WTy) (st : List WTy) : Option Flow :=
  match popTs pops st with
  | some st' => some (.ok (pushes ++ st'))
  | none => none

/-- The comparison suffixes of the binary fallback, whose wasm result
is i32 regardless of the operand type. -/
def isCmpOp (op : String) : Bool :=
  op = "eq" || op = "ne" || op = "lt" || op = "le" ||
  op = "lt_s" || op = "lt_u" || op = "le_s" || op = "le_u"

/-- Function-signature environment: callee name to parameter types and
optional result. -/
def FEnv : Type := List (String × (List WTy × Option WTy))

/-- Local environment: `(local ...)` declarations in scope. -/
def EEnv : Type := List (String × WTy)

/-- Label environment: block/loop label to branch arity. -/
def LEnv : Type := List (String × List WTy)

/-- The locals every emitted function declares before any body code
(`$__bp` and the three scratch temporaries). -/
def stdE : EEnv :=
  [("__bp", .i32), ("__tmp_i32", .i32), ("__tmp_f32", .f32),
   ("__tmp_f64", .f64)]

mutual

/-- Validate one instruction against the typed stack. -/
def checkI (F : FEnv) (E : EEnv) (L : LEnv) : Instr → List WTy → Option Flow
  | .i32_const _, st => some (.ok (.i32 :: st))
  | .i64_const _, st => some (.ok (.i64 :: st))
  | .f32_const _, st => some (.ok (.f32 :: st))
  | .f64_const _, st => some (.ok (.f64 :: st))
  | .const_zero t, st => some (.ok (t :: st))
  | .addr_bp _, st => some (.ok (.i32 :: st))
  | .addr_global _ _, st => some (.ok (.i32 :: st))
  | .f32_load, st => effect [.i32] [.f32] st
  | .f64_load, st => effect [.i32] [.f64] st
  | .i32_load8_u, st => effect [.i32] [.i32] st
  | .i32_load8_s, st => effect [.i32] [.i32] st
  | .i32_load16_u, st => effect [.i32] [.i32] st
  | .i32_load16_s, st => effect [.i32] [.i32] st
  | .i32_load, st => effect [.i32] [.i32] st
  | .f32_store, st => effect [.f32, .i32] [] st
  | .f64_store, st => effect [.f64, .i32] [] st
  | .i32_store8, st => effect [.i32, .i32] [] st
  | .i32_store16, st => effect [.i32, .i32] [] st
  | .i32_store, st => effect [.i32, .i32] [] st
  | .drop, st =>
    match st with
    | _ :: st' => some (.ok st')
    | [] => none
  | .f32_neg, st => effect [.f32] [.f32] st
  | .f64_neg, st => effect [.f64] [.f64] st
  | .i32_eqz, st => effect [.i32] [.i32] st
  | .binop t op, st =>
    if isCmpOp op then effect [t, t] [.i32] st else effect [t, t] [t] st
  | .i32_extend8_s, st => effect [.i32] [.i32] st
  | .i32_extend16_s, st => effect [.i32] [.i32] st
  | .mask_and _, st => effect [.i32] [.i32] st
  | .f64_promote_f32, st => effect [.f32] [.f64] st
  | .f32_demote_f64, st => effect [.f64] [.f32] st
  | .i32_trunc_f32_u, st => effect [.f32] [.i32] st
  | .i32_trunc_f32_s, st => effect [.f32] [.i32] st
  | .i32_trunc_f64_u, st => effect [.f64] [.i32] st
  | .i32_trunc_f64_s, st => effect [.f64] [.i32] st
  | .f32_convert_i32_u, st => effect [.i32] [.f32] st
  | .f32_convert_i32_s, st => effect [.i32] [.f32] st
  | .f64_convert_i32_u, st => effect [.i32] [.f64] st
  | .f64_convert_i32_s, st => effect [.i32] [.f64] st
  | .local_set n, st =>
    match lookupStr E n with
    | some t => effect [t] [] st
    | none => none
  | .local_get n, st =>
    match lookupStr E n with
    | some t => some (.ok (t :: st))
    | none => none
  | .call nm, st =>
    match nm with
    | some f =>
      match lookupStr F f with
      | some (ps, r) =>
        effect ps.reverse (match r with | some t => [t] | none => []) st
      | none => none
    | none => none
  | .memory_fill, st => effect [.i32, .i32, .i32] [] st
  | .comment _, st => some (.ok st)
  | .br l, st =>
    match lookupStr L l with
    | some ar =>
      match popTs ar.reverse st with
      | some _ => some .dead
      | none => none
    | none => none
  | .br_if l, st =>
    match st with
    | .i32 :: st' =>
      match lookupStr L l with
      | some ar =>
        match popTs ar.reverse st' with
        | some _ => some (.ok st')
        | none => none
      | none => none
    | _ => none
  | .block_brk l body, st =>
    if checkBody F E ((l, []) :: L) body [] then some (.ok st) else none
  | .loop_cont l body, st =>
    if checkBody F E ((l, []) :: L) body [] then some (.ok st) else none
  | .block_brk_switch l body, st =>
    if checkBody F E ((l, []) :: L) body [] then some (.ok st) else none
  | .if_case body, st =>
    match st with
    | .i32 :: st' =>
      if checkBody F E L body [] then some (.ok st') else none
    | _ => none
  | .if_result t a b, st =>
    match st with
    | .i32 :: st' =>
      if checkBody F E L a [t] && checkBody F E L b [t] then
        some (.ok (t :: st'))
      else none
    | _ => none
  | .if_logand b, st =>
    match st with
    | .i32 :: st' =>
      if checkBody F E L b [.i32] then some (.ok (.i32 :: st')) else none
    | _ => none
  | .if_logor b, st =>
    match st with
    | .i32 :: st' =>
      if checkBody F E L b [.i32] then some (.ok (.i32 :: st')) else none
    | _ => none
  | .if_stmt a b, st =>
    match st with
    | .i32 :: st' =>
      if checkBody F E L a [] &&
         (match b with | some e => checkBody F E L e [] | none => true) then
        some (.ok st')
      else none
    | _ => none
  | .block_return t body, st =>
    match t with
    | some x =>
      if checkBody F E (("__return", [x]) :: L) body [x] then
        some (.ok (x :: st))
      else none
    | none =>
      if checkBody F E (("__return", []) :: L) body [] then some (.ok st)
      else none

/-- A structured body validates when, started from the empty stack, it
falls through with exactly the result arity or ends in a taken
branch. -/
def checkBody (F : FEnv) (E : EEnv) (L : LEnv) (body : List Instr)
    (res : List WTy) : Bool :=
  match checkSeq F E L body (.ok []) with
  | some (.ok s) => s == res
  | some .dead => true
  | none => false

/-- Validate an instruction sequence; a `dead` state skips the
remainder of the enclosing block. -/
def checkSeq (F : FEnv) (E : EEnv) (L : LEnv) :
    List Instr → Flow → Option Flow
  | [], f => some f
  | i :: is, f =>
    match f with
    | .dead => some .dead
    | .ok st =>
      match checkI F E L i st with
      | some f' => checkSeq F E L is f'
      | none => none

end

mutual

/-- Number of `(drop)` lines in one rendered instruction, bodies
included. -/
def Instr.dropCount : Instr → Nat
  | .drop => 1
  | .block_brk _ b => dropCounts b
  | .loop_cont _ b => dropCounts b
  | .block_brk_switch _ b => dropCounts b
  | .if_case b => dropCounts b
  | .if_result _ a b => dropCounts a + dropCounts b
  | .if_logand b => dropCounts b
  | .if_logor b => dropCounts b
  | .if_stmt a b =>
    dropCounts a + (match b with | some e => dropCounts e | none => 0)
  | .block_return _ b => dropCounts b
  | _ => 0

/-- `Instr.dropCount` summed over a list of instructions. -/
def dropCounts : List Instr → Nat
  | [] => 0
  | i :: is => Instr.dropCount i + dropCounts is

end

/-! ## Well-formedness for the stack-discipline claim

Sufficient side conditions on a node under which the generated code
validates.  They record exactly the type-consistency the emitted
instructions need: subexpressions must push the wasm type their
operator consumes, i64-typed operands are excluded where the generator
hard-codes i32 operators or the i32 scratch local, casts must not
change i64-ness, and calls must agree with the module's function
signatures.  `WFexpr1` is for expressions that push one value,
`WFexpr0` for the two supported kinds that push none (a call to a void
function, and MEMZERO whose `memory.fill` consumes all three pushed
operands), `WFaddr` for lvalues, `WFstmt` for statements. -/

/-- The type of a child expression node, null propagating. -/
def childTy : Option Node → Option CType
  | some l => l.ty
  | none => none

/-- The operator type prefix chosen by the binary fallback: the node's
wasm type for float nodes, i32 otherwise. -/
def binT (ty : Option CType) : WTy :=
  if is_wasm_float ty then wasm_type_w ty else .i32

/-- A cast preserves the stack-discipline contract exactly when it
does not change i64-ness (and, when one side is null, when the
generated no-op happens to be type-correct). -/
def castOK (fromTy toTy : Option CType) : Prop :=
  match fromTy, toTy with
  | some _, some _ => is_wasm_i64 fromTy = is_wasm_i64 toTy
  | _, _ => wasm_type_w fromTy = wasm_type_w toTy

/-- The wasm types of a FUNCALL's argument chain, in push order. -/
def argTys : Option Node → List WTy
  | none => []
  | some (.mk _ nx ty _ _ _ _ _ _ _ _ _ _ _ _ _ _ _ _ _ _ _ _ _ _ _ _ _ _) =>
    wasm_type_w ty :: argTys nx
termination_by n => sizeOf n
decreasing_by
  all_goals simp_wf
  all_goals omega

mutual

/-- Side conditions for `gen_addr` to push one i32 address. -/
def WFaddr (F : FEnv) (L : LEnv) : Node → Prop
  | .mk k _ _ _ lhs rhs _ _ _ _ _ _ _ _ _ _ _ _ _ _ _ _ _ _ _ _ _ _ _ =>
    match k with
    | .nd_var => True
    | .nd_deref =>
      (match lhs with
       | some l => WFexpr1 F L l ∧ wasm_type_w l.ty = .i32
       | none => False)
    | .nd_comma =>
      (match lhs with
       | some l => WFexpr1 F L l
       | none => False) ∧
      (match rhs with
       | some r => WFaddr F L r
       | none => True)
    | .nd_member =>
      (match lhs with
       | some l => WFaddr F L l
       | none => True)
    | _ => True
termination_by n => sizeOf n * 8 + 0
decreasing_by
  all_goals simp_wf
  all_goals try simp only [NodeKind.sizeOf_one]
  all_goals omega

/-- Side conditions for `gen_expr` to push exactly one value of type
`wasm_type(node.ty)`. -/
def WFexpr1 (F : FEnv) (L : LEnv) : Node → Prop
  | .mk k _ ty _ lhs rhs body cond then' els _ _ _ _ args _ _ _ _ _ _ _ _ _ _ _ _ _ _ =>
    match k with
    | .nd_null_expr => wasm_type_w ty = .i32
    | .nd_num => True
    | .nd_var => is_wasm_i64 ty = false
    | .nd_member =>
      (match lhs with
       | some l => WFaddr F L l
       | none => True) ∧
      is_wasm_i64 ty = false
    | .nd_addr =>
      (match lhs with
       | some l => WFaddr F L l
       | none => True) ∧
      wasm_type_w ty = .i32
    | .nd_deref =>
      (match lhs with
       | some l => WFexpr1 F L l ∧ wasm_type_w l.ty = .i32
       | none => False) ∧
      is_wasm_i64 ty = false
    | .nd_neg =>
      if is_wasm_f32 ty then
        (match lhs with
         | some l => WFexpr1 F L l ∧ wasm_type_w l.ty = .f32
         | none => False)
      else if is_wasm_f64 ty then
        (match lhs with
         | some l => WFexpr1 F L l ∧ wasm_type_w l.ty = .f64
         | none => False)
      else
        (match lhs with
         | some l => WFexpr1 F L l ∧ wasm_type_w l.ty = .i32
         | none => False) ∧
        is_wasm_i64 ty = false
    | .nd_not =>
      (match lhs with
       | some l => WFexpr1 F L l ∧ wasm_type_w l.ty = .i32
       | none => False) ∧
      wasm_type_w ty = .i32
    | .nd_bitnot =>
      (match lhs with
       | some l => WFexpr1 F L l ∧ wasm_type_w l.ty = .i32
       | none => False) ∧
      wasm_type_w ty = .i32
    | .nd_assign =>
      (match lhs with
       | some l => WFaddr F L l
       | none => True) ∧
      (match rhs with
       | some r => WFexpr1 F L r ∧ wasm_type_w r.ty = wasm_type_w ty
       | none => False) ∧
      ty.isSome = true ∧
      (is_wasm_float ty = true ∨ is_wasm_i64 ty = false)
    | .nd_comma =>
      (match lhs with
       | some l => WFexpr1 F L l
       | none => False) ∧
      (match rhs with
       | some r => WFexpr1 F L r ∧ wasm_type_w r.ty = wasm_type_w ty
       | none => False)
    | .nd_cast =>
      (match lhs with
       | some l => WFexpr1 F L l ∧ castOK l.ty ty
       | none => True)
    | .nd_cond =>
      (match cond with
       | some c => WFexpr1 F L c ∧ wasm_type_w c.ty = .i32
       | none => False) ∧
      (match then' with
       | some t => WFexpr1 F L t ∧ wasm_type_w t.ty = wasm_type_w ty
       | none => False) ∧
      (match els with
       | some e => WFexpr1 F L e ∧ wasm_type_w e.ty = wasm_type_w ty
       | none => True)
    | .nd_logand =>
      (match lhs with
       | some l => WFexpr1 F L l ∧ wasm_type_w l.ty = .i32
       | none => False) ∧
      (match rhs with
       | some r => WFexpr1 F L r ∧ wasm_type_w r.ty = .i32
       | none => False) ∧
      wasm_type_w ty = .i32
    | .nd_logor =>
      (match lhs with
       | some l => WFexpr1 F L l ∧ wasm_type_w l.ty = .i32
       | none => False) ∧
      (match rhs with
       | some r => WFexpr1 F L r ∧ wasm_type_w r.ty = .i32
       | none => False) ∧
      wasm_type_w ty = .i32
    | .nd_funcall =>
      (match lhs with
       | some l =>
         l.kind = .nd_var ∧
         (match l.var with
          | some v =>
            (match v.name with
             | some nm =>
               lookupStr F nm = some (argTys args, some (wasm_type_w ty))
             | none => False)
          | none => True)
       | none => True) ∧
      WFargs F L args
    | .nd_stmt_expr => WFseBody F L ty body
    | .nd_memzero => False
    | .nd_add => WFbinArith F L ty lhs rhs
    | .nd_sub => WFbinArith F L ty lhs rhs
    | .nd_mul => WFbinArith F L ty lhs rhs
    | .nd_div => WFbinArith F L ty lhs rhs
    | .nd_mod => WFbinArith F L ty lhs rhs
    | .nd_bitand => WFbinArith F L ty lhs rhs
    | .nd_bitor => WFbinArith F L ty lhs rhs
    | .nd_bitxor => WFbinArith F L ty lhs rhs
    | .nd_shl => WFbinArith F L ty lhs rhs
    | .nd_shr => WFbinArith F L ty lhs rhs
    | .nd_eq => WFbinCmp F L ty lhs rhs
    | .nd_ne => WFbinCmp F L ty lhs rhs
    | .nd_lt => WFbinCmp F L ty lhs rhs
    | .nd_le => WFbinCmp F L ty lhs rhs
    | _ => True
termination_by n => sizeOf n * 8 + 1
decreasing_by
  all_goals simp_wf
  all_goals try simp only [NodeKind.sizeOf_one]
  all_goals omega

/-- Side conditions for an arithmetic binary node: both operands push
the operator type, and a non-float node must not be i64 (the generator
would emit `i32` operators under i64 operands). -/
def WFbinArith (F : FEnv) (L : LEnv) (ty : Option CType)
    (lhs rhs : Option Node) : Prop :=
  (match lhs with
   | some l => WFexpr1 F L l ∧ wasm_type_w l.ty = binT ty
   | none => False) ∧
  (match rhs with
   | some r => WFexpr1 F L r ∧ wasm_type_w r.ty = binT ty
   | none => False) ∧
  (is_wasm_float ty = true ∨ is_wasm_i64 ty = false)
termination_by (sizeOf lhs + sizeOf rhs) * 8 + 2
decreasing_by
  all_goals simp_wf
  all_goals omega

/-- Side conditions for a comparison node: the node's type must be
plain i32 (the generator picks the operator type from the node type,
so a float- or i64-typed comparison is ill-typed) and both operands
must push i32. -/
def WFbinCmp (F : FEnv) (L : LEnv) (ty : Option CType)
    (lhs rhs : Option Node) : Prop :=
  (match lhs with
   | some l => WFexpr1 F L l ∧ wasm_type_w l.ty = .i32
   | none => False) ∧
  (match rhs with
   | some r => WFexpr1 F L r ∧ wasm_type_w r.ty = .i32
   | none => False) ∧
  is_wasm_float ty = false ∧ is_wasm_i64 ty = false
termination_by (sizeOf lhs + sizeOf rhs) * 8 + 2
decreasing_by
  all_goals simp_wf
  all_goals omega

/-- Side conditions for the two expression kinds that leave the stack
depth unchanged: a FUNCALL whose callee signature has no result, and
MEMZERO. -/
def WFexpr0 (F : FEnv) (L : LEnv) : Node → Prop
  | .mk k _ _ _ lhs _ _ _ _ _ _ _ _ _ args _ _ _ _ _ _ _ _ _ _ _ _ _ _ =>
    match k with
    | .nd_funcall =>
      (match lhs with
       | some l =>
         l.kind = .nd_var ∧
         (match l.var with
          | some v =>
            (match v.name with
             | some nm => lookupStr F nm = some (argTys args, none)
             | none => False)
          | none => True)
       | none => True) ∧
      WFargs F L args
    | .nd_memzero => True
    | _ => False
termination_by n => sizeOf n * 8 + 3
decreasing_by
  all_goals simp_wf
  all_goals try simp only [NodeKind.sizeOf_one]
  all_goals omega

/-- Side conditions for `gen_stmt` to leave the stack unchanged (or end
in a taken branch). -/
def WFstmt (F : FEnv) (L : LEnv) : Node → Prop
  | .mk k _ _ _ lhs _ body cond then' els init inc bl cl _ _ _ _ _ _ _ _ _ _ _ _ _ _ _ =>
    match k with
    | .nd_return =>
      (match lhs with
       | some l =>
         WFexpr1 F L l ∧ lookupStr L "__return" = some [wasm_type_w l.ty]
       | none => lookupStr L "__return" = some [])
    | .nd_expr_stmt =>
      (match lhs with
       | none => True
       | some l =>
         match l.ty with
         | none => WFexpr0 F L l
         | some lt =>
           if lt.kind = .ty_void then WFexpr0 F L l else WFexpr1 F L l)
    | .nd_block => WFblock F L body
    | .nd_if =>
      (match cond with
       | some c => WFexpr1 F L c ∧ wasm_type_w c.ty = .i32
       | none => False) ∧
      (match then' with
       | some t => WFstmt F L t
       | none => True) ∧
      (match els with
       | some e => WFstmt F L e
       | none => True)
    | .nd_for =>
      (match init with
       | some i => WFstmt F L i
       | none => True) ∧
      (match cond with
       | some c =>
         WFexpr1 F ((showName cl, []) :: (showName bl, []) :: L) c ∧
         wasm_type_w c.ty = .i32
       | none => True) ∧
      (match then' with
       | some t => WFstmt F ((showName cl, []) :: (showName bl, []) :: L) t
       | none => True) ∧
      (match inc with
       | some i => WFexpr1 F ((showName cl, []) :: (showName bl, []) :: L) i
       | none => True)
    | .nd_do =>
      (match then' with
       | some t => WFstmt F ((showName cl, []) :: (showName bl, []) :: L) t
       | none => True) ∧
      (match cond with
       | some c =>
         WFexpr1 F ((showName cl, []) :: (showName bl, []) :: L) c ∧
         wasm_type_w c.ty = .i32
       | none => False)
    | .nd_switch =>
      (match cond with
       | some c => WFexpr1 F L c ∧ wasm_type_w c.ty = .i32
       | none => False) ∧
      (match then' with
       | some t => WFstmt F ((showName bl, []) :: L) t
       | none => True)
    | .nd_case =>
      (match lhs with
       | some l => WFstmt F L l
       | none => True)
    | .nd_goto => True
    | .nd_label =>
      (match lhs with
       | some l => WFstmt F L l
       | none => True)
    | _ => True
termination_by n => sizeOf n * 8 + 4
decreasing_by
  all_goals simp_wf
  all_goals try simp only [NodeKind.sizeOf_one]
  all_goals omega

/-- Every argument on a FUNCALL chain satisfies `WFexpr1`. -/
def WFargs (F : FEnv) (L : LEnv) : Option Node → Prop
  | none => True
  | some (.mk k nx ty tk lhs rhs bd cond then' els init inc bl cl args var mem
      val fv be en la ul astr cnext dcase caddr cold cnew) =>
    WFexpr1 F L (.mk k nx ty tk lhs rhs bd cond then' els init inc bl cl args
      var mem val fv be en la ul astr cnext dcase caddr cold cnew) ∧
    WFargs F L nx
termination_by n => sizeOf n * 8 + 5
decreasing_by
  all_goals simp_wf
  all_goals omega

/-- Every statement on a BLOCK chain satisfies `WFstmt`. -/
def WFblock (F : FEnv) (L : LEnv) : Option Node → Prop
  | none => True
  | some (.mk k nx ty tk lhs rhs bd cond then' els init inc bl cl args var mem
      val fv be en la ul astr cnext dcase caddr cold cnew) =>
    WFstmt F L (.mk k nx ty tk lhs rhs bd cond then' els init inc bl cl args
      var mem val fv be en la ul astr cnext dcase caddr cold cnew) ∧
    WFblock F L nx
termination_by n => sizeOf n * 8 + 6
decreasing_by
  all_goals simp_wf
  all_goals omega

/-- Side conditions for a STMT_EXPR body with enclosing node type
`sty`: leading statements are well-formed statements, and the last one
either is an ND_EXPR_STMT whose expression pushes `wasm_type(sty)`, or
is a statement followed by the generator's i32 zero (so `sty` must be
i32-typed). -/
def WFseBody (F : FEnv) (L : LEnv) (sty : Option CType) :
    Option Node → Prop
  | none => False
  | some (.mk k nx ty tk lhs rhs bd cond then' els init inc bl cl args var mem
      val fv be en la ul astr cnext dcase caddr cold cnew) =>
    match nx with
    | none =>
      if k = .nd_expr_stmt then
        (match lhs with
         | some l => WFexpr1 F L l ∧ wasm_type_w l.ty = wasm_type_w sty
         | none => False)
      else
        WFstmt F L (.mk k none ty tk lhs rhs bd cond then' els init inc bl cl
          args var mem val fv be en la ul astr cnext dcase caddr cold cnew) ∧
        wasm_type_w sty = .i32
    | some nx2 =>
      WFstmt F L (.mk k (some nx2) ty tk lhs rhs bd cond then' els init inc bl
        cl args var mem val fv be en la ul astr cnext dcase caddr cold cnew) ∧
      WFseBody F L sty (some nx2)
termination_by n => sizeOf n * 8 + 7
decreasing_by
  all_goals simp_wf
  all_goals try simp only [NodeKind.sizeOf_one]
  all_goals omega

end

/-! ### The stack-discipline properties -/

/-- `gen_addr` output pushes one i32 (or ends in a taken branch). -/
def PAddr (F : FEnv) (σ : Store) (L : LEnv) (n : Node) : Prop :=
  ∀ code, gen_addr σ (some n) = .ok code →
    ∀ st, checkSeq F stdE L code (.ok st) = some (.ok (.i32 :: st)) ∨
          checkSeq F stdE L code (.ok st) = some .dead

/-- `gen_expr` output pushes one value of type `wasm_type(n.ty)` (or
ends in a taken branch). -/
def PExpr1 (F : FEnv) (σ : Store) (L : LEnv) (n : Node) : Prop :=
  ∀ code, gen_expr σ (some n) = .ok code →
    ∀ st,
      checkSeq F stdE L code (.ok st) =
        some (.ok (wasm_type_w n.ty :: st)) ∨
      checkSeq F stdE L code (.ok st) = some .dead

/-- `gen_expr` output leaves the stack unchanged (void calls,
MEMZERO). -/
def PExpr0 (F : FEnv) (σ : Store) (L : LEnv) (n : Node) : Prop :=
  ∀ code, gen_expr σ (some n) = .ok code →
    ∀ st, checkSeq F stdE L code (.ok st) = some (.ok st) ∨
          checkSeq F stdE L code (.ok st) = some .dead

/-- `gen_stmt` output leaves the stack unchanged (or ends in a taken
branch). -/
def PStmt (F : FEnv) (σ : Store) (L : LEnv) (n : Node) : Prop :=
  ∀ code, gen_stmt σ (some n) = .ok code →
    ∀ st, checkSeq F stdE L code (.ok st) = some (.ok st) ∨
          checkSeq F stdE L code (.ok st) = some .dead

/-- `gen_args` output pushes the chain's types in order. -/
def PArgs (F : FEnv) (σ : Store) (L : LEnv) (c : Option Node) : Prop :=
  ∀ code, gen_args σ c = .ok code →
    ∀ st,
      checkSeq F stdE L code (.ok st) =
        some (.ok ((argTys c).reverse ++ st)) ∨
      checkSeq F stdE L code (.ok st) = some .dead

/-- `gen_block` output leaves the stack unchanged. -/
def PBlock (F : FEnv) (σ : Store) (L : LEnv) (c : Option Node) : Prop :=
  ∀ code, gen_block σ c = .ok code →
    ∀ st, checkSeq F stdE L code (.ok st) = some (.ok st) ∨
          checkSeq F stdE L code (.ok st) = some .dead

/-- `gen_stmt_expr_body` output pushes one value of the enclosing
STMT_EXPR's wasm type. -/
def PSe (F : FEnv) (σ : Store) (L : LEnv) (sty : Option CType)
    (c : Option Node) : Prop :=
  ∀ code, gen_stmt_expr_body σ c = .ok code →
    ∀ st,
      checkSeq F stdE L code (.ok st) =
        some (.ok (wasm_type_w sty :: st)) ∨
      checkSeq F stdE L code (.ok st) = some .dead

/-- The full induction bundle, bounded by node size. -/
def IHyp (F : FEnv) (σ : Store) (N : Nat) : Prop :=
  (∀ n : Node, sizeOf n ≤ N → ∀ L,
     (WFaddr F L n → PAddr F σ L n) ∧
     (WFexpr1 F L n → PExpr1 F σ L n) ∧
     (WFexpr0 F L n → PExpr0 F σ L n) ∧
     (WFstmt F L n → PStmt F σ L n)) ∧
  (∀ c : Option Node, sizeOf c ≤ N → ∀ L,
     (WFargs F L c → PArgs F σ L c) ∧
     (WFblock F L c → PBlock F σ L c) ∧
     (∀ sty, WFseBody F L sty c → PSe F σ L sty c))

/-! ### Concrete fixtures

Small concrete types, stores and nodes used by the closed
counterexample and witness theorems. -/

/-- A store with every offset and stack size zero. -/
def defStore : Store := ⟨fun _ => 0, fun _ => 0⟩

/-- A node with the given kind and every other field null/zero. -/
def bareNode (k : NodeKind) : Node :=
  .mk k none none none none none none none none none none none none none none
    none none 0 0 0 0 none none none none none none none none

/-- The chibicc `void` type (size 1, align 1). -/
def tyVoidC : CType := .mk .ty_void 1 1 false none none 0

/-- The chibicc `int` type (size 4, align 4). -/
def tyIntC : CType := .mk .ty_int 4 4 false none none 0

/-- An ND_NULL_EXPR node whose type is `void`: the smallest expression
the generator accepts whose static type is void. -/
def voidNullExpr : Node :=
  .mk .nd_null_expr none (some tyVoidC) none none none none none none none
    none none none none none none none 0 0 0 0 none none none none none none
    none none

/-- `for (;; e) {}` with a void-typed increment `e` and an empty block
body: the concrete FOR input of the C2 counterexample. -/
def forVoidInc : Node :=
  .mk .nd_for none none none none none none none (some (bareNode .nd_block))
    none none (some voidNullExpr) (some "brk1") (some "cont1") none none none
    0 0 0 0 none none none none none none none none

/-- An ND_NUM node of type `int` with the given value. -/
def numInt (v : Int) : Node :=
  .mk .nd_num none (some tyIntC) none none none none none none none none none
    none none none none none v 0 0 0 none none none none none none none none

/-- `for (; 1; 5) {}`: a FOR node with int-typed cond and inc, the
witness input for the amended C2 theorem. -/
def forIntInc : Node :=
  .mk .nd_for none none none none none none (some (numInt 1))
    (some (bareNode .nd_block)) none none (some (numInt 5)) (some "brk2")
    (some "cont2") none none none 0 0 0 0 none none none none none none none
    none

/-- The wasm type of the value consumed by `wasm_store`: the scratch
local type used by the ND_ASSIGN lowering. -/
def storeValTy (ty : Option CType) : WTy :=
  if is_wasm_float ty then wasm_type_w ty else .i32

/-- The callee environment of the C1 counterexample: one function `f`
with no parameters and no (void) result. -/
def cFEnv : FEnv := [("f", ([], none))]

/-- An ND_VAR node designating the function `f`. -/
def fnVarNode : Node :=
  .mk .nd_var none none none none none none none none none none none none
    none none (some ⟨0, some "f", none, false⟩) none 0 0 0 0 none none none
    none none none none none

/-- `f()` where `f` returns void: an ND_FUNCALL node of type void. -/
def voidCallNode : Node :=
  .mk .nd_funcall none (some tyVoidC) none (some fnVarNode) none none none
    none none none none none none none none none 0 0 0 0 none none none none
    none none none none

/-! ## Claim C5: the CAST rule order -/

/-- The CAST conversion rules as the claim words them, applied in the
claim's order: (1) neither side float or i64 — bool compares not-equal
zero, size 1 unsigned masks 255, size 1 signed sign-extends 8, size 2
unsigned masks 65535, size 2 signed sign-extends 16, otherwise nothing;
(2) f32<->f64 promote/demote; (3) float to int truncates, signed or
unsigned by the target; (4) int to float converts, signed or unsigned
by the source. -/
def castRulesSpec (f t : CType) : List Instr :=
  if is_wasm_float (some f) = false ∧ is_wasm_float (some t) = false ∧
     is_wasm_i64 (some f) = false ∧ is_wasm_i64 (some t) = false then
    if t.kind = .ty_bool then [.i32_const 0, .binop .i32 "ne"]
    else if t.size = 1 then
      if t.is_unsigned then [.mask_and 255] else [.i32_extend8_s]
    else if t.size = 2 then
      if t.is_unsigned then [.mask_and 65535] else [.i32_extend16_s]
    else []
  else if is_wasm_f32 (some f) = true ∧ is_wasm_f64 (some t) = true then
    [.f64_promote_f32]
  else if is_wasm_f64 (some f) = true ∧ is_wasm_f32 (some t) = true then
    [.f32_demote_f64]
  else if is_wasm_float (some f) = true ∧ is_wasm_float (some t) = false then
    if is_wasm_f32 (some f) then
      if t.is_unsigned then [.i32_trunc_f32_u] else [.i32_trunc_f32_s]
    else
      if t.is_unsigned then [.i32_trunc_f64_u] else [.i32_trunc_f64_s]
  else if is_wasm_float (some f) = false ∧ is_wasm_float (some t) = true then
    if is_wasm_f32 (some t) then
      if f.is_unsigned then [.f32_convert_i32_u] else [.f32_convert_i32_s]
    else
      if f.is_unsigned then [.f64_convert_i32_u] else [.f64_convert_i32_s]
  else []

/-! ## The JSON dumper (`src/dump.c`) -/

/-- `%Lg` and `%f` of printf, abstracted to a total formatter on the
rational carrying the `long double` value. -/
def fmtG (x : Rat) : String := toString x

/-- Lowercase hex digit, as printed by `%x`. -/
def hexDigit (n : Nat) : Char :=
  if n < 10 then Char.ofNat (48 + n) else Char.ofNat (87 + n)

/-- One character of `json_print_escaped`. -/
def escChar (c : Char) : String :=
  if c = '"' then "\\\""
  else if c = '\\' then "\\\\"
  else if c = '\n' then "\\n"
  else if c = '\r' then "\\r"
  else if c = '\t' then "\\t"
  else if c.toNat = 0 then "\\u0000"
  else if c.toNat < 32 then
    "\\u00" ++ String.singleton (hexDigit (c.toNat / 16)) ++
      String.singleton (hexDigit (c.toNat % 16))
  else String.singleton c

/-- `json_print_escaped` of `dump.c`: quote and escape a character
window. -/
def json_print_escaped (s : List Char) : String :=
  "\"" ++ String.join (s.map escChar) ++ "\""

/-- `json_print_str` of `dump.c`: a null pointer prints `null`. -/
def json_print_str : Option String → String
  | none => "null"
  | some s => json_print_escaped s.data

/-- `token_kind_name` of `dump.c`. -/
def token_kind_name : TokKind → String
  | .tk_ident => "TK_IDENT"
  | .tk_punct => "TK_PUNCT"
  | .tk_keyword => "TK_KEYWORD"
  | .tk_str => "TK_STR"
  | .tk_num => "TK_NUM"
  | .tk_pp_num => "TK_PP_NUM"
  | .tk_eof => "TK_EOF"

/-- `node_kind_name` of `dump.c`. -/
def node_kind_name : NodeKind → String
  | .nd_null_expr => "ND_NULL_EXPR"
  | .nd_add => "ND_ADD"
  | .nd_sub => "ND_SUB"
  | .nd_mul => "ND_MUL"
  | .nd_div => "ND_DIV"
  | .nd_neg => "ND_NEG"
  | .nd_mod => "ND_MOD"
  | .nd_bitand => "ND_BITAND"
  | .nd_bitor => "ND_BITOR"
  | .nd_bitxor => "ND_BITXOR"
  | .nd_shl => "ND_SHL"
  | .nd_shr => "ND_SHR"
  | .nd_eq => "ND_EQ"
  | .nd_ne => "ND_NE"
  | .nd_lt => "ND_LT"
  | .nd_le => "ND_LE"
  | .nd_assign => "ND_ASSIGN"
  | .nd_cond => "ND_COND"
  | .nd_comma => "ND_COMMA"
  | .nd_member => "ND_MEMBER"
  | .nd_addr => "ND_ADDR"
  | .nd_deref => "ND_DEREF"
  | .nd_not => "ND_NOT"
  | .nd_bitnot => "ND_BITNOT"
  | .nd_logand => "ND_LOGAND"
  | .nd_logor => "ND_LOGOR"
  | .nd_return => "ND_RETURN"
  | .nd_if => "ND_IF"
  | .nd_for => "ND_FOR"
  | .nd_do => "ND_DO"
  | .nd_switch => "ND_SWITCH"
  | .nd_case => "ND_CASE"
  | .nd_block => "ND_BLOCK"
  | .nd_goto => "ND_GOTO"
  | .nd_goto_expr => "ND_GOTO_EXPR"
  | .nd_label => "ND_LABEL"
  | .nd_label_val => "ND_LABEL_VAL"
  | .nd_funcall => "ND_FUNCALL"
  | .nd_expr_stmt => "ND_EXPR_STMT"
  | .nd_stmt_expr => "ND_STMT_EXPR"
  | .nd_var => "ND_VAR"
  | .nd_vla_ptr => "ND_VLA_PTR"
  | .nd_num => "ND_NUM"
  | .nd_cast => "ND_CAST"
  | .nd_memzero => "ND_MEMZERO"
  | .nd_asm => "ND_ASM"
  | .nd_cas => "ND_CAS"
  | .nd_exch => "ND_EXCH"

/-- `type_to_str` of `dump.c`: human-readable type string; a null
pointer reads `(null)`. -/
def type_to_str : Option CType → String
  | none => "(null)"
  | some (.mk k sz _ u b r n) =>
    match k with
    | .ty_void => if u then "unsigned void" else "void"
    | .ty_bool => "_Bool"
    | .ty_char => if u then "unsigned char" else "char"
    | .ty_short => if u then "unsigned short" else "short"
    | .ty_int => if u then "unsigned int" else "int"
    | .ty_long => if u then "unsigned long" else "long"
    | .ty_float => "float"
    | .ty_double => "double"
    | .ty_ldouble => "long double"
    | .ty_enum => "enum"
    | .ty_struct => "struct(" ++ toString sz ++ ")"
    | .ty_union => "union(" ++ toString sz ++ ")"
    | .ty_ptr => type_to_str b ++ " *"
    | .ty_array => type_to_str b ++ "[" ++ toString n ++ "]"
    | .ty_vla => type_to_str b ++ "[*]"
    | .ty_func => type_to_str r ++ " (*)()"
termination_by t => sizeOf t
decreasing_by
  all_goals simp_wf
  all_goals omega

/-- One token's JSON object in `dump_tokens`. -/
def tokEntry (t : Tok) : String :=
  "  \x7b\"kind\":" ++ json_print_str (some (token_kind_name t.kind)) ++
  ",\"text\":" ++ json_print_escaped (t.loc.take t.len) ++
  ",\"line\":" ++ toString t.line_no ++
  ",\"file\":" ++ json_print_str t.filename ++
  (if t.kind = .tk_num then
    (match t.ty with
     | some tt =>
       if tt.kind = .ty_float ∨ tt.kind = .ty_double ∨
          tt.kind = .ty_ldouble then
         ",\"fval\":" ++ fmtG t.fval
       else ",\"val\":" ++ toString t.val
     | none => ",\"val\":" ++ toString t.val)
   else "") ++ "\x7d"

/-- The loop of `dump_tokens`: stop at the first `TK_EOF`, comma-join
the entries. -/
def dump_tokens_loop : List Tok → Bool → String
  | [], _ => ""
  | t :: rest, first =>
    if t.kind = .tk_eof then ""
    else (if first then "" else ",\n") ++ tokEntry t ++
      dump_tokens_loop rest false

/-- `dump_tokens` of `dump.c`. -/
def dump_tokens (ts : List Tok) : String :=
  "[\n" ++ dump_tokens_loop ts true ++ "\n]\n"

/-- The member-name tail of the ND_MEMBER dump. -/
def memberTail (m : Option Mem) : String :=
  match m with
  | some mm =>
    match mm.name with
    | some nt => ",\"member\":" ++ json_print_escaped (nt.loc.take nt.len)
    | none => ""
  | none => ""

mutual

/-- `dump_node` of `dump.c`: serialise one node at the given depth;
null prints `null`, depth beyond `MAX_DEPTH` (20) prints the
truncation sentinel. -/
def dump_node (n : Option Node) (depth : Int) : String :=
  match n with
  | none => "null"
  | some (.mk k _ ty tk lhs rhs bd cond then' els init inc _ _ args var mem
      val fv be en la ul astr _ _ caddr cold cnew) =>
    if depth > 20 then "\x7b\"kind\":\"...(truncated)\"\x7d"
    else
      "\x7b\"kind\":" ++ json_print_str (some (node_kind_name k)) ++
      (match ty with
       | some t => ",\"type\":" ++ json_print_str (some (type_to_str (some t)))
       | none => "") ++
      (match tk with
       | some tok => ",\"line\":" ++ toString tok.line_no
       | none => "") ++
      (match k with
       | .nd_num =>
         (match ty with
          | some t =>
            if t.kind = .ty_float ∨ t.kind = .ty_double ∨
               t.kind = .ty_ldouble then
              ",\"fval\":" ++ fmtG fv
            else ",\"val\":" ++ toString val
          | none => ",\"val\":" ++ toString val)
       | .nd_var =>
         (match var with
          | some v => ",\"name\":" ++ json_print_str v.name
          | none => "")
       | .nd_funcall =>
         dump_node_field "func" lhs (depth + 1) ++
         dump_node_list "args" args (depth + 1)
       | .nd_member =>
         dump_node_field "lhs" lhs (depth + 1) ++ memberTail mem
       | .nd_if =>
         dump_node_field "cond" cond (depth + 1) ++
         dump_node_field "then" then' (depth + 1) ++
         (match els with
          | some e => dump_node_field "els" (some e) (depth + 1)
          | none => "")
       | .nd_for =>
         (match init with
          | some i => dump_node_field "init" (some i) (depth + 1)
          | none => "") ++
         (match cond with
          | some c => dump_node_field "cond" (some c) (depth + 1)
          | none => "") ++
         (match inc with
          | some i => dump_node_field "inc" (some i) (depth + 1)
          | none => "") ++
         dump_node_field "then" then' (depth + 1)
       | .nd_do =>
         dump_node_field "body" then' (depth + 1) ++
         dump_node_field "cond" cond (depth + 1)
       | .nd_switch =>
         dump_node_field "cond" cond (depth + 1) ++
         dump_node_field "then" then' (depth + 1)
       | .nd_case =>
         ",\"begin\":" ++ toString be ++ ",\"end\":" ++ toString en ++
         dump_node_field "body" lhs (depth + 1)
       | .nd_block => dump_node_list "body" bd (depth + 1)
       | .nd_stmt_expr => dump_node_list "body" bd (depth + 1)
       | .nd_return => lhsFieldIfSome lhs depth
       | .nd_expr_stmt => lhsFieldIfSome lhs depth
       | .nd_neg => lhsFieldIfSome lhs depth
       | .nd_addr => lhsFieldIfSome lhs depth
       | .nd_deref => lhsFieldIfSome lhs depth
       | .nd_not => lhsFieldIfSome lhs depth
       | .nd_bitnot => lhsFieldIfSome lhs depth
       | .nd_cast => lhsFieldIfSome lhs depth
       | .nd_goto =>
         (match la with
          | some s => ",\"label\":" ++ json_print_str (some s)
          | none => "")
       | .nd_goto_expr => dump_node_field "expr" lhs (depth + 1)
       | .nd_label =>
         (match la with
          | some s => ",\"label\":" ++ json_print_str (some s)
          | none => "") ++
         dump_node_field "body" lhs (depth + 1)
       | .nd_label_val =>
         (match la with
          | some s => ",\"label\":" ++ json_print_str (some s)
          | none => "")
       | .nd_asm =>
         (match astr with
          | some s => ",\"asm\":" ++ json_print_str (some s)
          | none => "")
       | .nd_cas =>
         dump_node_field "addr" caddr (depth + 1) ++
         dump_node_field "old" cold (depth + 1) ++
         dump_node_field "new" cnew (depth + 1)
       | .nd_exch =>
         dump_node_field "lhs" lhs (depth + 1) ++
         dump_node_field "rhs" rhs (depth + 1)
       | .nd_cond =>
         dump_node_field "cond" cond (depth + 1) ++
         dump_node_field "then" then' (depth + 1) ++
         dump_node_field "els" els (depth + 1)
       | .nd_memzero =>
         (match var with
          | some v => ",\"name\":" ++ json_print_str v.name
          | none => "")
       | .nd_vla_ptr =>
         (match var with
          | some v => ",\"name\":" ++ json_print_str v.name
          | none => "")
       | _ =>
         (match lhs with
          | some l => dump_node_field "lhs" (some l) (depth + 1)
          | none => "") ++
         (match rhs with
          | some r => dump_node_field "rhs" (some r) (depth + 1)
          | none => "")) ++
      "\x7d"
termination_by sizeOf n * 4
decreasing_by
  all_goals simp_wf
  all_goals try simp only [NodeKind.sizeOf_one]
  all_goals omega

/-- The shared `if (node->lhs) dump_node_field("lhs", ...)` arm. -/
def lhsFieldIfSome (lhs : Option Node) (depth : Int) : String :=
  match lhs with
  | some l => dump_node_field "lhs" (some l) (depth + 1)
  | none => ""
termination_by sizeOf lhs * 4 + 3
decreasing_by
  all_goals simp_wf
  all_goals omega

/-- `dump_node_field` of `dump.c`. -/
def dump_node_field (key : String) (n : Option Node) (depth : Int) :
    String :=
  ",\"" ++ key ++ "\":" ++
    (match n with
     | some nd => dump_node (some nd) depth
     | none => "null")
termination_by sizeOf n * 4 + 2
decreasing_by
  all_goals simp_wf
  all_goals omega

/-- `dump_node_list` of `dump.c`. -/
def dump_node_list (key : String) (n : Option Node) (depth : Int) :
    String :=
  ",\"" ++ key ++ "\":[" ++ dump_items n depth true ++ "]"
termination_by sizeOf n * 4 + 2
decreasing_by
  all_goals simp_wf
  all_goals omega

/-- The element loop of `dump_node_list`. -/
def dump_items (n : Option Node) (depth : Int) (first : Bool) : String :=
  match n with
  | none => ""
  | some (.mk k nx ty tk lhs rhs bd cond then' els init inc bl cl args var
      mem val fv be en la ul astr cnext dcase caddr cold cnew) =>
    (if first then "" else ",") ++
    dump_node (some (.mk k nx ty tk lhs rhs bd cond then' els init inc bl cl
      args var mem val fv be en la ul astr cnext dcase caddr cold cnew))
      depth ++
    dump_items nx depth false
termination_by sizeOf n * 4 + 1
decreasing_by
  all_goals simp_wf
  all_goals try simp only [NodeKind.sizeOf_one]
  all_goals omega

end

/-! ## The `Obj` chain, `dump_ast`, and the global-variable passes -/

/-- The fields of a chibicc `Obj` read by `dump.c` and
`codegen_wasm.c`.  The mutable `offset`/`stack_size` fields live in the
`Store`, keyed by `id`; `init_data` is the byte array read by
`emit_data` (a total byte function, since the C indexes it with
`ty->size` unchecked). -/
inductive Obj where
  | mk (id : Nat) (name : Option String) (ty : Option CType)
       (is_function is_definition is_static is_tentative is_tls
        is_live : Bool)
       (init_data : Option (Nat → Int))
       (params : Option Obj) (locals : Option Obj)
       (body : Option Node)
       (next : Option Obj)

namespace Obj

def id : Obj → Nat
  | .mk i _ _ _ _ _ _ _ _ _ _ _ _ _ => i

def name : Obj → Option String
  | .mk _ n _ _ _ _ _ _ _ _ _ _ _ _ => n

def ty : Obj → Option CType
  | .mk _ _ t _ _ _ _ _ _ _ _ _ _ _ => t

def is_function : Obj → Bool
  | .mk _ _ _ f _ _ _ _ _ _ _ _ _ _ => f

def next : Obj → Option Obj
  | .mk _ _ _ _ _ _ _ _ _ _ _ _ _ nx => nx

end Obj

/-- One `params`/`locals` element of the `dump_ast` output, reading the
object's `offset` through the store. -/
def paramEntry (σ : Store) (name : Option String) (ty : Option CType)
    (oid : Nat) : String :=
  "\x7b\"name\":" ++ json_print_str name ++
  ",\"type\":" ++ json_print_str (some (type_to_str ty)) ++
  ",\"offset\":" ++ toString (σ.offs oid) ++ "\x7d"

/-- The `params`/`locals` loops of `dump_ast`. -/
def paramItems (σ : Store) : Option Obj → Bool → String
  | none, _ => ""
  | some (.mk oid nm t _ _ _ _ _ _ _ _ _ _ nx), first =>
    (if first then "" else ",") ++ paramEntry σ nm t oid ++
    paramItems σ nx false
termination_by c => sizeOf c
decreasing_by
  all_goals simp_wf
  all_goals omega

/-- One global's JSON object in `dump_ast`. -/
def objEntry (σ : Store) : Obj → String
  | .mk _ nm t isF isDef isStat isTent isTls _ idata ps ls bd _ =>
    "  \x7b\"name\":" ++ json_print_str nm ++
    ",\"is_function\":" ++ (if isF then "true" else "false") ++
    ",\"is_definition\":" ++ (if isDef then "true" else "false") ++
    ",\"is_static\":" ++ (if isStat then "true" else "false") ++
    (match t with
     | some tt => ",\"type\":" ++ json_print_str (some (type_to_str (some tt)))
     | none => "") ++
    (if isF then
      (match t with
       | some tt =>
         (match tt.return_ty with
          | some rt =>
            ",\"return_type\":" ++ json_print_str (some (type_to_str (some rt)))
          | none => "")
       | none => "") ++
      ",\"params\":[" ++ paramItems σ ps true ++ "]" ++
      (match bd with
       | some b => ",\"body\":" ++ dump_node (some b) 0
       | none => "") ++
      ",\"locals\":[" ++ paramItems σ ls true ++ "]"
     else
      (if isTent then ",\"is_tentative\":true" else "") ++
      (if isTls then ",\"is_tls\":true" else "") ++
      (match idata with
       | some _ => ",\"has_init_data\":true"
       | none => "")) ++
    "\x7d"

/-- The global loop of `dump_ast`. -/
def dump_ast_loop (σ : Store) : Option Obj → Bool → String
  | none, _ => ""
  | some (.mk oid nm t isF isDef isStat isTent isTls isLive idata ps ls bd
      nx), first =>
    (if first then "" else ",\n") ++
    objEntry σ (.mk oid nm t isF isDef isStat isTent isTls isLive idata ps ls
      bd nx) ++
    dump_ast_loop σ nx false
termination_by c => sizeOf c
decreasing_by
  all_goals simp_wf
  all_goals omega

/-- `dump_ast` of `dump.c`. -/
def dump_ast (σ : Store) (prog : Option Obj) : String :=
  "\x7b\"globals\":[\n" ++ dump_ast_loop σ prog true ++ "\n]\x7d\n"

/-- Comma-newline join of the serialised entries, as the claims word
the JSON array layout. -/
def joinEntries : List String → String
  | [] => ""
  | [x] => x
  | x :: y :: rest => x ++ ",\n" ++ joinEntries (y :: rest)

/-! ## Layout passes and module emission (`codegen_wasm.c`) -/

/-- Modelled from the spec: `align_to(n, align)` rounds `n` up to the
nearest multiple of `align` (the helper lives outside `src/`). -/
def align_to (n align : Int) : Int :=
  (n + align - 1) / align * align

/-- The loop of `assign_global_offsets`: skip functions; align the
running offset to the variable alignment (1 when not positive), store
it as the variable offset, advance by the size. -/
def gOffsLoop (σ : Store) (offset : Int) :
    Option Obj → Except String (Store × Int)
  | none => .ok (σ, offset)
  | some (.mk oid _ t isF _ _ _ _ _ _ _ _ _ nx) =>
    if isF then gOffsLoop σ offset nx
    else
      match t with
      | none => .error "null deref (var->ty in assign_global_offsets)"
      | some tt =>
        let off := align_to offset (if tt.align > 0 then tt.align else 1)
        gOffsLoop (σ.setOff oid off) (off + tt.size) nx
termination_by c => sizeOf c
decreasing_by
  all_goals simp_wf
  all_goals omega

/-- `assign_global_offsets` of `codegen_wasm.c`. -/
def assign_global_offsets (σ : Store) (prog : Option Obj) :
    Except String (Store × Int) := do
  let (σ2, off) ← gOffsLoop σ 0 prog
  .ok (σ2, align_to off 16)

/-- The locals loop of `assign_wasm_offsets`. -/
def lOffsLoop (σ : Store) (offset : Int) :
    Option Obj → Except String (Store × Int)
  | none => .ok (σ, offset)
  | some (.mk oid _ t _ _ _ _ _ _ _ _ _ _ nx) =>
    match t with
    | none => .error "null deref (var->ty in assign_wasm_offsets)"
    | some tt =>
      let off := align_to offset (if tt.align > 0 then tt.align else 1)
      lOffsLoop (σ.setOff oid off) (off + tt.size) nx
termination_by c => sizeOf c
decreasing_by
  all_goals simp_wf
  all_goals omega

/-- `assign_wasm_offsets` of `codegen_wasm.c`: for each function, lay
out its locals from 0 and set `stack_size` to the final offset rounded
to 16. -/
def assign_wasm_offsets (σ : Store) : Option Obj → Except String Store
  | none => .ok σ
  | some (.mk oid _ _ isF _ _ _ _ _ _ _ ls _ nx) =>
    if isF then do
      let (σ2, off) ← lOffsLoop σ 0 ls
      assign_wasm_offsets (σ2.setSsize oid (align_to off 16)) nx
    else assign_wasm_offsets σ nx
termination_by c => sizeOf c
decreasing_by
  all_goals simp_wf
  all_goals omega

/-- One `println` line: two spaces per indent level, the text, a
newline. -/
def lnStr (ind : Nat) (s : String) : String :=
  String.mk (List.replicate (2 * ind) ' ') ++ s ++ "\n"

mutual

/-- Render one generator instruction as the lines the C prints,
reproducing `indent()`/`dedent()` around structured constructs. -/
def Instr.render (ind : Nat) : Instr → List String
  | .i32_const n => [lnStr ind ("(i32.const " ++ toString n ++ ")")]
  | .i64_const n => [lnStr ind ("(i64.const " ++ toString n ++ ")")]
  | .f32_const x => [lnStr ind ("(f32.const " ++ fmtG x ++ ")")]
  | .f64_const x => [lnStr ind ("(f64.const " ++ fmtG x ++ ")")]
  | .const_zero t => [lnStr ind ("(" ++ t.str ++ ".const 0)")]
  | .addr_bp off =>
    [lnStr ind ("(i32.add (local.get $__bp) (i32.const " ++ toString off ++
      "))")]
  | .addr_global off nm =>
    [lnStr ind ("(i32.const " ++ toString off ++ ") ;; &" ++ showName nm)]
  | .f32_load => [lnStr ind "(f32.load)"]
  | .f64_load => [lnStr ind "(f64.load)"]
  | .i32_load8_u => [lnStr ind "(i32.load8_u)"]
  | .i32_load8_s => [lnStr ind "(i32.load8_s)"]
  | .i32_load16_u => [lnStr ind "(i32.load16_u)"]
  | .i32_load16_s => [lnStr ind "(i32.load16_s)"]
  | .i32_load => [lnStr ind "(i32.load)"]
  | .f32_store => [lnStr ind "(f32.store)"]
  | .f64_store => [lnStr ind "(f64.store)"]
  | .i32_store8 => [lnStr ind "(i32.store8)"]
  | .i32_store16 => [lnStr ind "(i32.store16)"]
  | .i32_store => [lnStr ind "(i32.store)"]
  | .drop => [lnStr ind "(drop)"]
  | .f32_neg => [lnStr ind "(f32.neg)"]
  | .f64_neg => [lnStr ind "(f64.neg)"]
  | .i32_eqz => [lnStr ind "(i32.eqz)"]
  | .binop t op => [lnStr ind ("(" ++ t.str ++ "." ++ op ++ ")")]
  | .i32_extend8_s => [lnStr ind "(i32.extend8_s)"]
  | .i32_extend16_s => [lnStr ind "(i32.extend16_s)"]
  | .mask_and n =>
    [lnStr ind ("(i32.const " ++ toString n ++ ") (i32.and)")]
  | .f64_promote_f32 => [lnStr ind "(f64.promote_f32)"]
  | .f32_demote_f64 => [lnStr ind "(f32.demote_f64)"]
  | .i32_trunc_f32_u => [lnStr ind "(i32.trunc_f32_u)"]
  | .i32_trunc_f32_s => [lnStr ind "(i32.trunc_f32_s)"]
  | .i32_trunc_f64_u => [lnStr ind "(i32.trunc_f64_u)"]
  | .i32_trunc_f64_s => [lnStr ind "(i32.trunc_f64_s)"]
  | .f32_convert_i32_u => [lnStr ind "(f32.convert_i32_u)"]
  | .f32_convert_i32_s => [lnStr ind "(f32.convert_i32_s)"]
  | .f64_convert_i32_u => [lnStr ind "(f64.convert_i32_u)"]
  | .f64_convert_i32_s => [lnStr ind "(f64.convert_i32_s)"]
  | .local_set nm => [lnStr ind ("(local.set $" ++ nm ++ ")")]
  | .local_get nm => [lnStr ind ("(local.get $" ++ nm ++ ")")]
  | .call nm => [lnStr ind ("(call $" ++ showName nm ++ ")")]
  | .memory_fill => [lnStr ind "(memory.fill)"]
  | .comment s => [lnStr ind (";; " ++ s)]
  | .br l => [lnStr ind ("(br $" ++ l ++ ")")]
  | .br_if l => [lnStr ind ("(br_if $" ++ l ++ ")")]
  | .block_brk l body =>
    [lnStr ind ("(block $" ++ l ++ " ;; break target")] ++
    renderList (ind + 1) body ++
    [lnStr ind ") ;; end block"]
  | .loop_cont l body =>
    [lnStr ind ("(loop $" ++ l ++ " ;; continue target")] ++
    renderList (ind + 1) body ++
    [lnStr ind ") ;; end loop"]
  | .block_brk_switch l body =>
    [lnStr ind ("(block $" ++ l ++ " ;; break target")] ++
    renderList (ind + 1) body ++
    [lnStr ind ") ;; end break block"]
  | .if_case body =>
    [lnStr ind "(if (then"] ++
    renderList (ind + 1) body ++
    [lnStr ind "))"]
  | .if_result t thenB elseB =>
    [lnStr ind ("(if (result " ++ t.str ++ ")"),
     lnStr (ind + 1) "(then"] ++
    renderList (ind + 2) thenB ++
    [lnStr (ind + 1) ")", lnStr (ind + 1) "(else"] ++
    renderList (ind + 2) elseB ++
    [lnStr (ind + 1) ")", lnStr ind ")"]
  | .if_logand thenB =>
    [lnStr ind "(if (result i32)", lnStr (ind + 1) "(then"] ++
    renderList (ind + 2) thenB ++
    [lnStr (ind + 1) ")", lnStr (ind + 1) "(else (i32.const 0))",
     lnStr ind ")"]
  | .if_logor elseB =>
    [lnStr ind "(if (result i32)", lnStr (ind + 1) "(then (i32.const 1))",
     lnStr (ind + 1) "(else"] ++
    renderList (ind + 2) elseB ++
    [lnStr (ind + 1) ")", lnStr ind ")"]
  | .if_stmt thenB elsB =>
    [lnStr ind "(if", lnStr (ind + 1) "(then"] ++
    renderList (ind + 2) thenB ++
    [lnStr (ind + 1) ")"] ++
    (match elsB with
     | some e =>
       [lnStr (ind + 1) "(else"] ++ renderList (ind + 2) e ++
       [lnStr (ind + 1) ")"]
     | none => []) ++
    [lnStr ind ")"]
  | .block_return t body =>
    [lnStr ind ("(block $__return" ++
      (match t with
       | some x => " (result " ++ x.str ++ ")"
       | none => ""))] ++
    renderList (ind + 1) body ++
    [lnStr ind ") ;; end block $__return"]
termination_by i => sizeOf i

/-- Render a list of instructions. -/
def renderList (ind : Nat) : List Instr → List String
  | [] => []
  | i :: is => Instr.render ind i ++ renderList ind is
termination_by l => sizeOf l

end

/-- One byte of a data segment: printable characters other than quote
and backslash verbatim, everything else as `\xx` (the C truncates the
array entry to `unsigned char` first). -/
def dataByte (x : Int) : String :=
  let b := (x % 256).toNat
  if 32 ≤ b ∧ b < 127 ∧ b ≠ 34 ∧ b ≠ 92 then
    String.singleton (Char.ofNat b)
  else
    "\\" ++ String.singleton (hexDigit (b / 16 % 16)) ++
      String.singleton (hexDigit (b % 16))

/-- `emit_data` of `codegen_wasm.c`. -/
def emit_data (σ : Store) : Option Obj → Except String (List String)
  | none => .ok []
  | some (.mk oid nm t isF _ _ _ _ _ idata _ _ _ nx) => do
    let rest ← emit_data σ nx
    if isF then .ok rest
    else
      match idata with
      | none => .ok rest
      | some f =>
        match t with
        | none => .error "null deref (var->ty in emit_data)"
        | some tt =>
          .ok ([lnStr 1 (";; global: " ++ showName nm ++ " (offset=" ++
                  toString (σ.offs oid) ++ ", size=" ++ toString tt.size ++
                  ")"),
                "  (data (i32.const " ++ toString (σ.offs oid) ++ ") \"" ++
                  String.join ((List.range tt.size.toNat).map
                    (fun i => dataByte (f i))) ++ "\")\n"] ++ rest)
termination_by c => sizeOf c
decreasing_by
  all_goals simp_wf
  all_goals omega

/-- The parameter fragments of a function signature line. -/
def paramSigs : Option Obj → String
  | none => ""
  | some (.mk _ nm t _ _ _ _ _ _ _ _ _ _ nx) =>
    " (param $p_" ++ showName nm ++ " " ++ wasm_type t ++ ")" ++
    paramSigs nx
termination_by c => sizeOf c
decreasing_by
  all_goals simp_wf
  all_goals omega

/-- The parameter-spill loop of `emit_functions`. -/
def paramStores (σ : Store) : Option Obj → List String
  | none => []
  | some (.mk oid nm t _ _ _ _ _ _ _ _ _ _ nx) =>
    [lnStr 2 (";; store param " ++ showName nm ++ " at bp+" ++
       toString (σ.offs oid)),
     lnStr 2 ("(i32.add (local.get $__bp) (i32.const " ++
       toString (σ.offs oid) ++ "))"),
     lnStr 2 ("(local.get $p_" ++ showName nm ++ ")")] ++
    renderList 2 (wasm_store t) ++ paramStores σ nx
termination_by c => sizeOf c
decreasing_by
  all_goals simp_wf
  all_goals omega

/-- `emit_functions` of `codegen_wasm.c`. -/
def emit_functions (σ : Store) : Option Obj → Except String (List String)
  | none => .ok []
  | some (.mk oid nm t isF isDef _ _ _ isLive _ ps ls bd nx) => do
    let rest ← emit_functions σ nx
    if isF && isDef && isLive then
      match t with
      | none => .error "null deref (fn->ty in emit_functions)"
      | some tt => do
        let body ← gen_stmt σ bd
        let ret := tt.return_ty
        let hasRet : Bool :=
          match ret with
          | some rt => rt.kind != TyKind.ty_void
          | none => false
        .ok (["  (func $" ++ showName nm ++
                (if showName nm = "main" then " (export \"_start\")"
                 else "") ++
                paramSigs ps ++
                (if hasRet then " (result " ++ wasm_type ret ++ ")"
                 else "") ++ "\n",
              lnStr 2 "(local $__bp i32)  ;; base pointer",
              lnStr 2 "(local $__tmp_i32 i32)",
              lnStr 2 "(local $__tmp_f32 f32)",
              lnStr 2 "(local $__tmp_f64 f64)",
              lnStr 2 (";; prologue: allocate " ++ toString (σ.ssize oid) ++
                " bytes"),
              lnStr 2 ("(global.set $__sp (i32.sub (global.get $__sp) " ++
                "(i32.const " ++ toString (σ.ssize oid) ++ ")))"),
              lnStr 2 "(local.set $__bp (global.get $__sp))"] ++
             paramStores σ ps ++
             [lnStr 2 (if hasRet then
                "(block $__return (result " ++ wasm_type ret ++ ")"
               else "(block $__return")] ++
             renderList 3 body ++
             (if hasRet then
               [lnStr 3 (if showName nm = "main" then "(i32.const 0)"
                 else "(" ++ wasm_type ret ++ ".const 0) ;; implicit return")]
              else []) ++
             [lnStr 2 ") ;; end block $__return",
              lnStr 2 ";; epilogue",
              lnStr 2 ("(global.set $__sp (i32.add (local.get $__bp) " ++
                "(i32.const " ++ toString (σ.ssize oid) ++ ")))"),
              lnStr 1 (") ;; end func $" ++ showName nm),
              "\n"] ++ rest)
    else .ok rest
termination_by c => sizeOf c
decreasing_by
  all_goals simp_wf
  all_goals omega

/-- `codegen_wasm` of `codegen_wasm.c`: run the two layout passes, pick
the stack start, and emit the module text as a list of output chunks.
The final store is returned so that a second run can be started from
the state the first one leaves behind. -/
def codegen_wasm (σ : Store) (prog : Option Obj) :
    Except String (List String × Store) := do
  let (σ1, data_size) ← assign_global_offsets σ prog
  let σ2 ← assign_wasm_offsets σ1 prog
  let s0 := align_to (data_size + 1024) 65536
  let stack_start := if s0 < 65536 then 65536 else s0
  let dat ← emit_data σ2 prog
  let fns ← emit_functions σ2 prog
  .ok (["(module\n",
        lnStr 1 "(memory (export \"memory\") 2)",
        "\n",
        lnStr 1 (";; Stack pointer (grows downward from " ++
          toString stack_start ++ ")"),
        lnStr 1 ("(global $__sp (mut i32) (i32.const " ++
          toString stack_start ++ "))"),
        "\n"] ++ dat ++ ["\n"] ++ fns ++ [")\n"], σ2)

/-- The global layout loop as the claim words it: each non-function
Obj, in declaration order, gets the running offset aligned up to
`max(align, 1)`; the offset then advances by `ty.size`. -/
def claimGOffsLoop (σ : Store) (offset : Int) :
    Option Obj → Except String (Store × Int)
  | none => .ok (σ, offset)
  | some (.mk oid _ t isF _ _ _ _ _ _ _ _ _ nx) =>
    if isF then claimGOffsLoop σ offset nx
    else
      match t with
      | none => .error "null deref (var->ty in assign_global_offsets)"
      | some tt =>
        let off := align_to offset (max tt.align 1)
        claimGOffsLoop (σ.setOff oid off) (off + tt.size) nx
termination_by c => sizeOf c
decreasing_by
  all_goals simp_wf
  all_goals omega

/-- The claim-worded global layout pass: run the recurrence from 0 and
round the final offset up to 16. -/
def claimGlobalLayout (σ : Store) (prog : Option Obj) :
    Except String (Store × Int) := do
  let (σ2, off) ← claimGOffsLoop σ 0 prog
  .ok (σ2, align_to off 16)

/-- The offset writes and final running offset of the global layout, a
pure function of the program chain alone. -/
def gW (off : Int) : Option Obj → Option (List (Nat × Int) × Int)
  | none => some ([], off)
  | some (.mk oid _ t isF _ _ _ _ _ _ _ _ _ nx) =>
    if isF then gW off nx
    else
      match t with
      | none => none
      | some tt =>
        let o := align_to off (if tt.align > 0 then tt.align else 1)
        match gW (o + tt.size) nx with
        | some (ws, fin) => some ((oid, o) :: ws, fin)
        | none => none
termination_by c => sizeOf c
decreasing_by
  all_goals simp_wf
  all_goals omega

/-- The offset writes and final offset of one function's locals. -/
def lW (off : Int) : Option Obj → Option (List (Nat × Int) × Int)
  | none => some ([], off)
  | some (.mk oid _ t _ _ _ _ _ _ _ _ _ _ nx) =>
    match t with
    | none => none
    | some tt =>
      let o := align_to off (if tt.align > 0 then tt.align else 1)
      match lW (o + tt.size) nx with
      | some (ws, fin) => some ((oid, o) :: ws, fin)
      | none => none
termination_by c => sizeOf c
decreasing_by
  all_goals simp_wf
  all_goals omega

/-- The offset and stack-size writes of `assign_wasm_offsets`, a pure
function of the program chain alone. -/
def wWr : Option Obj → Option (List (Nat × Int) × List (Nat × Int))
  | none => some ([], [])
  | some (.mk oid _ _ isF _ _ _ _ _ _ _ ls _ nx) =>
    if isF then
      match lW 0 ls with
      | none => none
      | some (ws, fin) =>
        match wWr nx with
        | none => none
        | some (ows, sws) => some (ws ++ ows, (oid, align_to fin 16) :: sws)
    else wWr nx
termination_by c => sizeOf c
decreasing_by
  all_goals simp_wf
  all_goals omega

/-- Apply a list of offset writes in order. -/
def applyOffs (σ : Store) : List (Nat × Int) → Store
  | [] => σ
  | (i, v) :: ws => applyOffs (σ.setOff i v) ws

/-- Apply a list of stack-size writes in order. -/
def applySs (σ : Store) : List (Nat × Int) → Store
  | [] => σ
  | (i, v) :: ws => applySs (σ.setSsize i v) ws

/-- The value of the last write to `i` in a write list, if any. -/
def lastVal : List (Nat × Int) → Nat → Option Int
  | [], _ => none
  | (j, v) :: rest, i =>
    match lastVal rest i with
    | some w => some w
    | none => if i = j then some v else none

/-! ## Claim C3: the `wasm_type` / `wasm_size` mapping

Spec-side restatements of the mapping, written from the words of the
claim, to be compared with the source translations above. -/

/-- The `wasm_type` mapping as the spec words it: f32 for float; f64 for
double and long double; i64 for long of size 8; i32 for every other
kind. -/
def wasm_type_claim (t : CType) : WTy :=
  if t.kind = .ty_float then .f32
  else if t.kind = .ty_double || t.kind = .ty_ldouble then .f64
  else if t.kind = .ty_long && t.size = 8 then .i64
  else .i32

/-- The `wasm_size` mapping as the spec words it: 4 for pointer and
function kinds, 4 for long regardless of its nominal size, `ty.size`
for every other kind. -/
def wasm_size_claim (t : CType) : Int :=
  if t.kind = .ty_ptr then 4
  else if t.kind = .ty_func then 4
  else if t.kind = .ty_long then 4
  else t.size

/-- C3: for every type, `wasm_type` returns f32 for float, f64 for
double and long double, i64 for long of size 8, and i32 for every other
kind; and `wasm_size` returns 4 for pointer and function kinds, 4 for
long regardless of its nominal size, and `ty.size` otherwise. -/
theorem c3_wasm_type_size (t : CType) :
    wasm_type_w (some t) = wasm_type_claim t ∧
    wasm_size (some t) = wasm_size_claim t := by
  obtain ⟨k, s, a, u, b, r, n⟩ := t
  constructor
  · cases k <;> simp [wasm_type_w, wasm_type_claim, CType.kind, CType.size]
  · cases k <;> simp [wasm_size, wasm_size_claim, CType.kind, CType.size]

/-! ## Claim C9: totality of the type utilities at the null boundary -/

/-- C9: when the type pointer is null, `wasm_type` returns "i32",
`wasm_size` returns 4, and `wasm_load` and `wasm_store` emit no
instructions; all four functions are total Lean functions, so none of
them can fail on any argument, null included. -/
theorem c9_null_type_totality :
    wasm_type none = "i32" ∧ wasm_size none = 4 ∧
    wasm_load none = [] ∧ wasm_store none = [] := by
  refine ⟨rfl, rfl, rfl, rfl⟩

/-! ## Checker infrastructure lemmas -/

theorem checkSeq_dead (F : FEnv) (E : EEnv) (L : LEnv) (l : List Instr) :
    checkSeq F E L l .dead = some .dead := by
  cases l <;> simp [checkSeq]

theorem checkSeq_append (F : FEnv) (E : EEnv) (L : LEnv)
    (a b : List Instr) (f : Flow) :
    checkSeq F E L (a ++ b) f =
      match checkSeq F E L a f with
      | some f' => checkSeq F E L b f'
      | none => none := by
  induction a generalizing f with
  | nil => simp [checkSeq]
  | cons i is ih =>
    cases f with
    | dead => simp [checkSeq, checkSeq_dead]
    | ok st =>
      simp only [List.cons_append, checkSeq]
      cases checkI F E L i st <;> simp [ih]

/-- Compose two ok-or-dead segments. -/
theorem chain_ok_or_dead {F : FEnv} {E : EEnv} {L : LEnv}
    {a b : List Instr} {st st1 st2 : List WTy}
    (h1 : checkSeq F E L a (.ok st) = some (.ok st1) ∨
          checkSeq F E L a (.ok st) = some .dead)
    (h2 : checkSeq F E L b (.ok st1) = some (.ok st2) ∨
          checkSeq F E L b (.ok st1) = some .dead) :
    checkSeq F E L (a ++ b) (.ok st) = some (.ok st2) ∨
    checkSeq F E L (a ++ b) (.ok st) = some .dead := by
  rcases h1 with h1 | h1
  · rcases h2 with h2 | h2
    · exact Or.inl (by simp [checkSeq_append, h1, h2])
    · exact Or.inr (by simp [checkSeq_append, h1, h2])
  · exact Or.inr (by simp [checkSeq_append, h1, checkSeq_dead])

/-- A dead output stays dead under appended code. -/
theorem chain_dead {F : FEnv} {E : EEnv} {L : LEnv}
    {a : List Instr} {st : List WTy} (b : List Instr)
    (h : checkSeq F E L a (.ok st) = some .dead) :
    checkSeq F E L (a ++ b) (.ok st) = some .dead := by
  simp [checkSeq_append, h, checkSeq_dead]

/-! ## Facts about `wasm_type_w` and the predicates -/

theorem wasm_type_w_eq_i32 (ty : Option CType)
    (h32 : is_wasm_f32 ty = false) (h64 : is_wasm_f64 ty = false)
    (hi : is_wasm_i64 ty = false) : wasm_type_w ty = .i32 := by
  cases ty with
  | none => rfl
  | some t =>
    obtain ⟨k, s, a, u, b, r, n⟩ := t
    cases k <;>
      simp_all [is_wasm_f32, is_wasm_f64, is_wasm_i64, wasm_type_w,
        CType.kind, CType.size]

theorem wasm_type_w_of_f32 (ty : Option CType)
    (h : is_wasm_f32 ty = true) : wasm_type_w ty = .f32 := by
  cases ty with
  | none => simp [is_wasm_f32] at h
  | some t =>
    obtain ⟨k, s, a, u, b, r, n⟩ := t
    cases k <;> simp_all [is_wasm_f32, wasm_type_w, CType.kind]

theorem wasm_type_w_of_f64 (ty : Option CType)
    (h : is_wasm_f64 ty = true) : wasm_type_w ty = .f64 := by
  cases ty with
  | none => simp [is_wasm_f64] at h
  | some t =>
    obtain ⟨k, s, a, u, b, r, n⟩ := t
    cases k <;> simp_all [is_wasm_f64, wasm_type_w, CType.kind]

theorem wasm_type_w_of_i64 (ty : Option CType)
    (h : is_wasm_i64 ty = true) : wasm_type_w ty = .i64 := by
  cases ty with
  | none => simp [is_wasm_i64] at h
  | some t =>
    obtain ⟨k, s, a, u, b, r, n⟩ := t
    cases k <;>
      simp_all [is_wasm_i64, wasm_type_w, CType.kind, CType.size]

theorem wasm_type_w_not_f32 (ty : Option CType)
    (h : is_wasm_f32 ty = false) : wasm_type_w ty ≠ .f32 := by
  cases ty with
  | none => simp [wasm_type_w]
  | some t =>
    obtain ⟨k, s, a, u, b, r, n⟩ := t
    cases k <;>
      simp_all [is_wasm_f32, wasm_type_w, CType.kind, CType.size] <;>
      split <;> simp

theorem wasm_type_w_not_f64 (ty : Option CType)
    (h : is_wasm_f64 ty = false) : wasm_type_w ty ≠ .f64 := by
  cases ty with
  | none => simp [wasm_type_w]
  | some t =>
    obtain ⟨k, s, a, u, b, r, n⟩ := t
    cases k <;>
      simp_all [is_wasm_f64, wasm_type_w, CType.kind, CType.size] <;>
      split <;> simp

theorem wasm_type_w_not_i64 (ty : Option CType)
    (h : is_wasm_i64 ty = false) : wasm_type_w ty ≠ .i64 := by
  cases ty with
  | none => simp [wasm_type_w]
  | some t =>
    obtain ⟨k, s, a, u, b, r, n⟩ := t
    cases k <;>
      simp_all [is_wasm_i64, wasm_type_w, CType.kind, CType.size]

theorem is_wasm_float_cases (ty : Option CType)
    (h : is_wasm_float ty = true) :
    wasm_type_w ty = .f32 ∨ wasm_type_w ty = .f64 := by
  rcases Bool.or_eq_true_iff.mp (by simpa [is_wasm_float] using h) with h' | h'
  · exact Or.inl (wasm_type_w_of_f32 ty h')
  · exact Or.inr (wasm_type_w_of_f64 ty h')

/-! ## Claim C2: the FOR lowering -/

@[simp] theorem except_bind_ok (a : α) (f : α → Except ε β) :
    (Except.ok a : Except ε α) >>= f = f a := rfl

@[simp] theorem except_pure_eq (a : α) :
    (pure a : Except ε α) = Except.ok a := rfl

/-- C2 counterexample: a FOR node whose increment expression has void
type.  The generated code is exactly `block { loop { body-empty;
(i32.const 0); (drop); (br $cont) } }`: a `(drop)` IS emitted after the
void-typed increment, refuting the claim that no drop is emitted in
that case (the source emits the drop unconditionally whenever `inc` is
present). -/
theorem c2_counterexample :
    gen_stmt defStore (some forVoidInc) =
      .ok [.block_brk "brk1" [.loop_cont "cont1"
        [.i32_const 0, .drop, .br "cont1"]]] ∧
    dropCounts [Instr.block_brk "brk1" [.loop_cont "cont1"
        [.i32_const 0, .drop, .br "cont1"]]] = 1 := by
  constructor
  · simp [gen_stmt, gen_expr, gen_block, for_cond_code, for_inc_code,
      forVoidInc, voidNullExpr, bareNode, showName]
  · rfl

/-- C2 amended: for every FOR node, `gen_stmt` emits the init statement
(when present) before the outer block, then emits
`block $brk { loop $cont { cond negated with br_if $brk (when cond is
present); body; inc evaluated followed by a (drop) WHENEVER inc is
present, regardless of inc's type; br $cont } }`. -/
theorem c2_amended (σ : Store)
    (nx : Option Node) (ty : Option CType) (tk : Option Tok)
    (lhs rhs bd cond then' els init inc : Option Node)
    (bl cl : Option String) (args : Option Node) (var : Option LVar)
    (mem : Option Mem) (val : Int) (fv : Rat) (be en : Int)
    (la ul astr : Option String) (cnext dcase caddr cold cnew : Option Node)
    (i c b ic : List Instr)
    (hi : gen_stmt σ init = .ok i)
    (hc : for_cond_code σ cond (showName bl) = .ok c)
    (hb : gen_stmt σ then' = .ok b)
    (hic : for_inc_code σ inc = .ok ic) :
    gen_stmt σ (some (.mk .nd_for nx ty tk lhs rhs bd cond then' els init inc
      bl cl args var mem val fv be en la ul astr cnext dcase caddr cold
      cnew)) =
    .ok (i ++ [.block_brk (showName bl)
      [.loop_cont (showName cl) (c ++ b ++ ic ++ [.br (showName cl)])]]) := by
  simp [gen_stmt, hi, hc, hb, hic]

/-- C2 witness: the amended theorem applied to the concrete loop
`for (; 1; 5) {}`. -/
theorem c2_witness :
    gen_stmt defStore (some forIntInc) =
      .ok [.block_brk "brk2" [.loop_cont "cont2"
        ([.i32_const 1, .i32_eqz, .br_if "brk2"] ++ [] ++
         [.i32_const 5, .drop] ++ [.br "cont2"])]] := by
  have h := c2_amended defStore none none none none none none
    (some (numInt 1)) (some (bareNode .nd_block)) none none (some (numInt 5))
    (some "brk2") (some "cont2") none none none 0 0 0 0 none none none none
    none none none none [] [.i32_const 1, .i32_eqz, .br_if "brk2"] []
    [.i32_const 5, .drop]
    (by simp [gen_stmt])
    (by simp [for_cond_code, gen_expr, numInt, is_wasm_f32, is_wasm_f64,
      is_wasm_i64, tyIntC, CType.kind, wrap32, showName])
    (by simp [gen_stmt, gen_block, bareNode])
    (by simp [for_inc_code, gen_expr, numInt, is_wasm_f32, is_wasm_f64,
      is_wasm_i64, tyIntC, CType.kind, wrap32])
  simpa [forIntInc, showName] using h

/-! ## Claim C1: the stack discipline of the generators -/

theorem node_size (k : NodeKind) (nx : Option Node) (ty : Option CType)
    (tk : Option Tok) (lhs rhs bd cond then' els init inc : Option Node)
    (bl cl : Option String) (args : Option Node) (var : Option LVar)
    (mem : Option Mem) (val : Int) (fv : Rat) (be en : Int)
    (la ul astr : Option String) (cnext dcase caddr cold cnew : Option Node) :
    sizeOf (Node.mk k nx ty tk lhs rhs bd cond then' els init inc bl cl args
      var mem val fv be en la ul astr cnext dcase caddr cold cnew) =
    1 + sizeOf k + sizeOf nx + sizeOf ty + sizeOf tk + sizeOf lhs +
    sizeOf rhs + sizeOf bd + sizeOf cond + sizeOf then' + sizeOf els +
    sizeOf init + sizeOf inc + sizeOf bl + sizeOf cl + sizeOf args +
    sizeOf var + sizeOf mem + sizeOf val + sizeOf fv + sizeOf be +
    sizeOf en + sizeOf la + sizeOf ul + sizeOf astr + sizeOf cnext +
    sizeOf dcase + sizeOf caddr + sizeOf cold + sizeOf cnew := by
  simp [Node.mk.sizeOf_spec]

theorem opt_size (x : Node) : sizeOf (some x) = 1 + sizeOf x := by rfl

theorem node_pos (n : Node) : 1 ≤ sizeOf n := by
  obtain ⟨k, nx, ty, tk, lhs, rhs, bd, cond, then', els, init, inc, bl, cl,
    args, var, mem, val, fv, be, en, la, ul, astr, cnext, dcase, caddr, cold,
    cnew⟩ := n
  rw [node_size]
  omega

@[simp] theorem except_bind_error (e : ε) (f : α → Except ε β) :
    (Except.error e : Except ε α) >>= f = .error e := rfl

theorem var_addr_check (F : FEnv) (σ : Store) (L : LEnv)
    (v : Option LVar) (code : List Instr)
    (h : var_addr σ v = .ok code) (st : List WTy) :
    checkSeq F stdE L code (.ok st) = some (.ok (.i32 :: st)) := by
  match v with
  | none => simp [var_addr] at h
  | some x =>
    simp only [var_addr] at h
    split at h <;>
      (cases h; simp [checkSeq, checkI])

theorem step_addr (F : FEnv) (σ : Store) (N : Nat) (ih : IHyp F σ N) :
    ∀ n : Node, sizeOf n ≤ N + 1 → ∀ L, WFaddr F L n → PAddr F σ L n := by
  intro n hn L hwf code hgen st
  obtain ⟨k, nx, ty, tk, lhs, rhs, bd, cond, then', els, init, inc, bl, cl,
    args, var, mem, val, fv, be, en, la, ul, astr, cnext, dcase, caddr, cold,
    cnew⟩ := n
  rw [node_size] at hn
  cases k
  case nd_var =>
    rw [gen_addr.eq_def] at hgen
    simp only [] at hgen
    exact Or.inl (var_addr_check F σ L var code hgen st)
  case nd_deref =>
    rw [WFaddr.eq_def] at hwf
    simp only [] at hwf
    rw [gen_addr.eq_def] at hgen
    simp only [] at hgen
    cases lhs with
    | none => exact absurd hwf (by simp)
    | some l =>
      obtain ⟨h1, hty⟩ := hwf
      have hl : sizeOf l ≤ N := by
        (try simp only [opt_size, NodeKind.sizeOf_one] at hn); omega
      have hp := ((ih.1 l hl L).2.1) h1 code hgen st
      rw [hty] at hp
      exact hp
  case nd_comma =>
    rw [WFaddr.eq_def] at hwf
    simp only [] at hwf
    rw [gen_addr.eq_def] at hgen
    simp only [] at hgen
    obtain ⟨hl, hr⟩ := hwf
    cases lhs with
    | none => exact absurd hl (by simp)
    | some l =>
      cases rhs with
      | none =>
        cases hga : gen_expr σ (some l) <;> simp [hga, gen_addr] at hgen
      | some r =>
        cases hga : gen_expr σ (some l) with
        | error e => simp [hga] at hgen
        | ok a =>
          cases hgb : gen_addr σ (some r) with
          | error e => simp [hga, hgb] at hgen
          | ok b =>
            simp only [hga, hgb, except_bind_ok] at hgen
            cases hgen
            have hszl : sizeOf l ≤ N := by
              (try simp only [opt_size, NodeKind.sizeOf_one] at hn); omega
            have hszr : sizeOf r ≤ N := by
              (try simp only [opt_size, NodeKind.sizeOf_one] at hn); omega
            have h1 := ((ih.1 l hszl L).2.1) hl a hga st
            have h2 := ((ih.1 r hszr L).1) hr b hgb st
            refine chain_ok_or_dead (chain_ok_or_dead h1 ?_) h2
            exact Or.inl (by simp [checkSeq, checkI])
  case nd_member =>
    rw [WFaddr.eq_def] at hwf
    simp only [] at hwf
    rw [gen_addr.eq_def] at hgen
    simp only [] at hgen
    cases lhs with
    | none => simp [gen_addr] at hgen
    | some l =>
      cases mem with
      | none =>
        cases hga : gen_addr σ (some l) <;> simp [hga, member_tail] at hgen
      | some m =>
        cases hga : gen_addr σ (some l) with
        | error e => simp [hga] at hgen
        | ok a =>
          simp only [hga, member_tail, except_bind_ok] at hgen
          cases hgen
          have hszl : sizeOf l ≤ N := by
            (try simp only [opt_size, NodeKind.sizeOf_one] at hn); omega
          have h1 := ((ih.1 l hszl L).1) hwf a hga st
          refine chain_ok_or_dead h1 ?_
          exact Or.inl (by simp [checkSeq, checkI, effect, popTs, popT])
  all_goals rw [gen_addr.eq_def] at hgen
  all_goals exact Except.noConfusion hgen

theorem popTs_self (ts st : List WTy) : popTs ts (ts ++ st) = some st := by
  induction ts with
  | nil => simp [popTs]
  | cons t ts ih => simp [popTs, popT, ih]

theorem step_expr0 (F : FEnv) (σ : Store) (N : Nat) (ih : IHyp F σ N) :
    ∀ n : Node, sizeOf n ≤ N + 1 → ∀ L, WFexpr0 F L n → PExpr0 F σ L n := by
  intro n hn L hwf code hgen st
  obtain ⟨k, nx, ty, tk, lhs, rhs, bd, cond, then', els, init, inc, bl, cl,
    args, var, mem, val, fv, be, en, la, ul, astr, cnext, dcase, caddr, cold,
    cnew⟩ := n
  rw [node_size] at hn
  cases k
  case nd_funcall =>
    rw [WFexpr0.eq_def] at hwf
    simp only [] at hwf
    rw [gen_expr.eq_def] at hgen
    simp only [] at hgen
    obtain ⟨hcallee, hargs⟩ := hwf
    cases hga : gen_args σ args with
    | error e => rw [hga] at hgen; exact Except.noConfusion hgen
    | ok as' =>
      simp only [hga, except_bind_ok] at hgen
      cases lhs with
      | none => exact Except.noConfusion hgen
      | some l =>
        obtain ⟨lk, lnx, lty, ltk, llhs, lrhs, lbd, lcond, lthen, lels, linit,
          linc, lbl, lcl, largs, lvar, lmem, lval, lfv, lbe, len, lla, lul,
          lastr, lcnext, ldcase, lcaddr, lcold, lcnew⟩ := l
        obtain ⟨hk, hrest⟩ := hcallee
        simp only [Node.kind] at hk
        subst hk
        simp only [Node.var] at hrest hgen
        cases lvar with
        | none => exact Except.noConfusion hgen
        | some v =>
          obtain ⟨vid, vnm, vty2, vloc⟩ := v
          cases vnm with
          | none => exact hrest.elim
          | some nm =>
            simp only [Node.kind, Node.var, if_pos] at hgen
            cases hgen
            have hsza : sizeOf args ≤ N := by
              (try simp only [opt_size, NodeKind.sizeOf_one] at hn); omega
            have h1 := ((ih.2 args hsza L).1) hargs as' hga st
            refine chain_ok_or_dead h1 ?_
            refine Or.inl ?_
            simp [checkSeq, checkI, hrest, effect, popTs_self]
  case nd_memzero =>
    rw [gen_expr.eq_def] at hgen
    simp only [] at hgen
    cases var with
    | none => exact Except.noConfusion hgen
    | some v =>
      obtain ⟨vid, vnm, vty2, vloc⟩ := v
      cases vty2 with
      | none => exact Except.noConfusion hgen
      | some vt =>
        cases hgen
        refine Or.inl ?_
        simp [checkSeq, checkI, effect, popTs, popT]
  all_goals rw [WFexpr0.eq_def] at hwf
  all_goals simp only [] at hwf
  all_goals exact absurd hwf (by simp)

theorem checkBody_of_res {F : FEnv} {E : EEnv} {L : LEnv} {b : List Instr}
    {res : List WTy}
    (h : checkSeq F E L b (.ok []) = some (.ok res) ∨
         checkSeq F E L b (.ok []) = some .dead) :
    checkBody F E L b res = true := by
  rcases h with h | h <;> simp [checkBody, h]

theorem lookup_brk (a b : String) (L : LEnv) :
    lookupStr ((a, ([] : List WTy)) :: (b, ([] : List WTy)) :: L) b =
      some [] := by
  by_cases h : a = b <;> simp [lookupStr, h]

theorem step_args (F : FEnv) (σ : Store) (N : Nat) (ih : IHyp F σ N) :
    ∀ c : Option Node, sizeOf c ≤ N + 1 → ∀ L, WFargs F L c → PArgs F σ L c := by
  intro c hc L hwf code hgen st
  cases c with
  | none =>
    rw [gen_args.eq_def] at hgen
    cases hgen
    exact Or.inl (by simp [checkSeq, argTys])
  | some nd =>
    obtain ⟨k, nx, ty, tk, lhs, rhs, bd, cond, then', els, init, inc, bl, cl,
      args, var, mem, val, fv, be, en, la, ul, astr, cnext, dcase, caddr, cold,
      cnew⟩ := nd
    rw [WFargs.eq_def] at hwf
    simp only [] at hwf
    obtain ⟨h1, hrest⟩ := hwf
    rw [gen_args.eq_def] at hgen
    simp only [] at hgen
    cases hge : gen_expr σ (some (.mk k nx ty tk lhs rhs bd cond then' els init
        inc bl cl args var mem val fv be en la ul astr cnext dcase caddr cold
        cnew)) with
    | error e => rw [hge] at hgen; exact Except.noConfusion hgen
    | ok a =>
      cases hgr : gen_args σ nx with
      | error e => rw [hge, hgr] at hgen; exact Except.noConfusion hgen
      | ok rest =>
        rw [hge, hgr] at hgen
        simp only [except_bind_ok] at hgen
        cases hgen
        have hsz : sizeOf (Node.mk k nx ty tk lhs rhs bd cond then' els init
            inc bl cl args var mem val fv be en la ul astr cnext dcase caddr
            cold cnew) ≤ N := by
          rw [opt_size] at hc; omega
        have hsznx : sizeOf nx ≤ N := by
          rw [opt_size, node_size] at hc
          have := node_pos (Node.mk k nx ty tk lhs rhs bd cond then' els init
            inc bl cl args var mem val fv be en la ul astr cnext dcase caddr
            cold cnew)
          simp only [NodeKind.sizeOf_one] at hc
          omega
        have hp1 := ((ih.1 _ hsz L).2.1) h1 a hge st
        have hp2 := ((ih.2 nx hsznx L).1) hrest rest hgr
          (wasm_type_w ty :: st)
        simp only [Node.ty] at hp1
        have := chain_ok_or_dead hp1 hp2
        simpa [argTys, List.append_assoc] using this

theorem step_block (F : FEnv) (σ : Store) (N : Nat) (ih : IHyp F σ N) :
    ∀ c : Option Node, sizeOf c ≤ N + 1 → ∀ L, WFblock F L c →
      PBlock F σ L c := by
  intro c hc L hwf code hgen st
  cases c with
  | none =>
    rw [gen_block.eq_def] at hgen
    cases hgen
    exact Or.inl (by simp [checkSeq])
  | some nd =>
    obtain ⟨k, nx, ty, tk, lhs, rhs, bd, cond, then', els, init, inc, bl, cl,
      args, var, mem, val, fv, be, en, la, ul, astr, cnext, dcase, caddr, cold,
      cnew⟩ := nd
    rw [WFblock.eq_def] at hwf
    simp only [] at hwf
    obtain ⟨h1, hrest⟩ := hwf
    rw [gen_block.eq_def] at hgen
    simp only [] at hgen
    cases hge : gen_stmt σ (some (.mk k nx ty tk lhs rhs bd cond then' els init
        inc bl cl args var mem val fv be en la ul astr cnext dcase caddr cold
        cnew)) with
    | error e => rw [hge] at hgen; exact Except.noConfusion hgen
    | ok a =>
      cases hgr : gen_block σ nx with
      | error e => rw [hge, hgr] at hgen; exact Except.noConfusion hgen
      | ok rest =>
        rw [hge, hgr] at hgen
        simp only [except_bind_ok] at hgen
        cases hgen
        have hsz : sizeOf (Node.mk k nx ty tk lhs rhs bd cond then' els init
            inc bl cl args var mem val fv be en la ul astr cnext dcase caddr
            cold cnew) ≤ N := by
          rw [opt_size] at hc; omega
        have hsznx : sizeOf nx ≤ N := by
          rw [opt_size, node_size] at hc
          simp only [NodeKind.sizeOf_one] at hc
          omega
        have hp1 := ((ih.1 _ hsz L).2.2.2) h1 a hge st
        have hp2 := ((ih.2 nx hsznx L).2.1) hrest rest hgr st
        exact chain_ok_or_dead hp1 hp2


theorem step_se (F : FEnv) (σ : Store) (N : Nat) (ih : IHyp F σ N) :
    ∀ c : Option Node, sizeOf c ≤ N + 1 → ∀ L sty, WFseBody F L sty c →
      PSe F σ L sty c := by
  intro c hc L sty hwf code hgen st
  cases c with
  | none => exact absurd hwf (by rw [WFseBody.eq_def]; simp)
  | some nd =>
    obtain ⟨k, nx, ty, tk, lhs, rhs, bd, cond, then', els, init, inc, bl, cl,
      args, var, mem, val, fv, be, en, la, ul, astr, cnext, dcase, caddr, cold,
      cnew⟩ := nd
    rw [WFseBody.eq_def] at hwf
    simp only [] at hwf
    rw [gen_stmt_expr_body.eq_def] at hgen
    simp only [] at hgen
    cases nx with
    | none =>
      by_cases hk : k = NodeKind.nd_expr_stmt
      · rw [if_pos hk] at hwf hgen
        cases lhs with
        | none => exact absurd hwf (by simp)
        | some l =>
          obtain ⟨h1, hty⟩ := hwf
          have hszl : sizeOf l ≤ N := by
            rw [opt_size, node_size] at hc
            simp only [opt_size, NodeKind.sizeOf_one] at hc
            omega
          have hp := ((ih.1 l hszl L).2.1) h1 code hgen st
          rw [hty] at hp
          exact hp
      · rw [if_neg hk] at hwf hgen
        obtain ⟨hs, hi32⟩ := hwf
        cases hge : gen_stmt σ (some (.mk k none ty tk lhs rhs bd cond then'
            els init inc bl cl args var mem val fv be en la ul astr cnext
            dcase caddr cold cnew)) with
        | error e => rw [hge] at hgen; exact Except.noConfusion hgen
        | ok s =>
          rw [hge] at hgen
          simp only [except_bind_ok] at hgen
          cases hgen
          have hsz : sizeOf (Node.mk k none ty tk lhs rhs bd cond then' els
              init inc bl cl args var mem val fv be en la ul astr cnext dcase
              caddr cold cnew) ≤ N := by
            rw [opt_size] at hc; omega
          have hp := ((ih.1 _ hsz L).2.2.2) hs s hge st
          rw [hi32]
          refine chain_ok_or_dead hp (Or.inl ?_)
          simp [checkSeq, checkI]
    | some nx2 =>
      simp only [] at hwf hgen
      obtain ⟨hs, hrest⟩ := hwf
      cases hge : gen_stmt σ (some (.mk k (some nx2) ty tk lhs rhs bd cond
          then' els init inc bl cl args var mem val fv be en la ul astr cnext
          dcase caddr cold cnew)) with
      | error e => rw [hge] at hgen; exact Except.noConfusion hgen
      | ok s =>
        cases hgr : gen_stmt_expr_body σ (some nx2) with
        | error e => rw [hge, hgr] at hgen; exact Except.noConfusion hgen
        | ok rest =>
          rw [hge, hgr] at hgen
          simp only [except_bind_ok] at hgen
          cases hgen
          have hsz : sizeOf (Node.mk k (some nx2) ty tk lhs rhs bd cond then'
              els init inc bl cl args var mem val fv be en la ul astr cnext
              dcase caddr cold cnew) ≤ N := by
            rw [opt_size] at hc; omega
          have hsznx : sizeOf (some nx2 : Option Node) ≤ N := by
            rw [opt_size, node_size] at hc
            simp only [opt_size, NodeKind.sizeOf_one] at hc
            rw [opt_size]
            omega
          have hp1 := ((ih.1 _ hsz L).2.2.2) hs s hge st
          have hp2 := ((ih.2 (some nx2) hsznx L).2.2 sty) hrest rest hgr st
          exact chain_ok_or_dead hp1 hp2


theorem chain_to_dead {F : FEnv} {E : EEnv} {L : LEnv}
    {a b : List Instr} {st st1 : List WTy}
    (h1 : checkSeq F E L a (.ok st) = some (.ok st1) ∨
          checkSeq F E L a (.ok st) = some .dead)
    (h2 : checkSeq F E L b (.ok st1) = some .dead) :
    checkSeq F E L (a ++ b) (.ok st) = some .dead := by
  rcases h1 with h1 | h1
  · simp [checkSeq_append, h1, h2]
  · simp [checkSeq_append, h1, checkSeq_dead]

theorem lookup_head {α : Type} (a : String) (x : α) (L : List (String × α)) :
    lookupStr ((a, x) :: L) a = some x := by
  simp [lookupStr]

theorem switch_cases_check (F : FEnv) (E : EEnv) (L : LEnv)
    (hE : lookupStr E "__tmp_i32" = some WTy.i32) :
    ∀ cs : Option Node, ∀ b : List Instr,
      (checkSeq F E L b (.ok []) = some (.ok []) ∨
       checkSeq F E L b (.ok []) = some .dead) →
      (checkSeq F E L (switch_cases cs b) (.ok []) = some (.ok []) ∨
       checkSeq F E L (switch_cases cs b) (.ok []) = some .dead) := by
  intro cs b
  induction cs, b using switch_cases.induct with
  | case1 b => intro hb; rw [switch_cases.eq_def]; exact hb
  | case2 b x1 x2 x3 x4 x5 x6 x7 x8 x9 x10 x11 x12 x13 x14 x15 x16 x17 x18
      x19 be x21 x22 x23 x24 cnext x26 x27 x28 x29 ihc =>
    intro hb
    rw [switch_cases.eq_def]
    simp only []
    have hinner := ihc hb
    refine Or.inl ?_
    simp [checkSeq, checkI, hE, effect, popTs, popT, isCmpOp]
    rcases hinner with h | h <;> simp [checkBody, h]

theorem step_stmt (F : FEnv) (σ : Store) (N : Nat) (ih : IHyp F σ N) :
    ∀ n : Node, sizeOf n ≤ N + 1 → ∀ L, WFstmt F L n → PStmt F σ L n := by
  intro n hn L hwf code hgen st
  obtain ⟨k, nx, ty, tk, lhs, rhs, bd, cond, then', els, init, inc, bl, cl,
    args, var, mem, val, fv, be, en, la, ul, astr, cnext, dcase, caddr, cold,
    cnew⟩ := n
  rw [node_size] at hn
  simp only [NodeKind.sizeOf_one] at hn
  cases k
  case nd_return =>
    rw [WFstmt.eq_def] at hwf
    simp only [] at hwf
    rw [gen_stmt.eq_def] at hgen
    simp only [] at hgen
    cases lhs with
    | none =>
      rw [gen_expr.eq_def] at hgen
      simp only [except_bind_ok] at hgen
      cases hgen
      refine Or.inr ?_
      simp [checkSeq, checkI, hwf, popTs]
    | some l =>
      obtain ⟨h1, hlook⟩ := hwf
      cases hge : gen_expr σ (some l) with
      | error e => rw [hge] at hgen; exact Except.noConfusion hgen
      | ok a =>
        rw [hge] at hgen
        simp only [except_bind_ok] at hgen
        cases hgen
        have hszl : sizeOf l ≤ N := by
          (try simp only [opt_size] at hn); omega
        have hp := ((ih.1 l hszl L).2.1) h1 a hge st
        refine Or.inr (chain_to_dead hp ?_)
        simp [checkSeq, checkI, hlook, popTs, popT]
  case nd_expr_stmt =>
    rw [WFstmt.eq_def] at hwf
    simp only [] at hwf
    rw [gen_stmt.eq_def] at hgen
    simp only [] at hgen
    cases lhs with
    | none =>
      rw [gen_expr.eq_def] at hgen
      simp only [except_bind_ok] at hgen
      cases hgen
      exact Or.inl (by simp [checkSeq])
    | some l =>
      cases hge : gen_expr σ (some l) with
      | error e => rw [hge] at hgen; exact Except.noConfusion hgen
      | ok a =>
        rw [hge] at hgen
        simp only [except_bind_ok] at hgen
        have hszl : sizeOf l ≤ N := by
          (try simp only [opt_size] at hn); omega
        obtain ⟨lk, lnx, lty, ltk, llhs, lrhs, lbd, lcond, lthen, lels, linit,
          linc, lbl, lcl, largs, lvar, lmem, lval, lfv, lbe, len, lla, lul,
          lastr, lcnext, ldcase, lcaddr, lcold, lcnew⟩ := l
        simp only [Node.ty] at hwf hgen
        cases lty with
        | none =>
          simp only [] at hwf hgen
          cases hgen
          have hp := ((ih.1 _ hszl L).2.2.1) hwf a hge st
          simpa using hp
        | some lt =>
          simp only [] at hwf hgen
          by_cases hv : lt.kind = TyKind.ty_void
          · rw [if_pos hv] at hwf
            have hne : (lt.kind != TyKind.ty_void) = false := by
              simp [hv]
            simp only [hne, Bool.false_eq_true, if_false,
              List.append_nil] at hgen
            cases hgen
            have hp := ((ih.1 _ hszl L).2.2.1) hwf _ hge st
            simpa using hp
          · rw [if_neg hv] at hwf
            have hne : (lt.kind != TyKind.ty_void) = true := by
              simp [hv]
            simp only [hne, if_true] at hgen
            cases hgen
            have hp := ((ih.1 _ hszl L).2.1) hwf a hge st
            refine chain_ok_or_dead hp (Or.inl ?_)
            simp [checkSeq, checkI]
  case nd_block =>
    rw [WFstmt.eq_def] at hwf
    simp only [] at hwf
    rw [gen_stmt.eq_def] at hgen
    simp only [] at hgen
    have hszb : sizeOf bd ≤ N := by
      (try simp only [opt_size] at hn); omega
    exact ((ih.2 bd hszb L).2.1) hwf code hgen st
  case nd_if =>
    rw [WFstmt.eq_def] at hwf
    simp only [] at hwf
    rw [gen_stmt.eq_def] at hgen
    simp only [] at hgen
    obtain ⟨hc, ht, he⟩ := hwf
    cases cond with
    | none => exact absurd hc (by simp)
    | some c =>
      obtain ⟨hc1, hci32⟩ := hc
      cases hgc : gen_expr σ (some c) with
      | error e => rw [hgc] at hgen; exact Except.noConfusion hgen
      | ok ccode =>
        cases hgt : gen_stmt σ then' with
        | error e => rw [hgc, hgt] at hgen; simp at hgen
        | ok tcode =>
          have hszc : sizeOf c ≤ N := by
            (try simp only [opt_size] at hn); omega
          have hszt : sizeOf then' ≤ N := by
            (try simp only [opt_size] at hn); omega
          have hpc := ((ih.1 c hszc L).2.1) hc1 ccode hgc st
          rw [hci32] at hpc
          have hpt : checkSeq F stdE L tcode (.ok []) = some (.ok []) ∨
              checkSeq F stdE L tcode (.ok []) = some .dead := by
            cases then' with
            | none =>
              rw [gen_stmt.eq_def] at hgt
              cases hgt
              exact Or.inl (by simp [checkSeq])
            | some t =>
              have htw : WFstmt F L t := by simpa using ht
              exact ((ih.1 t (by simp only [opt_size] at hszt; omega) L).2.2.2)
                htw tcode hgt []
          cases els with
          | none =>
            rw [hgc, hgt] at hgen
            rw [if_else_code.eq_def] at hgen
            simp only [except_bind_ok, except_pure_eq] at hgen
            cases hgen
            refine chain_ok_or_dead hpc (Or.inl ?_)
            rw [checkSeq.eq_def]
            simp only []
            rw [checkI.eq_def]
            simp only [checkBody_of_res hpt]
            simp [checkSeq]
          | some el =>
            have hew : WFstmt F L el := by simpa using he
            rw [hgc, hgt] at hgen
            rw [if_else_code.eq_def] at hgen
            simp only [] at hgen
            cases hgel : gen_stmt σ (some el) with
            | error e => rw [hgel] at hgen; simp at hgen
            | ok ecode =>
              rw [hgel] at hgen
              simp only [except_bind_ok, except_pure_eq] at hgen
              cases hgen
              have hsze : sizeOf el ≤ N := by
                (try simp only [opt_size] at hn); omega
              have hpe := ((ih.1 el hsze L).2.2.2) hew ecode hgel []
              refine chain_ok_or_dead hpc (Or.inl ?_)
              rw [checkSeq.eq_def]
              simp only []
              rw [checkI.eq_def]
              simp only [checkBody_of_res hpt, checkBody_of_res hpe]
              simp [checkSeq]
  case nd_for =>
    rw [WFstmt.eq_def] at hwf
    simp only [] at hwf
    rw [gen_stmt.eq_def] at hgen
    simp only [] at hgen
    obtain ⟨hinit, hcond, hbody, hinc⟩ := hwf
    cases hgi : gen_stmt σ init with
    | error e => rw [hgi] at hgen; exact Except.noConfusion hgen
    | ok icode =>
    cases hgc : for_cond_code σ cond (showName bl) with
    | error e => rw [hgi, hgc] at hgen; simp at hgen
    | ok condCode =>
    cases hgb : gen_stmt σ then' with
    | error e => rw [hgi, hgc, hgb] at hgen; simp at hgen
    | ok bcode =>
    cases hgn : for_inc_code σ inc with
    | error e => rw [hgi, hgc, hgb, hgn] at hgen; simp at hgen
    | ok incCode =>
    rw [hgi, hgc, hgb, hgn] at hgen
    simp only [except_bind_ok] at hgen
    cases hgen
    have hpi : ∀ st', checkSeq F stdE L icode (.ok st') = some (.ok st') ∨
        checkSeq F stdE L icode (.ok st') = some .dead := by
      intro st'
      cases init with
      | none =>
        rw [gen_stmt.eq_def] at hgi
        cases hgi
        exact Or.inl (by simp [checkSeq])
      | some e =>
        have hsze : sizeOf e ≤ N := by
          (try simp only [opt_size] at hn); omega
        exact ((ih.1 e hsze L).2.2.2) (by simpa using hinit) icode hgi st'
    have hpc : ∀ st', checkSeq F stdE ((showName cl, ([] : List WTy)) ::
        (showName bl, ([] : List WTy)) :: L) condCode (.ok st') =
          some (.ok st') ∨
        checkSeq F stdE ((showName cl, ([] : List WTy)) ::
         (showName bl, ([] : List WTy)) :: L) condCode (.ok st') =
          some .dead := by
      intro st'
      cases cond with
      | none =>
        rw [for_cond_code.eq_def] at hgc
        cases hgc
        exact Or.inl (by simp [checkSeq])
      | some ce =>
        rw [for_cond_code.eq_def] at hgc
        simp only [] at hgc
        cases hgce : gen_expr σ (some ce) with
        | error er => rw [hgce] at hgc; exact Except.noConfusion hgc
        | ok ccode =>
          rw [hgce] at hgc
          simp only [except_bind_ok, except_pure_eq] at hgc
          cases hgc
          obtain ⟨hc1, hci32⟩ : WFexpr1 F _ ce ∧ wasm_type_w ce.ty = .i32 := by
            simpa using hcond
          have hszc : sizeOf ce ≤ N := by
            (try simp only [opt_size] at hn); omega
          have hp := ((ih.1 ce hszc _).2.1) hc1 ccode hgce st'
          rw [hci32] at hp
          refine chain_ok_or_dead hp (Or.inl ?_)
          simp [checkSeq, checkI, effect, popTs, popT, lookup_brk]
    have hpb : checkSeq F stdE ((showName cl, ([] : List WTy)) ::
        (showName bl, ([] : List WTy)) :: L) bcode (.ok []) =
          some (.ok []) ∨
        checkSeq F stdE ((showName cl, ([] : List WTy)) ::
         (showName bl, ([] : List WTy)) :: L) bcode (.ok []) =
          some .dead := by
      cases then' with
      | none =>
        rw [gen_stmt.eq_def] at hgb
        cases hgb
        exact Or.inl (by simp [checkSeq])
      | some t =>
        have hszt : sizeOf t ≤ N := by
          (try simp only [opt_size] at hn); omega
        exact ((ih.1 t hszt _).2.2.2) (by simpa using hbody) bcode hgb []
    have hpn : ∀ st', checkSeq F stdE ((showName cl, ([] : List WTy)) ::
        (showName bl, ([] : List WTy)) :: L) incCode (.ok st') =
          some (.ok st') ∨
        checkSeq F stdE ((showName cl, ([] : List WTy)) ::
         (showName bl, ([] : List WTy)) :: L) incCode (.ok st') =
          some .dead := by
      intro st'
      cases inc with
      | none =>
        rw [for_inc_code.eq_def] at hgn
        cases hgn
        exact Or.inl (by simp [checkSeq])
      | some ie =>
        rw [for_inc_code.eq_def] at hgn
        simp only [] at hgn
        cases hgne : gen_expr σ (some ie) with
        | error er => rw [hgne] at hgn; exact Except.noConfusion hgn
        | ok xcode =>
          rw [hgne] at hgn
          simp only [except_bind_ok, except_pure_eq] at hgn
          cases hgn
          have hszi : sizeOf ie ≤ N := by
            (try simp only [opt_size] at hn); omega
          have hp := ((ih.1 ie hszi _).2.1) (by simpa using hinc) xcode hgne
            st'
          refine chain_ok_or_dead hp (Or.inl ?_)
          simp [checkSeq, checkI]
    have hloop : checkSeq F stdE ((showName cl, ([] : List WTy)) ::
        (showName bl, ([] : List WTy)) :: L)
        (condCode ++ bcode ++ incCode ++ [Instr.br (showName cl)])
        (.ok []) = some .dead := by
      refine chain_to_dead
        (chain_ok_or_dead (chain_ok_or_dead (hpc []) hpb) (hpn []))
        ?_
      simp [checkSeq, checkI, lookup_head, popTs]
    have hloop2 : checkSeq F stdE ((showName cl, ([] : List WTy)) ::
        (showName bl, ([] : List WTy)) :: L)
        (condCode ++ (bcode ++ (incCode ++ [Instr.br (showName cl)])))
        (.ok []) = some .dead := by
      simpa [List.append_assoc] using hloop
    refine chain_ok_or_dead (hpi st) (Or.inl ?_)
    simp [checkSeq, checkI, checkBody, hloop2]
  case nd_do =>
    rw [WFstmt.eq_def] at hwf
    simp only [] at hwf
    rw [gen_stmt.eq_def] at hgen
    simp only [] at hgen
    obtain ⟨hbody, hcond⟩ := hwf
    cases hgb : gen_stmt σ then' with
    | error e => rw [hgb] at hgen; exact Except.noConfusion hgen
    | ok bcode =>
      cases cond with
      | none => exact absurd hcond (by simp)
      | some c =>
        obtain ⟨hc1, hci32⟩ : WFexpr1 F _ c ∧ wasm_type_w c.ty = .i32 := by
          simpa using hcond
        cases hgc : gen_expr σ (some c) with
        | error e => rw [hgb, hgc] at hgen; simp at hgen
        | ok ccode =>
          rw [hgb, hgc] at hgen
          simp only [except_bind_ok] at hgen
          cases hgen
          have hpb : checkSeq F stdE ((showName cl, ([] : List WTy)) ::
              (showName bl, ([] : List WTy)) :: L) bcode (.ok []) =
                some (.ok []) ∨
              checkSeq F stdE ((showName cl, ([] : List WTy)) ::
               (showName bl, ([] : List WTy)) :: L) bcode (.ok []) =
                some .dead := by
            cases then' with
            | none =>
              rw [gen_stmt.eq_def] at hgb
              cases hgb
              exact Or.inl (by simp [checkSeq])
            | some t =>
              have hszt : sizeOf t ≤ N := by
                (try simp only [opt_size] at hn); omega
              exact ((ih.1 t hszt _).2.2.2) (by simpa using hbody) bcode hgb []
          have hszc : sizeOf c ≤ N := by
            (try simp only [opt_size] at hn); omega
          have hpc := ((ih.1 c hszc _).2.1) hc1 ccode hgc []
          rw [hci32] at hpc
          have hinner : checkSeq F stdE ((showName cl, ([] : List WTy)) ::
              (showName bl, ([] : List WTy)) :: L)
              (bcode ++ (ccode ++ [Instr.br_if (showName cl)])) (.ok []) =
                some (.ok []) ∨
              checkSeq F stdE ((showName cl, ([] : List WTy)) ::
               (showName bl, ([] : List WTy)) :: L)
              (bcode ++ (ccode ++ [Instr.br_if (showName cl)])) (.ok []) =
                some .dead := by
            have hstep : checkSeq F stdE ((showName cl, ([] : List WTy)) ::
                (showName bl, ([] : List WTy)) :: L)
                ((bcode ++ ccode) ++ [Instr.br_if (showName cl)]) (.ok []) =
                  some (.ok []) ∨
                checkSeq F stdE ((showName cl, ([] : List WTy)) ::
                 (showName bl, ([] : List WTy)) :: L)
                ((bcode ++ ccode) ++ [Instr.br_if (showName cl)]) (.ok []) =
                  some .dead := by
              refine chain_ok_or_dead (chain_ok_or_dead hpb hpc) (Or.inl ?_)
              simp [checkSeq, checkI, lookup_head, popTs]
            simpa [List.append_assoc] using hstep
          refine Or.inl ?_
          rcases hinner with h | h <;>
            simp [checkSeq, checkI, checkBody, h]
  case nd_switch =>
    rw [WFstmt.eq_def] at hwf
    simp only [] at hwf
    rw [gen_stmt.eq_def] at hgen
    simp only [] at hgen
    obtain ⟨hcond, hbody⟩ := hwf
    cases cond with
    | none => exact absurd hcond (by simp)
    | some c =>
      obtain ⟨hc1, hci32⟩ : WFexpr1 F L c ∧ wasm_type_w c.ty = .i32 := by
        simpa using hcond
      cases hgc : gen_expr σ (some c) with
      | error e => rw [hgc] at hgen; exact Except.noConfusion hgen
      | ok ccode =>
        cases hgb : gen_stmt σ then' with
        | error e => rw [hgc, hgb] at hgen; simp at hgen
        | ok bcode =>
          rw [hgc, hgb] at hgen
          simp only [except_bind_ok] at hgen
          cases hgen
          have hszc : sizeOf c ≤ N := by
            (try simp only [opt_size] at hn); omega
          have hpc := ((ih.1 c hszc L).2.1) hc1 ccode hgc st
          rw [hci32] at hpc
          have hpb : checkSeq F stdE ((showName bl, ([] : List WTy)) :: L)
              bcode (.ok []) = some (.ok []) ∨
              checkSeq F stdE ((showName bl, ([] : List WTy)) :: L)
              bcode (.ok []) = some .dead := by
            cases then' with
            | none =>
              rw [gen_stmt.eq_def] at hgb
              cases hgb
              exact Or.inl (by simp [checkSeq])
            | some t =>
              have hszt : sizeOf t ≤ N := by
                (try simp only [opt_size] at hn); omega
              exact ((ih.1 t hszt _).2.2.2) (by simpa using hbody) bcode hgb []
          have hcases := switch_cases_check F stdE
            ((showName bl, ([] : List WTy)) :: L) (by simp [stdE, lookupStr])
            cnext bcode hpb
          have hlk : lookupStr stdE "__tmp_i32" = some WTy.i32 := by
            simp [stdE, lookupStr]
          refine chain_ok_or_dead hpc (Or.inl ?_)
          rcases hcases with h | h <;>
            simp [checkSeq, checkI, hlk, effect, popTs, popT, checkBody, h]
  case nd_case =>
    rw [WFstmt.eq_def] at hwf
    simp only [] at hwf
    rw [gen_stmt.eq_def] at hgen
    simp only [] at hgen
    cases lhs with
    | none =>
      rw [gen_stmt.eq_def] at hgen
      cases hgen
      exact Or.inl (by simp [checkSeq])
    | some l =>
      have hszl : sizeOf l ≤ N := by
        (try simp only [opt_size] at hn); omega
      exact ((ih.1 l hszl L).2.2.2) (by simpa using hwf) code hgen st
  case nd_goto =>
    rw [gen_stmt.eq_def] at hgen
    simp only [] at hgen
    cases hgen
    exact Or.inl (by simp [checkSeq, checkI])
  case nd_label =>
    rw [WFstmt.eq_def] at hwf
    simp only [] at hwf
    rw [gen_stmt.eq_def] at hgen
    simp only [] at hgen
    cases hgl : gen_stmt σ lhs with
    | error e => rw [hgl] at hgen; exact Except.noConfusion hgen
    | ok sc =>
      rw [hgl] at hgen
      simp only [except_bind_ok] at hgen
      cases hgen
      have hps : checkSeq F stdE L sc (.ok st) = some (.ok st) ∨
          checkSeq F stdE L sc (.ok st) = some .dead := by
        cases lhs with
        | none =>
          rw [gen_stmt.eq_def] at hgl
          cases hgl
          exact Or.inl (by simp [checkSeq])
        | some l =>
          have hszl : sizeOf l ≤ N := by
            (try simp only [opt_size] at hn); omega
          exact ((ih.1 l hszl L).2.2.2) (by simpa using hwf) sc hgl st
      have : checkSeq F stdE L (Instr.comment ("label: " ++ showName la) :: sc)
          (.ok st) = checkSeq F stdE L sc (.ok st) := by
        simp [checkSeq, checkI]
      rw [List.singleton_append, this]
      exact hps
  all_goals rw [gen_stmt.eq_def] at hgen
  all_goals exact Except.noConfusion hgen


theorem wasm_load_check (F : FEnv) (E : EEnv) (L : LEnv) (ty : Option CType)
    (hi : is_wasm_i64 ty = false) (st : List WTy) :
    checkSeq F E L (wasm_load ty) (.ok (.i32 :: st)) =
      some (.ok (wasm_type_w ty :: st)) := by
  cases ty with
  | none => simp [wasm_load, checkSeq, wasm_type_w]
  | some t =>
    obtain ⟨k, sz, a, u, b, r, n⟩ := t
    cases k <;>
      simp_all [wasm_load, wasm_type_w, wasm_size, is_wasm_i64, CType.kind,
        CType.size, CType.is_unsigned, checkSeq, checkI, effect, popTs, popT]
    all_goals repeat' split
    all_goals first
      | rfl
      | simp [checkSeq, checkI, effect, popTs, popT]

theorem wasm_store_check (F : FEnv) (E : EEnv) (L : LEnv) (t : CType)
    (st : List WTy) :
    checkSeq F E L (wasm_store (some t))
      (.ok (storeValTy (some t) :: .i32 :: st)) = some (.ok st) := by
  obtain ⟨k, sz, a, u, b, r, n⟩ := t
  cases k <;>
    simp_all [wasm_store, storeValTy, is_wasm_float, is_wasm_f32, is_wasm_f64,
      wasm_type_w, wasm_size, CType.kind, CType.size, checkSeq, checkI,
      effect, popTs, popT]
  all_goals repeat' split
  all_goals first
    | rfl
    | simp [checkSeq, checkI, effect, popTs, popT]

theorem bin_finish {F : FEnv} {L : LEnv} {a b : List Instr} {t : WTy}
    {op : String} {st : List WTy}
    (hop : isCmpOp op = false)
    (h1 : checkSeq F stdE L a (.ok st) = some (.ok (t :: st)) ∨
          checkSeq F stdE L a (.ok st) = some .dead)
    (h2 : checkSeq F stdE L b (.ok (t :: st)) = some (.ok (t :: t :: st)) ∨
          checkSeq F stdE L b (.ok (t :: st)) = some .dead) :
    checkSeq F stdE L (a ++ b ++ [.binop t op]) (.ok st) =
      some (.ok (t :: st)) ∨
    checkSeq F stdE L (a ++ b ++ [.binop t op]) (.ok st) = some .dead := by
  refine chain_ok_or_dead (chain_ok_or_dead h1 h2) (Or.inl ?_)
  simp [checkSeq, checkI, hop, effect, popTs, popT]

theorem binc_finish {F : FEnv} {L : LEnv} {a b : List Instr} {t : WTy}
    {op : String} {st : List WTy}
    (hop : isCmpOp op = true)
    (h1 : checkSeq F stdE L a (.ok st) = some (.ok (t :: st)) ∨
          checkSeq F stdE L a (.ok st) = some .dead)
    (h2 : checkSeq F stdE L b (.ok (t :: st)) = some (.ok (t :: t :: st)) ∨
          checkSeq F stdE L b (.ok (t :: st)) = some .dead) :
    checkSeq F stdE L (a ++ b ++ [.binop t op]) (.ok st) =
      some (.ok (.i32 :: st)) ∨
    checkSeq F stdE L (a ++ b ++ [.binop t op]) (.ok st) = some .dead := by
  refine chain_ok_or_dead (chain_ok_or_dead h1 h2) (Or.inl ?_)
  simp [checkSeq, checkI, hop, effect, popTs, popT]

theorem wt_f32_iff (ty : Option CType) :
    wasm_type_w ty = .f32 ↔ is_wasm_f32 ty = true := by
  cases ty with
  | none => simp [wasm_type_w, is_wasm_f32]
  | some t =>
    obtain ⟨k, sz, a, u, b, r, n⟩ := t
    cases k <;>
      simp [wasm_type_w, is_wasm_f32, CType.kind, CType.size] <;>
      (try split) <;>
      simp

theorem wt_f64_iff (ty : Option CType) :
    wasm_type_w ty = .f64 ↔ is_wasm_f64 ty = true := by
  cases ty with
  | none => simp [wasm_type_w, is_wasm_f64]
  | some t =>
    obtain ⟨k, sz, a, u, b, r, n⟩ := t
    cases k <;>
      simp [wasm_type_w, is_wasm_f64, CType.kind, CType.size] <;>
      (try split) <;>
      simp

theorem i64_false_of_float (ty : Option CType)
    (h : is_wasm_float ty = true) : is_wasm_i64 ty = false := by
  cases ty with
  | none => rfl
  | some t =>
    obtain ⟨k, sz, a, u, b, r, n⟩ := t
    cases k <;>
      simp_all [is_wasm_float, is_wasm_f32, is_wasm_f64, is_wasm_i64,
        CType.kind]

theorem not_float_parts (ty : Option CType)
    (h : is_wasm_float ty = false) :
    is_wasm_f32 ty = false ∧ is_wasm_f64 ty = false := by
  have := Bool.or_eq_false_iff.mp (by simpa [is_wasm_float] using h)
  exact this

theorem wt_i32_of_not_float (ty : Option CType)
    (h : is_wasm_float ty = false) (hi : is_wasm_i64 ty = false) :
    wasm_type_w ty = .i32 := by
  obtain ⟨h1, h2⟩ := not_float_parts ty h
  exact wasm_type_w_eq_i32 ty h1 h2 hi

theorem wt_flags_of_f32 (ty : Option CType)
    (h : wasm_type_w ty = .f32) :
    is_wasm_f32 ty = true ∧ is_wasm_f64 ty = false := by
  refine ⟨(wt_f32_iff ty).mp h, ?_⟩
  cases hc : is_wasm_f64 ty
  · rfl
  · rw [wasm_type_w_of_f64 ty hc] at h
    exact WTy.noConfusion h

theorem wt_flags_of_f64 (ty : Option CType)
    (h : wasm_type_w ty = .f64) :
    is_wasm_f64 ty = true ∧ is_wasm_f32 ty = false := by
  refine ⟨(wt_f64_iff ty).mp h, ?_⟩
  cases hc : is_wasm_f32 ty
  · rfl
  · rw [wasm_type_w_of_f32 ty hc] at h
    exact WTy.noConfusion h

theorem cast_check (F : FEnv) (E : EEnv) (L : LEnv)
    (fromTy toTy : Option CType) (hok : castOK fromTy toTy) (st : List WTy) :
    checkSeq F E L (cast_instrs fromTy toTy)
      (.ok (wasm_type_w fromTy :: st)) =
      some (.ok (wasm_type_w toTy :: st)) := by
  cases fromTy with
  | none =>
    cases toTy with
    | none => simp [cast_instrs, checkSeq]
    | some t =>
      have h : wasm_type_w none = wasm_type_w (some t) := by
        simpa [castOK] using hok
      rw [cast_instrs.eq_def]
      simp [checkSeq, ← h]
  | some f =>
    cases toTy with
    | none =>
      have h : wasm_type_w (some f) = wasm_type_w none := by
        simpa [castOK] using hok
      rw [cast_instrs.eq_def]
      simp [checkSeq, h]
    | some t =>
      have hok' : is_wasm_i64 (some f) = is_wasm_i64 (some t) := by
        simpa [castOK] using hok
      by_cases hff : is_wasm_float (some f) = true
      · -- source is float
        have hf64 : is_wasm_i64 (some f) = false := i64_false_of_float _ hff
        have ht64 : is_wasm_i64 (some t) = false := by
          rw [← hok']
          exact hf64
        by_cases htf : is_wasm_float (some t) = true
        · -- float to float
          rw [cast_instrs.eq_def]
          rcases is_wasm_float_cases _ hff with hwf | hwf <;>
            rcases is_wasm_float_cases _ htf with hwt | hwt
          · obtain ⟨h32f, h64f⟩ := wt_flags_of_f32 _ hwf
            obtain ⟨h32t, h64t⟩ := wt_flags_of_f32 _ hwt
            simp [hff, htf, h32f, h64f, h32t, h64t, hwf, hwt, checkSeq,
              checkI, effect, popTs, popT]
          · obtain ⟨h32f, h64f⟩ := wt_flags_of_f32 _ hwf
            obtain ⟨h64t, h32t⟩ := wt_flags_of_f64 _ hwt
            simp [hff, htf, h32f, h64f, h32t, h64t, hwf, hwt, checkSeq,
              checkI, effect, popTs, popT]
          · obtain ⟨h64f, h32f⟩ := wt_flags_of_f64 _ hwf
            obtain ⟨h32t, h64t⟩ := wt_flags_of_f32 _ hwt
            simp [hff, htf, h32f, h64f, h32t, h64t, hwf, hwt, checkSeq,
              checkI, effect, popTs, popT]
          · obtain ⟨h64f, h32f⟩ := wt_flags_of_f64 _ hwf
            obtain ⟨h64t, h32t⟩ := wt_flags_of_f64 _ hwt
            simp [hff, htf, h32f, h64f, h32t, h64t, hwf, hwt, checkSeq,
              checkI, effect, popTs, popT]
        · -- float to int (truncate)
          have htf' : is_wasm_float (some t) = false := by simpa using htf
          obtain ⟨ht32', ht64'⟩ := not_float_parts _ htf'
          have hwt : wasm_type_w (some t) = .i32 :=
            wt_i32_of_not_float _ htf' ht64
          rw [cast_instrs.eq_def]
          rcases is_wasm_float_cases _ hff with hwf | hwf
          · obtain ⟨h32f, h64f⟩ := wt_flags_of_f32 _ hwf
            simp [hff, htf', h32f, h64f, ht32', ht64', hwf, hwt]
            split <;> simp [checkSeq, checkI, effect, popTs, popT]
          · obtain ⟨h64f, h32f⟩ := wt_flags_of_f64 _ hwf
            simp [hff, htf', h32f, h64f, ht32', ht64', hwf, hwt]
            split <;> simp [checkSeq, checkI, effect, popTs, popT]
      · -- source is not float
        have hff' : is_wasm_float (some f) = false := by simpa using hff
        obtain ⟨hf32', hf64'⟩ := not_float_parts _ hff'
        by_cases htf : is_wasm_float (some t) = true
        · -- int to float (convert)
          have ht64 : is_wasm_i64 (some t) = false := i64_false_of_float _ htf
          have hf64x : is_wasm_i64 (some f) = false := by
            rw [hok']
            exact ht64
          have hwf : wasm_type_w (some f) = .i32 :=
            wt_i32_of_not_float _ hff' hf64x
          rw [cast_instrs.eq_def]
          rcases is_wasm_float_cases _ htf with hwt | hwt
          · obtain ⟨h32t, h64t⟩ := wt_flags_of_f32 _ hwt
            simp [hff', htf, h32t, h64t, hf32', hf64', hwf, hwt]
            split <;> simp [checkSeq, checkI, effect, popTs, popT]
          · obtain ⟨h64t, h32t⟩ := wt_flags_of_f64 _ hwt
            simp [hff', htf, h32t, h64t, hf32', hf64', hwf, hwt]
            split <;> simp [checkSeq, checkI, effect, popTs, popT]
        · -- neither float
          have htf' : is_wasm_float (some t) = false := by simpa using htf
          obtain ⟨ht32', ht64f'⟩ := not_float_parts _ htf'
          by_cases hfi : is_wasm_i64 (some f) = true
          · have hti : is_wasm_i64 (some t) = true := by
              rw [← hok']
              exact hfi
            have hwf := wasm_type_w_of_i64 (some f) hfi
            have hwt := wasm_type_w_of_i64 (some t) hti
            rw [cast_instrs.eq_def]
            simp [hff', htf', hfi, hti, hf32', hf64', ht32', ht64f', hwf,
              hwt, checkSeq]
          · have hfi' : is_wasm_i64 (some f) = false := by simpa using hfi
            have hti' : is_wasm_i64 (some t) = false := by
              rw [← hok']
              exact hfi'
            have hwf : wasm_type_w (some f) = .i32 :=
              wt_i32_of_not_float _ hff' hfi'
            have hwt : wasm_type_w (some t) = .i32 :=
              wt_i32_of_not_float _ htf' hti'
            rw [cast_instrs.eq_def]
            simp [hff', htf', hfi', hti', hf32', hf64', ht32', ht64f', hwf,
              hwt]
            repeat' split
            all_goals first
              | rfl
              | simp [checkSeq, checkI, effect, popTs, popT, isCmpOp]

theorem binT_if (ty : Option CType) :
    (if is_wasm_float ty = true then wasm_type_w ty else WTy.i32) = binT ty :=
  rfl

theorem binT_eq_wt (ty : Option CType)
    (h : is_wasm_float ty = true ∨ is_wasm_i64 ty = false) :
    binT ty = wasm_type_w ty := by
  by_cases hf : is_wasm_float ty = true
  · simp [binT, hf]
  · have hi : is_wasm_i64 ty = false := by
      rcases h with h | h
      · exact absurd h hf
      · exact h
    have hw := wt_i32_of_not_float ty (Bool.eq_false_iff.mpr hf) hi
    simp [binT, hf, hw]

theorem step_expr1 (F : FEnv) (σ : Store) (N : Nat) (ih : IHyp F σ N) :
    ∀ n : Node, sizeOf n ≤ N + 1 → ∀ L, WFexpr1 F L n → PExpr1 F σ L n := by
  intro n hn L hwf code hgen st
  obtain ⟨k, nx, ty, tk, lhs, rhs, bd, cond, then', els, init, inc, bl, cl,
    args, var, mem, val, fv, be, en, la, ul, astr, cnext, dcase, caddr, cold,
    cnew⟩ := n
  rw [node_size] at hn
  rw [WFexpr1.eq_def] at hwf
  rw [gen_expr.eq_def] at hgen
  simp only [Node.ty]
  cases k
  case nd_null_expr =>
    simp only [] at hwf hgen
    cases hgen
    rw [hwf]
    exact Or.inl (by simp [checkSeq, checkI])
  case nd_num =>
    simp only [] at hgen
    by_cases h32 : is_wasm_f32 ty = true
    · rw [if_pos h32] at hgen
      cases hgen
      rw [wasm_type_w_of_f32 ty h32]
      exact Or.inl (by simp [checkSeq, checkI])
    · rw [if_neg h32] at hgen
      by_cases h64 : is_wasm_f64 ty = true
      · rw [if_pos h64] at hgen
        cases hgen
        rw [wasm_type_w_of_f64 ty h64]
        exact Or.inl (by simp [checkSeq, checkI])
      · rw [if_neg h64] at hgen
        by_cases hi : is_wasm_i64 ty = true
        · rw [if_pos hi] at hgen
          cases hgen
          rw [wasm_type_w_of_i64 ty hi]
          exact Or.inl (by simp [checkSeq, checkI])
        · rw [if_neg hi] at hgen
          cases hgen
          rw [wasm_type_w_eq_i32 ty (Bool.eq_false_iff.mpr h32)
            (Bool.eq_false_iff.mpr h64) (Bool.eq_false_iff.mpr hi)]
          exact Or.inl (by simp [checkSeq, checkI])
  case nd_var =>
    simp only [] at hwf hgen
    cases hva : var_addr σ var with
    | error e => rw [hva] at hgen; exact Except.noConfusion hgen
    | ok a =>
      rw [hva] at hgen
      simp only [except_bind_ok] at hgen
      cases hgen
      exact chain_ok_or_dead (Or.inl (var_addr_check F σ L var a hva st))
        (Or.inl (wasm_load_check F stdE L ty hwf st))
  case nd_member =>
    simp only [] at hwf hgen
    obtain ⟨hl, hi64⟩ := hwf
    cases lhs with
    | none => simp [gen_addr] at hgen
    | some l =>
      cases mem with
      | none =>
        cases hga : gen_addr σ (some l) <;> simp [hga, member_tail] at hgen
      | some m =>
        cases hga : gen_addr σ (some l) with
        | error e => rw [hga] at hgen; exact Except.noConfusion hgen
        | ok a =>
          simp only [hga, member_tail, except_bind_ok] at hgen
          cases hgen
          have hszl : sizeOf l ≤ N := by
            (try simp only [opt_size, NodeKind.sizeOf_one] at hn); omega
          have h1 := ((ih.1 l hszl L).1) hl a hga st
          refine chain_ok_or_dead (chain_ok_or_dead h1 (Or.inl ?_))
            (Or.inl (wasm_load_check F stdE L ty hi64 st))
          simp [checkSeq, checkI, effect, popTs, popT, isCmpOp]
  case nd_addr =>
    simp only [] at hwf hgen
    obtain ⟨hl, hty⟩ := hwf
    cases lhs with
    | none => simp [gen_addr] at hgen
    | some l =>
      have hszl : sizeOf l ≤ N := by
        (try simp only [opt_size, NodeKind.sizeOf_one] at hn); omega
      have h1 := ((ih.1 l hszl L).1) hl code hgen st
      rw [hty]
      exact h1
  case nd_deref =>
    simp only [] at hwf hgen
    obtain ⟨hl, hi64⟩ := hwf
    cases lhs with
    | none => exact absurd hl (by simp)
    | some l =>
      obtain ⟨hl1, hlty⟩ := hl
      cases hga : gen_expr σ (some l) with
      | error e => rw [hga] at hgen; exact Except.noConfusion hgen
      | ok a =>
        rw [hga] at hgen
        simp only [except_bind_ok] at hgen
        cases hgen
        have hszl : sizeOf l ≤ N := by
          (try simp only [opt_size, NodeKind.sizeOf_one] at hn); omega
        have h1 := ((ih.1 l hszl L).2.1) hl1 a hga st
        rw [hlty] at h1
        exact chain_ok_or_dead h1
          (Or.inl (wasm_load_check F stdE L ty hi64 st))
  case nd_neg =>
    simp only [] at hwf hgen
    by_cases h32 : is_wasm_f32 ty = true
    · rw [if_pos h32] at hwf hgen
      cases lhs with
      | none => exact absurd hwf (by simp)
      | some l =>
        obtain ⟨hl1, hlty⟩ := hwf
        cases hga : gen_expr σ (some l) with
        | error e => rw [hga] at hgen; exact Except.noConfusion hgen
        | ok a =>
          rw [hga] at hgen
          simp only [except_bind_ok] at hgen
          cases hgen
          have hszl : sizeOf l ≤ N := by
            (try simp only [opt_size, NodeKind.sizeOf_one] at hn); omega
          have h1 := ((ih.1 l hszl L).2.1) hl1 a hga st
          rw [hlty] at h1
          rw [wasm_type_w_of_f32 ty h32]
          exact chain_ok_or_dead h1
            (Or.inl (by simp [checkSeq, checkI, effect, popTs, popT]))
    · rw [if_neg h32] at hwf hgen
      by_cases h64 : is_wasm_f64 ty = true
      · rw [if_pos h64] at hwf hgen
        cases lhs with
        | none => exact absurd hwf (by simp)
        | some l =>
          obtain ⟨hl1, hlty⟩ := hwf
          cases hga : gen_expr σ (some l) with
          | error e => rw [hga] at hgen; exact Except.noConfusion hgen
          | ok a =>
            rw [hga] at hgen
            simp only [except_bind_ok] at hgen
            cases hgen
            have hszl : sizeOf l ≤ N := by
              (try simp only [opt_size, NodeKind.sizeOf_one] at hn); omega
            have h1 := ((ih.1 l hszl L).2.1) hl1 a hga st
            rw [hlty] at h1
            rw [wasm_type_w_of_f64 ty h64]
            exact chain_ok_or_dead h1
              (Or.inl (by simp [checkSeq, checkI, effect, popTs, popT]))
      · rw [if_neg h64] at hwf hgen
        obtain ⟨hl, hi64⟩ := hwf
        cases lhs with
        | none => exact absurd hl (by simp)
        | some l =>
          obtain ⟨hl1, hlty⟩ := hl
          cases hga : gen_expr σ (some l) with
          | error e => rw [hga] at hgen; exact Except.noConfusion hgen
          | ok a =>
            rw [hga] at hgen
            simp only [except_bind_ok] at hgen
            cases hgen
            have hszl : sizeOf l ≤ N := by
              (try simp only [opt_size, NodeKind.sizeOf_one] at hn); omega
            have h1 := ((ih.1 l hszl L).2.1) hl1 a hga
              (WTy.i32 :: st)
            rw [hlty] at h1
            rw [wasm_type_w_eq_i32 ty (Bool.eq_false_iff.mpr h32)
              (Bool.eq_false_iff.mpr h64) hi64]
            refine chain_ok_or_dead (chain_ok_or_dead (Or.inl ?_) h1)
              (Or.inl ?_)
            · simp [checkSeq, checkI]
            · simp [checkSeq, checkI, effect, popTs, popT, isCmpOp]
  case nd_not =>
    simp only [] at hwf hgen
    obtain ⟨hl, htyi⟩ := hwf
    cases lhs with
    | none => exact absurd hl (by simp)
    | some l =>
      obtain ⟨hl1, hlty⟩ := hl
      cases hga : gen_expr σ (some l) with
      | error e => rw [hga] at hgen; exact Except.noConfusion hgen
      | ok a =>
        rw [hga] at hgen
        simp only [except_bind_ok] at hgen
        cases hgen
        have hszl : sizeOf l ≤ N := by
          (try simp only [opt_size, NodeKind.sizeOf_one] at hn); omega
        have h1 := ((ih.1 l hszl L).2.1) hl1 a hga st
        rw [hlty] at h1
        rw [htyi]
        exact chain_ok_or_dead h1
          (Or.inl (by simp [checkSeq, checkI, effect, popTs, popT]))
  case nd_bitnot =>
    simp only [] at hwf hgen
    obtain ⟨hl, htyi⟩ := hwf
    cases lhs with
    | none => exact absurd hl (by simp)
    | some l =>
      obtain ⟨hl1, hlty⟩ := hl
      cases hga : gen_expr σ (some l) with
      | error e => rw [hga] at hgen; exact Except.noConfusion hgen
      | ok a =>
        rw [hga] at hgen
        simp only [except_bind_ok] at hgen
        cases hgen
        have hszl : sizeOf l ≤ N := by
          (try simp only [opt_size, NodeKind.sizeOf_one] at hn); omega
        have h1 := ((ih.1 l hszl L).2.1) hl1 a hga st
        rw [hlty] at h1
        rw [htyi]
        exact chain_ok_or_dead h1
          (Or.inl (by simp [checkSeq, checkI, effect, popTs, popT, isCmpOp]))
  case nd_assign =>
    simp only [] at hwf hgen
    obtain ⟨hl, hr, htys, hflor⟩ := hwf
    cases rhs with
    | none => exact absurd hr (by simp)
    | some r =>
      obtain ⟨hr1, hrty⟩ := hr
      cases lhs with
      | none => simp [gen_addr] at hgen
      | some l =>
        cases hga : gen_addr σ (some l) with
        | error e => rw [hga] at hgen; exact Except.noConfusion hgen
        | ok a =>
          cases hgb : gen_expr σ (some r) with
          | error e => rw [hga, hgb] at hgen; exact Except.noConfusion hgen
          | ok b =>
            rw [hga, hgb] at hgen
            simp only [except_bind_ok] at hgen
            cases ty with
            | none => simp [Option.isSome] at htys
            | some t =>
              have hszl : sizeOf l ≤ N := by
                (try simp only [opt_size, NodeKind.sizeOf_one] at hn); omega
              have hszr : sizeOf r ≤ N := by
                (try simp only [opt_size, NodeKind.sizeOf_one] at hn); omega
              have h1 := ((ih.1 l hszl L).1) hl a hga st
              by_cases hf : is_wasm_float (some t) = true
              · rw [if_pos hf] at hgen
                cases hgen
                have h2 := ((ih.1 r hszr L).2.1) hr1 b hgb (.i32 :: st)
                rw [hrty] at h2
                have hsv : storeValTy (some t) = wasm_type_w (some t) := by
                  simp [storeValTy, hf]
                have hstore := wasm_store_check F stdE L t st
                rw [hsv] at hstore
                rcases is_wasm_float_cases (some t) hf with hwt | hwt
                · rw [hwt] at h2 hstore ⊢
                  refine chain_ok_or_dead (chain_ok_or_dead (chain_ok_or_dead
                    (chain_ok_or_dead h1 h2) (Or.inl ?_)) (Or.inl hstore))
                    (Or.inl ?_) <;>
                    simp [wasm_type, hwt, WTy.str, checkSeq, checkI, stdE,
                      lookupStr, effect, popTs, popT]
                · rw [hwt] at h2 hstore ⊢
                  refine chain_ok_or_dead (chain_ok_or_dead (chain_ok_or_dead
                    (chain_ok_or_dead h1 h2) (Or.inl ?_)) (Or.inl hstore))
                    (Or.inl ?_) <;>
                    simp [wasm_type, hwt, WTy.str, checkSeq, checkI, stdE,
                      lookupStr, effect, popTs, popT]
              · rw [if_neg hf] at hgen
                cases hgen
                have hf' : is_wasm_float (some t) = false := by
                  simpa using hf
                have hi64 : is_wasm_i64 (some t) = false := by
                  rcases hflor with h | h
                  · exact absurd h hf
                  · exact h
                have hwt : wasm_type_w (some t) = .i32 :=
                  wt_i32_of_not_float _ hf' hi64
                have h2 := ((ih.1 r hszr L).2.1) hr1 b hgb (.i32 :: st)
                rw [hrty, hwt] at h2
                have hsv : storeValTy (some t) = .i32 := by
                  simp [storeValTy, hf']
                have hstore := wasm_store_check F stdE L t st
                rw [hsv] at hstore
                rw [hwt]
                refine chain_ok_or_dead (chain_ok_or_dead (chain_ok_or_dead
                  (chain_ok_or_dead h1 h2) (Or.inl ?_)) (Or.inl hstore))
                  (Or.inl ?_) <;>
                  simp [checkSeq, checkI, stdE, lookupStr, effect, popTs,
                    popT]
  case nd_comma =>
    simp only [] at hwf hgen
    obtain ⟨hl, hr⟩ := hwf
    cases lhs with
    | none => exact absurd hl (by simp)
    | some l =>
      cases rhs with
      | none => exact absurd hr (by simp)
      | some r =>
        obtain ⟨hr1, hrty⟩ := hr
        cases hga : gen_expr σ (some l) with
        | error e => rw [hga] at hgen; exact Except.noConfusion hgen
        | ok a =>
          cases hgb : gen_expr σ (some r) with
          | error e => rw [hga, hgb] at hgen; exact Except.noConfusion hgen
          | ok b =>
            rw [hga, hgb] at hgen
            simp only [except_bind_ok] at hgen
            cases hgen
            have hszl : sizeOf l ≤ N := by
              (try simp only [opt_size, NodeKind.sizeOf_one] at hn); omega
            have hszr : sizeOf r ≤ N := by
              (try simp only [opt_size, NodeKind.sizeOf_one] at hn); omega
            have h1 := ((ih.1 l hszl L).2.1) hl a hga st
            have h2 := ((ih.1 r hszr L).2.1) hr1 b hgb st
            rw [hrty] at h2
            refine chain_ok_or_dead (chain_ok_or_dead h1 (Or.inl ?_)) h2
            simp [checkSeq, checkI]
  case nd_cast =>
    simp only [] at hwf hgen
    cases lhs with
    | none => simp [gen_expr] at hgen
    | some l =>
      obtain ⟨hl1, hcast⟩ := hwf
      cases hga : gen_expr σ (some l) with
      | error e => rw [hga] at hgen; exact Except.noConfusion hgen
      | ok a =>
        rw [hga] at hgen
        simp only [except_bind_ok] at hgen
        cases hgen
        have hszl : sizeOf l ≤ N := by
          (try simp only [opt_size, NodeKind.sizeOf_one] at hn); omega
        have h1 := ((ih.1 l hszl L).2.1) hl1 a hga st
        exact chain_ok_or_dead h1
          (Or.inl (cast_check F stdE L l.ty ty hcast st))
  case nd_cond =>
    simp only [] at hwf hgen
    obtain ⟨hc, ht, he⟩ := hwf
    cases cond with
    | none => exact absurd hc (by simp)
    | some c =>
      obtain ⟨hc1, hcty⟩ := hc
      cases hgc : gen_expr σ (some c) with
      | error e => rw [hgc] at hgen; exact Except.noConfusion hgen
      | ok ccode =>
        cases then' with
        | none => exact absurd ht (by simp)
        | some tn =>
          obtain ⟨ht1, htty⟩ := ht
          cases hgt : gen_expr σ (some tn) with
          | error e => rw [hgc, hgt] at hgen; exact Except.noConfusion hgen
          | ok tcode =>
            cases hge : cond_else_code σ els (wasm_type_w ty) with
            | error e =>
              rw [hgc, hgt, hge] at hgen
              exact Except.noConfusion hgen
            | ok ecode =>
              rw [hgc, hgt, hge] at hgen
              simp only [except_bind_ok] at hgen
              cases hgen
              have hszc : sizeOf c ≤ N := by
                (try simp only [opt_size, NodeKind.sizeOf_one] at hn); omega
              have hszt : sizeOf tn ≤ N := by
                (try simp only [opt_size, NodeKind.sizeOf_one] at hn); omega
              have h1 := ((ih.1 c hszc L).2.1) hc1 ccode hgc st
              rw [hcty] at h1
              have h2 := ((ih.1 tn hszt L).2.1) ht1 tcode hgt []
              rw [htty] at h2
              have hbt := checkBody_of_res h2
              have hbe : checkBody F stdE L ecode [wasm_type_w ty] = true := by
                cases els with
                | none =>
                  rw [cond_else_code.eq_def] at hge
                  simp only [] at hge
                  cases hge
                  simp [checkBody, checkSeq, checkI]
                | some el =>
                  obtain ⟨he1, hety⟩ := he
                  rw [cond_else_code.eq_def] at hge
                  simp only [] at hge
                  have hsze : sizeOf el ≤ N := by
                    (try simp only [opt_size, NodeKind.sizeOf_one] at hn)
                    omega
                  have h3 := ((ih.1 el hsze L).2.1) he1 ecode hge []
                  rw [hety] at h3
                  exact checkBody_of_res h3
              refine chain_ok_or_dead h1 (Or.inl ?_)
              simp [checkSeq, checkI, hbt, hbe]
  case nd_logand =>
    simp only [] at hwf hgen
    obtain ⟨hl, hr, htyi⟩ := hwf
    cases lhs with
    | none => exact absurd hl (by simp)
    | some l =>
      cases rhs with
      | none => exact absurd hr (by simp)
      | some r =>
        obtain ⟨hl1, hlty⟩ := hl
        obtain ⟨hr1, hrty⟩ := hr
        cases hga : gen_expr σ (some l) with
        | error e => rw [hga] at hgen; exact Except.noConfusion hgen
        | ok a =>
          cases hgb : gen_expr σ (some r) with
          | error e => rw [hga, hgb] at hgen; exact Except.noConfusion hgen
          | ok b =>
            rw [hga, hgb] at hgen
            simp only [except_bind_ok] at hgen
            cases hgen
            have hszl : sizeOf l ≤ N := by
              (try simp only [opt_size, NodeKind.sizeOf_one] at hn); omega
            have hszr : sizeOf r ≤ N := by
              (try simp only [opt_size, NodeKind.sizeOf_one] at hn); omega
            have h1 := ((ih.1 l hszl L).2.1) hl1 a hga st
            rw [hlty] at h1
            have h2 := ((ih.1 r hszr L).2.1) hr1 b hgb []
            rw [hrty] at h2
            have hbody := chain_ok_or_dead h2 (Or.inl (by
              simp [checkSeq, checkI, effect, popTs, popT, isCmpOp] :
                checkSeq F stdE L [.i32_const 0, .binop .i32 "ne"]
                  (.ok [.i32]) = some (.ok [.i32])))
            rw [htyi]
            refine chain_ok_or_dead h1 (Or.inl ?_)
            simp [checkSeq, checkI, checkBody_of_res hbody]
  case nd_logor =>
    simp only [] at hwf hgen
    obtain ⟨hl, hr, htyi⟩ := hwf
    cases lhs with
    | none => exact absurd hl (by simp)
    | some l =>
      cases rhs with
      | none => exact absurd hr (by simp)
      | some r =>
        obtain ⟨hl1, hlty⟩ := hl
        obtain ⟨hr1, hrty⟩ := hr
        cases hga : gen_expr σ (some l) with
        | error e => rw [hga] at hgen; exact Except.noConfusion hgen
        | ok a =>
          cases hgb : gen_expr σ (some r) with
          | error e => rw [hga, hgb] at hgen; exact Except.noConfusion hgen
          | ok b =>
            rw [hga, hgb] at hgen
            simp only [except_bind_ok] at hgen
            cases hgen
            have hszl : sizeOf l ≤ N := by
              (try simp only [opt_size, NodeKind.sizeOf_one] at hn); omega
            have hszr : sizeOf r ≤ N := by
              (try simp only [opt_size, NodeKind.sizeOf_one] at hn); omega
            have h1 := ((ih.1 l hszl L).2.1) hl1 a hga st
            rw [hlty] at h1
            have h2 := ((ih.1 r hszr L).2.1) hr1 b hgb []
            rw [hrty] at h2
            have hbody := chain_ok_or_dead h2 (Or.inl (by
              simp [checkSeq, checkI, effect, popTs, popT, isCmpOp] :
                checkSeq F stdE L [.i32_const 0, .binop .i32 "ne"]
                  (.ok [.i32]) = some (.ok [.i32])))
            rw [htyi]
            refine chain_ok_or_dead h1 (Or.inl ?_)
            simp [checkSeq, checkI, checkBody_of_res hbody]
  case nd_funcall =>
    simp only [] at hwf hgen
    obtain ⟨hcallee, hargs⟩ := hwf
    cases hga : gen_args σ args with
    | error e => rw [hga] at hgen; exact Except.noConfusion hgen
    | ok as' =>
      simp only [hga, except_bind_ok] at hgen
      cases lhs with
      | none => exact Except.noConfusion hgen
      | some l =>
        obtain ⟨lk, lnx, lty, ltk, llhs, lrhs, lbd, lcond, lthen, lels, linit,
          linc, lbl, lcl, largs, lvar, lmem, lval, lfv, lbe, len, lla, lul,
          lastr, lcnext, ldcase, lcaddr, lcold, lcnew⟩ := l
        obtain ⟨hk, hrest⟩ := hcallee
        simp only [Node.kind] at hk
        subst hk
        simp only [Node.var] at hrest hgen
        cases lvar with
        | none => exact Except.noConfusion hgen
        | some v =>
          obtain ⟨vid, vnm, vty2, vloc⟩ := v
          cases vnm with
          | none => exact hrest.elim
          | some nm =>
            simp only [Node.kind, Node.var, if_pos] at hgen
            cases hgen
            have hsza : sizeOf args ≤ N := by
              (try simp only [opt_size, NodeKind.sizeOf_one] at hn); omega
            have h1 := ((ih.2 args hsza L).1) hargs as' hga st
            refine chain_ok_or_dead h1 (Or.inl ?_)
            simp [checkSeq, checkI, hrest, effect, popTs_self]
  case nd_stmt_expr =>
    simp only [] at hwf hgen
    have hszb : sizeOf bd ≤ N := by
      (try simp only [opt_size, NodeKind.sizeOf_one] at hn); omega
    exact ((ih.2 bd hszb L).2.2 ty) hwf code hgen st
  case nd_memzero =>
    simp only [] at hwf
  case nd_add =>
    simp only [] at hwf hgen
    rw [WFbinArith.eq_def] at hwf
    obtain ⟨hl, hr, hflor⟩ := hwf
    cases lhs with
    | none => exact absurd hl (by simp)
    | some l =>
      cases rhs with
      | none => exact absurd hr (by simp)
      | some r =>
        obtain ⟨hl1, hlty⟩ := hl
        obtain ⟨hr1, hrty⟩ := hr
        simp only [] at hgen
        cases hga : gen_expr σ (some l) with
        | error e => rw [hga] at hgen; exact Except.noConfusion hgen
        | ok a =>
          cases hgb : gen_expr σ (some r) with
          | error e => rw [hga, hgb] at hgen; exact Except.noConfusion hgen
          | ok b =>
            rw [hga, hgb] at hgen
            simp only [except_bind_ok] at hgen
            cases hgen
            have hszl : sizeOf l ≤ N := by
              (try simp only [opt_size, NodeKind.sizeOf_one] at hn); omega
            have hszr : sizeOf r ≤ N := by
              (try simp only [opt_size, NodeKind.sizeOf_one] at hn); omega
            have h1 := ((ih.1 l hszl L).2.1) hl1 a hga st
            have h2 := ((ih.1 r hszr L).2.1) hr1 b hgb (binT ty :: st)
            rw [hlty] at h1
            rw [hrty] at h2
            rw [binT_if, ← binT_eq_wt ty hflor]
            exact bin_finish (by simp [isCmpOp]) h1 h2
  case nd_sub =>
    simp only [] at hwf hgen
    rw [WFbinArith.eq_def] at hwf
    obtain ⟨hl, hr, hflor⟩ := hwf
    cases lhs with
    | none => exact absurd hl (by simp)
    | some l =>
      cases rhs with
      | none => exact absurd hr (by simp)
      | some r =>
        obtain ⟨hl1, hlty⟩ := hl
        obtain ⟨hr1, hrty⟩ := hr
        simp only [] at hgen
        cases hga : gen_expr σ (some l) with
        | error e => rw [hga] at hgen; exact Except.noConfusion hgen
        | ok a =>
          cases hgb : gen_expr σ (some r) with
          | error e => rw [hga, hgb] at hgen; exact Except.noConfusion hgen
          | ok b =>
            rw [hga, hgb] at hgen
            simp only [except_bind_ok] at hgen
            cases hgen
            have hszl : sizeOf l ≤ N := by
              (try simp only [opt_size, NodeKind.sizeOf_one] at hn); omega
            have hszr : sizeOf r ≤ N := by
              (try simp only [opt_size, NodeKind.sizeOf_one] at hn); omega
            have h1 := ((ih.1 l hszl L).2.1) hl1 a hga st
            have h2 := ((ih.1 r hszr L).2.1) hr1 b hgb (binT ty :: st)
            rw [hlty] at h1
            rw [hrty] at h2
            rw [binT_if, ← binT_eq_wt ty hflor]
            exact bin_finish (by simp [isCmpOp]) h1 h2
  case nd_mul =>
    simp only [] at hwf hgen
    rw [WFbinArith.eq_def] at hwf
    obtain ⟨hl, hr, hflor⟩ := hwf
    cases lhs with
    | none => exact absurd hl (by simp)
    | some l =>
      cases rhs with
      | none => exact absurd hr (by simp)
      | some r =>
        obtain ⟨hl1, hlty⟩ := hl
        obtain ⟨hr1, hrty⟩ := hr
        simp only [] at hgen
        cases hga : gen_expr σ (some l) with
        | error e => rw [hga] at hgen; exact Except.noConfusion hgen
        | ok a =>
          cases hgb : gen_expr σ (some r) with
          | error e => rw [hga, hgb] at hgen; exact Except.noConfusion hgen
          | ok b =>
            rw [hga, hgb] at hgen
            simp only [except_bind_ok] at hgen
            cases hgen
            have hszl : sizeOf l ≤ N := by
              (try simp only [opt_size, NodeKind.sizeOf_one] at hn); omega
            have hszr : sizeOf r ≤ N := by
              (try simp only [opt_size, NodeKind.sizeOf_one] at hn); omega
            have h1 := ((ih.1 l hszl L).2.1) hl1 a hga st
            have h2 := ((ih.1 r hszr L).2.1) hr1 b hgb (binT ty :: st)
            rw [hlty] at h1
            rw [hrty] at h2
            rw [binT_if, ← binT_eq_wt ty hflor]
            exact bin_finish (by simp [isCmpOp]) h1 h2
  case nd_div =>
    simp only [] at hwf hgen
    rw [WFbinArith.eq_def] at hwf
    obtain ⟨hl, hr, hflor⟩ := hwf
    cases lhs with
    | none => exact absurd hl (by simp)
    | some l =>
      cases rhs with
      | none => exact absurd hr (by simp)
      | some r =>
        obtain ⟨hl1, hlty⟩ := hl
        obtain ⟨hr1, hrty⟩ := hr
        simp only [] at hgen
        cases hga : gen_expr σ (some l) with
        | error e => rw [hga] at hgen; exact Except.noConfusion hgen
        | ok a =>
          cases hgb : gen_expr σ (some r) with
          | error e => rw [hga, hgb] at hgen; exact Except.noConfusion hgen
          | ok b =>
            rw [hga, hgb] at hgen
            simp only [except_bind_ok] at hgen
            have hszl : sizeOf l ≤ N := by
              (try simp only [opt_size, NodeKind.sizeOf_one] at hn); omega
            have hszr : sizeOf r ≤ N := by
              (try simp only [opt_size, NodeKind.sizeOf_one] at hn); omega
            have h1 := ((ih.1 l hszl L).2.1) hl1 a hga st
            have h2 := ((ih.1 r hszr L).2.1) hr1 b hgb (binT ty :: st)
            rw [hlty] at h1
            rw [hrty] at h2
            by_cases hfl : is_wasm_float ty = true
            · rw [if_pos hfl] at hgen
              cases hgen
              rw [binT_if, ← binT_eq_wt ty hflor]
              exact bin_finish (by simp [isCmpOp]) h1 h2
            · rw [if_neg hfl] at hgen
              cases hgen
              rw [binT_if, ← binT_eq_wt ty hflor]
              exact bin_finish (by split <;> decide) h1 h2
  case nd_mod =>
    simp only [] at hwf hgen
    rw [WFbinArith.eq_def] at hwf
    obtain ⟨hl, hr, hflor⟩ := hwf
    cases lhs with
    | none => exact absurd hl (by simp)
    | some l =>
      cases rhs with
      | none => exact absurd hr (by simp)
      | some r =>
        obtain ⟨hl1, hlty⟩ := hl
        obtain ⟨hr1, hrty⟩ := hr
        simp only [] at hgen
        cases hga : gen_expr σ (some l) with
        | error e => rw [hga] at hgen; exact Except.noConfusion hgen
        | ok a =>
          cases hgb : gen_expr σ (some r) with
          | error e => rw [hga, hgb] at hgen; exact Except.noConfusion hgen
          | ok b =>
            rw [hga, hgb] at hgen
            simp only [except_bind_ok] at hgen
            cases hgen
            have hszl : sizeOf l ≤ N := by
              (try simp only [opt_size, NodeKind.sizeOf_one] at hn); omega
            have hszr : sizeOf r ≤ N := by
              (try simp only [opt_size, NodeKind.sizeOf_one] at hn); omega
            have h1 := ((ih.1 l hszl L).2.1) hl1 a hga st
            have h2 := ((ih.1 r hszr L).2.1) hr1 b hgb (binT ty :: st)
            rw [hlty] at h1
            rw [hrty] at h2
            rw [binT_if, ← binT_eq_wt ty hflor]
            exact bin_finish (by split <;> decide) h1 h2
  case nd_bitand =>
    simp only [] at hwf hgen
    rw [WFbinArith.eq_def] at hwf
    obtain ⟨hl, hr, hflor⟩ := hwf
    cases lhs with
    | none => exact absurd hl (by simp)
    | some l =>
      cases rhs with
      | none => exact absurd hr (by simp)
      | some r =>
        obtain ⟨hl1, hlty⟩ := hl
        obtain ⟨hr1, hrty⟩ := hr
        simp only [] at hgen
        cases hga : gen_expr σ (some l) with
        | error e => rw [hga] at hgen; exact Except.noConfusion hgen
        | ok a =>
          cases hgb : gen_expr σ (some r) with
          | error e => rw [hga, hgb] at hgen; exact Except.noConfusion hgen
          | ok b =>
            rw [hga, hgb] at hgen
            simp only [except_bind_ok] at hgen
            cases hgen
            have hszl : sizeOf l ≤ N := by
              (try simp only [opt_size, NodeKind.sizeOf_one] at hn); omega
            have hszr : sizeOf r ≤ N := by
              (try simp only [opt_size, NodeKind.sizeOf_one] at hn); omega
            have h1 := ((ih.1 l hszl L).2.1) hl1 a hga st
            have h2 := ((ih.1 r hszr L).2.1) hr1 b hgb (binT ty :: st)
            rw [hlty] at h1
            rw [hrty] at h2
            rw [binT_if, ← binT_eq_wt ty hflor]
            exact bin_finish (by simp [isCmpOp]) h1 h2
  case nd_bitor =>
    simp only [] at hwf hgen
    rw [WFbinArith.eq_def] at hwf
    obtain ⟨hl, hr, hflor⟩ := hwf
    cases lhs with
    | none => exact absurd hl (by simp)
    | some l =>
      cases rhs with
      | none => exact absurd hr (by simp)
      | some r =>
        obtain ⟨hl1, hlty⟩ := hl
        obtain ⟨hr1, hrty⟩ := hr
        simp only [] at hgen
        cases hga : gen_expr σ (some l) with
        | error e => rw [hga] at hgen; exact Except.noConfusion hgen
        | ok a =>
          cases hgb : gen_expr σ (some r) with
          | error e => rw [hga, hgb] at hgen; exact Except.noConfusion hgen
          | ok b =>
            rw [hga, hgb] at hgen
            simp only [except_bind_ok] at hgen
            cases hgen
            have hszl : sizeOf l ≤ N := by
              (try simp only [opt_size, NodeKind.sizeOf_one] at hn); omega
            have hszr : sizeOf r ≤ N := by
              (try simp only [opt_size, NodeKind.sizeOf_one] at hn); omega
            have h1 := ((ih.1 l hszl L).2.1) hl1 a hga st
            have h2 := ((ih.1 r hszr L).2.1) hr1 b hgb (binT ty :: st)
            rw [hlty] at h1
            rw [hrty] at h2
            rw [binT_if, ← binT_eq_wt ty hflor]
            exact bin_finish (by simp [isCmpOp]) h1 h2
  case nd_bitxor =>
    simp only [] at hwf hgen
    rw [WFbinArith.eq_def] at hwf
    obtain ⟨hl, hr, hflor⟩ := hwf
    cases lhs with
    | none => exact absurd hl (by simp)
    | some l =>
      cases rhs with
      | none => exact absurd hr (by simp)
      | some r =>
        obtain ⟨hl1, hlty⟩ := hl
        obtain ⟨hr1, hrty⟩ := hr
        simp only [] at hgen
        cases hga : gen_expr σ (some l) with
        | error e => rw [hga] at hgen; exact Except.noConfusion hgen
        | ok a =>
          cases hgb : gen_expr σ (some r) with
          | error e => rw [hga, hgb] at hgen; exact Except.noConfusion hgen
          | ok b =>
            rw [hga, hgb] at hgen
            simp only [except_bind_ok] at hgen
            cases hgen
            have hszl : sizeOf l ≤ N := by
              (try simp only [opt_size, NodeKind.sizeOf_one] at hn); omega
            have hszr : sizeOf r ≤ N := by
              (try simp only [opt_size, NodeKind.sizeOf_one] at hn); omega
            have h1 := ((ih.1 l hszl L).2.1) hl1 a hga st
            have h2 := ((ih.1 r hszr L).2.1) hr1 b hgb (binT ty :: st)
            rw [hlty] at h1
            rw [hrty] at h2
            rw [binT_if, ← binT_eq_wt ty hflor]
            exact bin_finish (by simp [isCmpOp]) h1 h2
  case nd_shl =>
    simp only [] at hwf hgen
    rw [WFbinArith.eq_def] at hwf
    obtain ⟨hl, hr, hflor⟩ := hwf
    cases lhs with
    | none => exact absurd hl (by simp)
    | some l =>
      cases rhs with
      | none => exact absurd hr (by simp)
      | some r =>
        obtain ⟨hl1, hlty⟩ := hl
        obtain ⟨hr1, hrty⟩ := hr
        simp only [] at hgen
        cases hga : gen_expr σ (some l) with
        | error e => rw [hga] at hgen; exact Except.noConfusion hgen
        | ok a =>
          cases hgb : gen_expr σ (some r) with
          | error e => rw [hga, hgb] at hgen; exact Except.noConfusion hgen
          | ok b =>
            rw [hga, hgb] at hgen
            simp only [except_bind_ok] at hgen
            cases hgen
            have hszl : sizeOf l ≤ N := by
              (try simp only [opt_size, NodeKind.sizeOf_one] at hn); omega
            have hszr : sizeOf r ≤ N := by
              (try simp only [opt_size, NodeKind.sizeOf_one] at hn); omega
            have h1 := ((ih.1 l hszl L).2.1) hl1 a hga st
            have h2 := ((ih.1 r hszr L).2.1) hr1 b hgb (binT ty :: st)
            rw [hlty] at h1
            rw [hrty] at h2
            rw [binT_if, ← binT_eq_wt ty hflor]
            exact bin_finish (by simp [isCmpOp]) h1 h2
  case nd_shr =>
    simp only [] at hwf hgen
    rw [WFbinArith.eq_def] at hwf
    obtain ⟨hl, hr, hflor⟩ := hwf
    cases lhs with
    | none => exact absurd hl (by simp)
    | some l =>
      cases rhs with
      | none => exact absurd hr (by simp)
      | some r =>
        obtain ⟨hl1, hlty⟩ := hl
        obtain ⟨hr1, hrty⟩ := hr
        simp only [] at hgen
        cases hga : gen_expr σ (some l) with
        | error e => rw [hga] at hgen; exact Except.noConfusion hgen
        | ok a =>
          cases hgb : gen_expr σ (some r) with
          | error e => rw [hga, hgb] at hgen; exact Except.noConfusion hgen
          | ok b =>
            rw [hga, hgb] at hgen
            simp only [except_bind_ok] at hgen
            cases hgen
            have hszl : sizeOf l ≤ N := by
              (try simp only [opt_size, NodeKind.sizeOf_one] at hn); omega
            have hszr : sizeOf r ≤ N := by
              (try simp only [opt_size, NodeKind.sizeOf_one] at hn); omega
            have h1 := ((ih.1 l hszl L).2.1) hl1 a hga st
            have h2 := ((ih.1 r hszr L).2.1) hr1 b hgb (binT ty :: st)
            rw [hlty] at h1
            rw [hrty] at h2
            rw [binT_if, ← binT_eq_wt ty hflor]
            exact bin_finish (by split <;> decide) h1 h2
  case nd_eq =>
    simp only [] at hwf hgen
    rw [WFbinCmp.eq_def] at hwf
    obtain ⟨hl, hr, hfl, hi64⟩ := hwf
    cases lhs with
    | none => exact absurd hl (by simp)
    | some l =>
      cases rhs with
      | none => exact absurd hr (by simp)
      | some r =>
        obtain ⟨hl1, hlty⟩ := hl
        obtain ⟨hr1, hrty⟩ := hr
        simp only [] at hgen
        cases hga : gen_expr σ (some l) with
        | error e => rw [hga] at hgen; exact Except.noConfusion hgen
        | ok a =>
          cases hgb : gen_expr σ (some r) with
          | error e => rw [hga, hgb] at hgen; exact Except.noConfusion hgen
          | ok b =>
            rw [hga, hgb] at hgen
            simp only [except_bind_ok] at hgen
            cases hgen
            have hszl : sizeOf l ≤ N := by
              (try simp only [opt_size, NodeKind.sizeOf_one] at hn); omega
            have hszr : sizeOf r ≤ N := by
              (try simp only [opt_size, NodeKind.sizeOf_one] at hn); omega
            have h1 := ((ih.1 l hszl L).2.1) hl1 a hga st
            have h2 := ((ih.1 r hszr L).2.1) hr1 b hgb (WTy.i32 :: st)
            rw [hlty] at h1
            rw [hrty] at h2
            have hti : (if is_wasm_float ty = true then wasm_type_w ty
                else WTy.i32) = WTy.i32 := if_neg (by simp [hfl])
            rw [hti, wasm_type_w_eq_i32 ty (not_float_parts ty hfl).1
              (not_float_parts ty hfl).2 hi64]
            exact binc_finish (by simp [isCmpOp]) h1 h2
  case nd_ne =>
    simp only [] at hwf hgen
    rw [WFbinCmp.eq_def] at hwf
    obtain ⟨hl, hr, hfl, hi64⟩ := hwf
    cases lhs with
    | none => exact absurd hl (by simp)
    | some l =>
      cases rhs with
      | none => exact absurd hr (by simp)
      | some r =>
        obtain ⟨hl1, hlty⟩ := hl
        obtain ⟨hr1, hrty⟩ := hr
        simp only [] at hgen
        cases hga : gen_expr σ (some l) with
        | error e => rw [hga] at hgen; exact Except.noConfusion hgen
        | ok a =>
          cases hgb : gen_expr σ (some r) with
          | error e => rw [hga, hgb] at hgen; exact Except.noConfusion hgen
          | ok b =>
            rw [hga, hgb] at hgen
            simp only [except_bind_ok] at hgen
            cases hgen
            have hszl : sizeOf l ≤ N := by
              (try simp only [opt_size, NodeKind.sizeOf_one] at hn); omega
            have hszr : sizeOf r ≤ N := by
              (try simp only [opt_size, NodeKind.sizeOf_one] at hn); omega
            have h1 := ((ih.1 l hszl L).2.1) hl1 a hga st
            have h2 := ((ih.1 r hszr L).2.1) hr1 b hgb (WTy.i32 :: st)
            rw [hlty] at h1
            rw [hrty] at h2
            have hti : (if is_wasm_float ty = true then wasm_type_w ty
                else WTy.i32) = WTy.i32 := if_neg (by simp [hfl])
            rw [hti, wasm_type_w_eq_i32 ty (not_float_parts ty hfl).1
              (not_float_parts ty hfl).2 hi64]
            exact binc_finish (by simp [isCmpOp]) h1 h2
  case nd_lt =>
    simp only [] at hwf hgen
    rw [WFbinCmp.eq_def] at hwf
    obtain ⟨hl, hr, hfl, hi64⟩ := hwf
    cases lhs with
    | none => exact absurd hl (by simp)
    | some l =>
      cases rhs with
      | none => exact absurd hr (by simp)
      | some r =>
        obtain ⟨hl1, hlty⟩ := hl
        obtain ⟨hr1, hrty⟩ := hr
        simp only [] at hgen
        cases hga : gen_expr σ (some l) with
        | error e => rw [hga] at hgen; exact Except.noConfusion hgen
        | ok a =>
          cases hgb : gen_expr σ (some r) with
          | error e => rw [hga, hgb] at hgen; exact Except.noConfusion hgen
          | ok b =>
            rw [hga, hgb] at hgen
            simp only [except_bind_ok] at hgen
            rw [if_neg (by simp [hfl] :
              ¬(is_wasm_float ty = true))] at hgen
            cases hgen
            have hszl : sizeOf l ≤ N := by
              (try simp only [opt_size, NodeKind.sizeOf_one] at hn); omega
            have hszr : sizeOf r ≤ N := by
              (try simp only [opt_size, NodeKind.sizeOf_one] at hn); omega
            have h1 := ((ih.1 l hszl L).2.1) hl1 a hga st
            have h2 := ((ih.1 r hszr L).2.1) hr1 b hgb (WTy.i32 :: st)
            rw [hlty] at h1
            rw [hrty] at h2
            have hti : (if is_wasm_float ty = true then wasm_type_w ty
                else WTy.i32) = WTy.i32 := if_neg (by simp [hfl])
            rw [hti, wasm_type_w_eq_i32 ty (not_float_parts ty hfl).1
              (not_float_parts ty hfl).2 hi64]
            exact binc_finish (by split <;> decide) h1 h2
  case nd_le =>
    simp only [] at hwf hgen
    rw [WFbinCmp.eq_def] at hwf
    obtain ⟨hl, hr, hfl, hi64⟩ := hwf
    cases lhs with
    | none => exact absurd hl (by simp)
    | some l =>
      cases rhs with
      | none => exact absurd hr (by simp)
      | some r =>
        obtain ⟨hl1, hlty⟩ := hl
        obtain ⟨hr1, hrty⟩ := hr
        simp only [] at hgen
        cases hga : gen_expr σ (some l) with
        | error e => rw [hga] at hgen; exact Except.noConfusion hgen
        | ok a =>
          cases hgb : gen_expr σ (some r) with
          | error e => rw [hga, hgb] at hgen; exact Except.noConfusion hgen
          | ok b =>
            rw [hga, hgb] at hgen
            simp only [except_bind_ok] at hgen
            rw [if_neg (by simp [hfl] :
              ¬(is_wasm_float ty = true))] at hgen
            cases hgen
            have hszl : sizeOf l ≤ N := by
              (try simp only [opt_size, NodeKind.sizeOf_one] at hn); omega
            have hszr : sizeOf r ≤ N := by
              (try simp only [opt_size, NodeKind.sizeOf_one] at hn); omega
            have h1 := ((ih.1 l hszl L).2.1) hl1 a hga st
            have h2 := ((ih.1 r hszr L).2.1) hr1 b hgb (WTy.i32 :: st)
            rw [hlty] at h1
            rw [hrty] at h2
            have hti : (if is_wasm_float ty = true then wasm_type_w ty
                else WTy.i32) = WTy.i32 := if_neg (by simp [hfl])
            rw [hti, wasm_type_w_eq_i32 ty (not_float_parts ty hfl).1
              (not_float_parts ty hfl).2 hi64]
            exact binc_finish (by split <;> decide) h1 h2
  all_goals (try simp only [] at hgen)
  all_goals
    rcases lhs with _ | l
    case none => exact Except.noConfusion hgen
    case some =>
      rcases rhs with _ | r
      case none => exact Except.noConfusion hgen
      case some =>
        (try simp only [] at hgen)
        rcases hga : gen_expr σ (some l) with e | a
        case error => rw [hga] at hgen; exact Except.noConfusion hgen
        case ok =>
          rcases hgb : gen_expr σ (some r) with e | b
          case error => rw [hga, hgb] at hgen; exact Except.noConfusion hgen
          case ok => rw [hga, hgb] at hgen; exact Except.noConfusion hgen

/-- The master induction: every size bound satisfies the bundled
stack-discipline induction hypothesis. -/
theorem genWF (F : FEnv) (σ : Store) : ∀ N, IHyp F σ N := by
  intro N
  induction N with
  | zero =>
    constructor
    · intro n hnn L
      have := node_pos n
      omega
    · intro c hc L
      exfalso
      cases c with
      | none => simp at hc
      | some x =>
        rw [opt_size] at hc
        have := node_pos x
        omega
  | succ N ihN =>
    constructor
    · intro n hnn L
      exact ⟨step_addr F σ N ihN n hnn L,
             step_expr1 F σ N ihN n hnn L,
             step_expr0 F σ N ihN n hnn L,
             step_stmt F σ N ihN n hnn L⟩
    · intro c hc L
      exact ⟨step_args F σ N ihN c hc L,
             step_block F σ N ihN c hc L,
             fun sty => step_se F σ N ihN c hc L sty⟩

theorem c1_counterexample : ¬ PExpr1 cFEnv defStore [] voidCallNode := by
  intro h
  have h2 := h [.call (some "f")]
    (by simp [gen_expr, gen_args, voidCallNode, fnVarNode, Node.kind,
      Node.var]) []
  rcases h2 with h2 | h2 <;>
    simp [checkSeq, checkI, cFEnv, lookupStr, effect, popTs, voidCallNode,
      wasm_type_w, tyVoidC, Node.ty, CType.kind] at h2

theorem c1_amended (F : FEnv) (σ : Store) (L : LEnv) (n : Node) :
    (WFexpr1 F L n → PExpr1 F σ L n) ∧
    (WFexpr0 F L n → PExpr0 F σ L n) ∧
    (WFstmt F L n → PStmt F σ L n) := by
  have h := (genWF F σ (sizeOf n)).1 n (le_refl _) L
  exact ⟨h.2.1, h.2.2.1, h.2.2.2⟩

theorem c1_witness :
    checkSeq [] stdE [] [.i32_const 5] (.ok []) = some (.ok [.i32]) ∨
    checkSeq [] stdE [] [.i32_const 5] (.ok []) = some .dead := by
  have h := (c1_amended [] defStore [] (numInt 5)).1
    (by simp [WFexpr1, numInt])
  have h2 := h [.i32_const 5]
    (by simp [gen_expr, numInt, tyIntC, is_wasm_f32, is_wasm_f64,
      is_wasm_i64, CType.kind, CType.size, wrap32]) []
  simpa [numInt, Node.ty, wasm_type_w, tyIntC, CType.kind] using h2

/-- C5: the source's CAST lowering emits exactly the rule sequence the
claim describes, in the claim's order, for every pair of types. -/
theorem c5_cast_rule_order (f t : CType) :
    cast_instrs (some f) (some t) = castRulesSpec f t := by
  rw [cast_instrs.eq_def]
  simp only [castRulesSpec]
  by_cases h1 : is_wasm_float (some f) = true <;>
    by_cases h2 : is_wasm_float (some t) = true <;>
    by_cases h3 : is_wasm_i64 (some f) = true <;>
    by_cases h4 : is_wasm_i64 (some t) = true <;>
    by_cases h5 : is_wasm_f32 (some f) = true <;>
    by_cases h6 : is_wasm_f32 (some t) = true <;>
    simp_all [is_wasm_float]

/-! ## Claims C6, C7, C10 -/

theorem dump_tokens_loop_eq (ts : List Tok) (first : Bool) :
    dump_tokens_loop ts first =
      (match (ts.takeWhile (fun t => t.kind != TokKind.tk_eof)).map tokEntry
       with
       | [] => ""
       | e :: rest =>
         (if first then "" else ",\n") ++ joinEntries (e :: rest)) := by
  induction ts generalizing first with
  | nil => simp [dump_tokens_loop]
  | cons t rest ih =>
    by_cases h : t.kind = TokKind.tk_eof
    · simp [dump_tokens_loop, h, List.takeWhile_cons]
    · rw [dump_tokens_loop]
      rw [if_neg h]
      rw [ih false]
      simp only [List.takeWhile_cons, h]
      simp only [bne_iff_ne, ne_eq, h, not_false_eq_true, if_true,
        List.map_cons]
      cases hre : (rest.takeWhile (fun t => t.kind != TokKind.tk_eof)).map
          tokEntry with
      | nil => simp [joinEntries]
      | cons e es => simp [joinEntries, String.append_assoc]

/-- C10: `dump_tokens` serialises exactly the tokens strictly before
the first `TK_EOF`, in list order, as a comma-joined array; the
`TK_EOF` token and everything after it are excluded, and a list whose
head is `TK_EOF` yields an empty array. -/
theorem c10_tokens_before_eof (ts : List Tok) :
    dump_tokens ts =
      "[\n" ++
        joinEntries
          ((ts.takeWhile (fun t => t.kind != TokKind.tk_eof)).map tokEntry) ++
      "\n]\n" := by
  rw [dump_tokens, dump_tokens_loop_eq]
  cases h : (ts.takeWhile (fun t => t.kind != TokKind.tk_eof)).map tokEntry
    with
  | nil => simp [joinEntries]
  | cons e es => simp

/-- C7 (counterexample): dumping the empty program does not produce the
bytes of the claim. -/
theorem c7_counterexample :
    dump_ast defStore none ≠ "\x7b\"globals\":[]\x7d" := by
  rw [dump_ast, dump_ast_loop]
  simp

/-- C7 (amended): dumping a program whose Obj list is empty writes
exactly the five-plus-byte text with a newline after the opening
bracket, a newline before the closing bracket-brace, and a trailing
newline. -/
theorem c7_amended (σ : Store) :
    dump_ast σ none = "\x7b\"globals\":[\n\n]\x7d\n" := by
  rw [dump_ast, dump_ast_loop]
  simp

/-- C6 (counterexample): a node whose depth from the dumped root is
exactly 20 is NOT replaced by the truncation sentinel; its content is
serialised. -/
theorem c6_counterexample :
    dump_node (some (bareNode .nd_goto)) 20 ≠
      "\x7b\"kind\":\"...(truncated)\"\x7d" := by
  rw [dump_node.eq_def]
  simp +decide [bareNode, node_kind_name, json_print_str,
    json_print_escaped, escChar, String.join]

/-- C6 (amended): the dumper truncates strictly beyond depth 20: every
subtree whose depth from the dumped root exceeds 20 (i.e. at depth 21
and deeper) is replaced by the sentinel object, so node content is
serialised up to and including depth 20 and the sentinel appears at
depth 21. -/
theorem c6_amended (n : Node) (depth : Int) (h : depth > 20) :
    dump_node (some n) depth = "\x7b\"kind\":\"...(truncated)\"\x7d" := by
  obtain ⟨k, nx, ty, tk, lhs, rhs, bd, cond, then', els, init, inc, bl, cl,
    args, var, mem, val, fv, be, en, la, ul, astr, cnext, dcase, caddr, cold,
    cnew⟩ := n
  rw [dump_node.eq_def]
  simp [h]

theorem c6_witness :
    (21 : Int) > 20 ∧
    dump_node (some (bareNode .nd_num)) 21 =
      "\x7b\"kind\":\"...(truncated)\"\x7d" :=
  ⟨by decide, c6_amended (bareNode .nd_num) 21 (by decide)⟩

/-! ## Claim C4 -/

theorem if_pos_align (al : Int) : (if al > 0 then al else 1) = max al 1 := by
  rcases lt_or_le 0 al with h | h
  · rw [if_pos h]
    exact (max_eq_left (by omega)).symm
  · rw [if_neg (by omega)]
    exact (max_eq_right (by omega)).symm

theorem gOffsLoop_eq_claim (σ : Store) (offset : Int) (c : Option Obj) :
    gOffsLoop σ offset c = claimGOffsLoop σ offset c := by
  induction σ, offset, c using gOffsLoop.induct <;>
    rw [gOffsLoop.eq_def, claimGOffsLoop.eq_def] <;>
    (first
      | rfl
      | simp_all +zetaDelta [if_pos_align])

theorem lnStr_one (s : String) : lnStr 1 s = "  " ++ s ++ "\n" := rfl

theorem lnStr_two (s : String) : lnStr 2 s = "    " ++ s ++ "\n" := rfl

theorem lnStr_three (s : String) : lnStr 3 s = "      " ++ s ++ "\n" := rfl

theorem stack_clamp (s0 : Int) :
    (if s0 < 65536 then 65536 else s0) = max 65536 s0 := by
  rcases lt_or_le s0 65536 with h | h
  · rw [if_pos h]
    exact (max_eq_left (by omega)).symm
  · rw [if_neg (by omega)]
    exact (max_eq_right h).symm

/-- C4: the global-layout pass follows exactly the claim's recurrence
(offset aligned up to `max(align, 1)`, advance by `ty.size`, final
offset rounded up to 16), and the emitted module's fifth output chunk
initialises the mutable global `$__sp` to
`max(65536, align_to(globals_size + 1024, 65536))`. -/
theorem c4_global_layout (σ : Store) (prog : Option Obj) :
    assign_global_offsets σ prog = claimGlobalLayout σ prog ∧
    (∀ out σ2, codegen_wasm σ prog = .ok (out, σ2) →
      ∃ σg ds, assign_global_offsets σ prog = .ok (σg, ds) ∧
        out[4]? = some (lnStr 1 ("(global $__sp (mut i32) (i32.const " ++
          toString (max 65536 (align_to (ds + 1024) 65536)) ++ "))"))) := by
  constructor
  · rw [assign_global_offsets, claimGlobalLayout, gOffsLoop_eq_claim]
  · intro out σ2 hcg
    rw [codegen_wasm] at hcg
    cases hga : assign_global_offsets σ prog with
    | error e => rw [hga] at hcg; exact Except.noConfusion hcg
    | ok v =>
      obtain ⟨σg, ds⟩ := v
      rw [hga] at hcg
      simp only [except_bind_ok] at hcg
      cases haw : assign_wasm_offsets σg prog with
      | error e => rw [haw] at hcg; exact Except.noConfusion hcg
      | ok σw =>
        rw [haw] at hcg
        simp only [except_bind_ok] at hcg
        cases hdat : emit_data σw prog with
        | error e => rw [hdat] at hcg; exact Except.noConfusion hcg
        | ok dat =>
          rw [hdat] at hcg
          simp only [except_bind_ok] at hcg
          cases hfns : emit_functions σw prog with
          | error e => rw [hfns] at hcg; exact Except.noConfusion hcg
          | ok fns =>
            rw [hfns] at hcg
            simp only [except_bind_ok] at hcg
            cases hcg
            refine ⟨σg, ds, rfl, ?_⟩
            simp [stack_clamp]

theorem c4_witness :
    ∃ out σ2, codegen_wasm defStore none = .ok (out, σ2) ∧
      ∃ σg ds, assign_global_offsets defStore none = .ok (σg, ds) ∧
        out[4]? = some (lnStr 1 ("(global $__sp (mut i32) (i32.const " ++
          toString (max 65536 (align_to (ds + 1024) 65536)) ++ "))")) := by
  have hA : align_to (0 : Int) 16 = 0 := by decide
  have hB : align_to (1024 : Int) 65536 = 65536 := by decide
  have hC : ¬((65536 : Int) < 65536) := by decide
  have hcg : codegen_wasm defStore none =
      .ok (["(module\n",
            lnStr 1 "(memory (export \"memory\") 2)",
            "\n",
            lnStr 1 (";; Stack pointer (grows downward from " ++
              toString (65536 : Int) ++ ")"),
            lnStr 1 ("(global $__sp (mut i32) (i32.const " ++
              toString (65536 : Int) ++ "))"),
            "\n", "\n", ")\n"], defStore) := by
    simp [codegen_wasm, assign_global_offsets, gOffsLoop,
      assign_wasm_offsets, emit_data, emit_functions, hA, hB, hC]
  exact ⟨_, _, hcg, (c4_global_layout defStore none).2 _ _ hcg⟩

/-! ## Claim C8: determinism of repeated code generation -/

theorem obj_size (oid : Nat) (nm : Option String) (t : Option CType)
    (f1 f2 f3 f4 f5 f6 : Bool) (idata : Option (Nat → Int))
    (ps ls : Option Obj) (bd : Option Node) (nx : Option Obj) :
    sizeOf (Obj.mk oid nm t f1 f2 f3 f4 f5 f6 idata ps ls bd nx) =
    1 + sizeOf oid + sizeOf nm + sizeOf t + sizeOf f1 + sizeOf f2 +
    sizeOf f3 + sizeOf f4 + sizeOf f5 + sizeOf f6 + sizeOf idata +
    sizeOf ps + sizeOf ls + sizeOf bd + sizeOf nx := by
  simp [Obj.mk.sizeOf_spec]

theorem opt_obj_size (x : Obj) : sizeOf (some x) = 1 + sizeOf x := rfl

theorem applyOffs_offs (l : List (Nat × Int)) :
    ∀ σ i, (applyOffs σ l).offs i = (lastVal l i).getD (σ.offs i) := by
  induction l with
  | nil => intro σ i; simp [applyOffs, lastVal]
  | cons p rest ih =>
    intro σ i
    obtain ⟨j, v⟩ := p
    rw [applyOffs, ih, lastVal]
    cases lastVal rest i with
    | some w => simp
    | none =>
      simp only [Store.setOff, Option.getD_none]
      split <;> simp

theorem applyOffs_ssize (l : List (Nat × Int)) :
    ∀ σ i, (applyOffs σ l).ssize i = σ.ssize i := by
  induction l with
  | nil => intro σ i; rfl
  | cons p rest ih =>
    intro σ i
    obtain ⟨j, v⟩ := p
    rw [applyOffs, ih]
    rfl

theorem applySs_ssize (l : List (Nat × Int)) :
    ∀ σ i, (applySs σ l).ssize i = (lastVal l i).getD (σ.ssize i) := by
  induction l with
  | nil => intro σ i; simp [applySs, lastVal]
  | cons p rest ih =>
    intro σ i
    obtain ⟨j, v⟩ := p
    rw [applySs, ih, lastVal]
    cases lastVal rest i with
    | some w => simp
    | none =>
      simp only [Store.setSsize, Option.getD_none]
      split <;> simp

theorem applySs_offs (l : List (Nat × Int)) :
    ∀ σ i, (applySs σ l).offs i = σ.offs i := by
  induction l with
  | nil => intro σ i; rfl
  | cons p rest ih =>
    intro σ i
    obtain ⟨j, v⟩ := p
    rw [applySs, ih]
    rfl

theorem applyOffs_append (a b : List (Nat × Int)) :
    ∀ σ, applyOffs σ (a ++ b) = applyOffs (applyOffs σ a) b := by
  induction a with
  | nil => intro σ; rfl
  | cons p rest ih =>
    intro σ
    obtain ⟨j, v⟩ := p
    rw [List.cons_append, applyOffs, applyOffs, ih]

theorem setSsize_applyOffs (l : List (Nat × Int)) :
    ∀ σ i v, applyOffs (Store.setSsize σ i v) l =
      Store.setSsize (applyOffs σ l) i v := by
  induction l with
  | nil => intro σ i v; rfl
  | cons p rest ih =>
    intro σ i v
    obtain ⟨j, w⟩ := p
    rw [applyOffs, applyOffs, ← ih]
    rfl

theorem store_ext (a b : Store) (h1 : ∀ i, a.offs i = b.offs i)
    (h2 : ∀ i, a.ssize i = b.ssize i) : a = b := by
  cases a
  cases b
  simp only [Store.mk.injEq]
  exact ⟨funext h1, funext h2⟩

theorem gOffsLoop_char : ∀ N (c : Option Obj), sizeOf c ≤ N → ∀ σ off,
    gOffsLoop σ off c =
      (match gW off c with
       | some (ws, fin) => .ok (applyOffs σ ws, fin)
       | none => .error "null deref (var->ty in assign_global_offsets)") := by
  intro N
  induction N with
  | zero =>
    intro c hc
    exfalso
    cases c with
    | none => simp at hc
    | some x => rw [opt_obj_size] at hc; omega
  | succ N ih =>
    intro c hc σ off
    cases c with
    | none => rw [gOffsLoop.eq_def, gW.eq_def]; simp [applyOffs]
    | some o =>
      obtain ⟨oid, nm, t, isF, d1, d2, d3, d4, d5, idata, ps, ls, bd, nx⟩ := o
      have hnx : sizeOf nx ≤ N := by
        rw [opt_obj_size, obj_size] at hc
        omega
      rw [gOffsLoop.eq_def, gW.eq_def]
      by_cases hf : isF = true
      · simp only [hf, if_true]
        exact ih nx hnx σ off
      · simp only [hf, if_false, Bool.false_eq_true]
        cases t with
        | none => simp
        | some tt =>
          simp only []
          rw [ih nx hnx]
          cases hg : gW (align_to off (if tt.align > 0 then tt.align else 1)
              + tt.size) nx with
          | none => simp [hg]
          | some p =>
            obtain ⟨ws, fin⟩ := p
            simp [hg, applyOffs]

theorem lOffsLoop_char : ∀ N (c : Option Obj), sizeOf c ≤ N → ∀ σ off,
    lOffsLoop σ off c =
      (match lW off c with
       | some (ws, fin) => .ok (applyOffs σ ws, fin)
       | none => .error "null deref (var->ty in assign_wasm_offsets)") := by
  intro N
  induction N with
  | zero =>
    intro c hc
    exfalso
    cases c with
    | none => simp at hc
    | some x => rw [opt_obj_size] at hc; omega
  | succ N ih =>
    intro c hc σ off
    cases c with
    | none => rw [lOffsLoop.eq_def, lW.eq_def]; simp [applyOffs]
    | some o =>
      obtain ⟨oid, nm, t, isF, d1, d2, d3, d4, d5, idata, ps, ls, bd, nx⟩ := o
      have hnx : sizeOf nx ≤ N := by
        rw [opt_obj_size, obj_size] at hc
        omega
      rw [lOffsLoop.eq_def, lW.eq_def]
      cases t with
      | none => simp
      | some tt =>
        simp only []
        rw [ih nx hnx]
        cases hg : lW (align_to off (if tt.align > 0 then tt.align else 1)
            + tt.size) nx with
        | none => simp [hg]
        | some p =>
          obtain ⟨ws, fin⟩ := p
          simp [hg, applyOffs]

theorem assign_wasm_char : ∀ N (c : Option Obj), sizeOf c ≤ N → ∀ σ,
    assign_wasm_offsets σ c =
      (match wWr c with
       | some (ows, sws) => .ok (applySs (applyOffs σ ows) sws)
       | none => .error "null deref (var->ty in assign_wasm_offsets)") := by
  intro N
  induction N with
  | zero =>
    intro c hc
    exfalso
    cases c with
    | none => simp at hc
    | some x => rw [opt_obj_size] at hc; omega
  | succ N ih =>
    intro c hc σ
    cases c with
    | none => rw [assign_wasm_offsets.eq_def, wWr.eq_def]; simp [applyOffs, applySs]
    | some o =>
      obtain ⟨oid, nm, t, isF, d1, d2, d3, d4, d5, idata, ps, ls, bd, nx⟩ := o
      have hnx : sizeOf nx ≤ N := by
        rw [opt_obj_size, obj_size] at hc
        omega
      have hls : sizeOf ls ≤ N := by
        rw [opt_obj_size, obj_size] at hc
        omega
      rw [assign_wasm_offsets.eq_def, wWr.eq_def]
      by_cases hf : isF = true
      · simp only [hf, if_true]
        rw [lOffsLoop_char N ls hls]
        cases hl : lW 0 ls with
        | none => simp
        | some p =>
          obtain ⟨ws, fin⟩ := p
          simp only [except_bind_ok]
          rw [ih nx hnx]
          cases hw : wWr nx with
          | none => simp
          | some q =>
            obtain ⟨ows, sws⟩ := q
            simp only []
            rw [applyOffs_append, setSsize_applyOffs, applySs]
      · simp only [hf, if_false, Bool.false_eq_true]
        exact ih nx hnx σ

theorem double_write (L G : Option Int) (d : Int) :
    L.getD (G.getD (L.getD (G.getD d))) = L.getD (G.getD d) := by
  cases L with
  | some w => simp
  | none =>
    cases G with
    | some w => simp
    | none => simp

/-- C8: re-running `codegen_wasm` on the same program graph, starting
from the mutable offset/stack-size state the first run leaves behind,
produces byte-identical output and the same final state: the layout
passes re-assign the same offsets and the emission reads only those. -/
theorem c8_determinism (σ0 : Store) (prog : Option Obj)
    (out1 out2 : List String) (σ1 σ2 : Store)
    (h1 : codegen_wasm σ0 prog = .ok (out1, σ1))
    (h2 : codegen_wasm σ1 prog = .ok (out2, σ2)) :
    out2 = out1 ∧ σ2 = σ1 := by
  rw [codegen_wasm] at h1 h2
  rw [assign_global_offsets] at h1 h2
  rw [gOffsLoop_char (sizeOf prog) prog (le_refl _)] at h1 h2
  cases hg : gW 0 prog with
  | none => rw [hg] at h1; exact Except.noConfusion h1
  | some p =>
    obtain ⟨gws, fin⟩ := p
    rw [hg] at h1 h2
    simp only [except_bind_ok] at h1 h2
    rw [assign_wasm_char (sizeOf prog) prog (le_refl _)] at h1 h2
    cases hw : wWr prog with
    | none => rw [hw] at h1; exact Except.noConfusion h1
    | some q =>
      obtain ⟨ows, sws⟩ := q
      rw [hw] at h1 h2
      simp only [except_bind_ok] at h1 h2
      -- the two post-layout stores coincide
      have hfix : ∀ τ, applySs (applyOffs (applyOffs
            (applySs (applyOffs (applyOffs τ gws) ows) sws) gws) ows) sws =
          applySs (applyOffs (applyOffs τ gws) ows) sws := by
        intro τ
        apply store_ext
        · intro i
          simp only [applySs_offs, applyOffs_offs]
          exact double_write (lastVal ows i) (lastVal gws i) (τ.offs i)
        · intro i
          simp only [applySs_ssize, applyOffs_ssize]
          cases lastVal sws i with
          | some w => simp
          | none => simp
      -- extract σ1 from the first run
      cases hdat1 : emit_data (applySs (applyOffs (applyOffs σ0 gws) ows)
          sws) prog with
      | error e => rw [hdat1] at h1; exact Except.noConfusion h1
      | ok dat1 =>
        rw [hdat1] at h1
        simp only [except_bind_ok] at h1
        cases hfns1 : emit_functions (applySs (applyOffs (applyOffs σ0 gws)
            ows) sws) prog with
        | error e => rw [hfns1] at h1; exact Except.noConfusion h1
        | ok fns1 =>
          rw [hfns1] at h1
          simp only [except_bind_ok] at h1
          cases h1
          -- now σ1 is the post-layout store of run 1; rewrite run 2
          rw [hfix σ0] at h2
          rw [hdat1] at h2
          simp only [except_bind_ok] at h2
          rw [hfns1] at h2
          simp only [except_bind_ok] at h2
          cases h2
          exact ⟨rfl, rfl⟩

theorem c8_witness :
    (["(module\n",
      lnStr 1 "(memory (export \"memory\") 2)",
      "\n",
      lnStr 1 (";; Stack pointer (grows downward from " ++
        toString (65536 : Int) ++ ")"),
      lnStr 1 ("(global $__sp (mut i32) (i32.const " ++
        toString (65536 : Int) ++ "))"),
      "\n", "\n", ")\n"] : List String) =
    ["(module\n",
      lnStr 1 "(memory (export \"memory\") 2)",
      "\n",
      lnStr 1 (";; Stack pointer (grows downward from " ++
        toString (65536 : Int) ++ ")"),
      lnStr 1 ("(global $__sp (mut i32) (i32.const " ++
        toString (65536 : Int) ++ "))"),
      "\n", "\n", ")\n"] ∧ defStore = defStore := by
  have hA : align_to (0 : Int) 16 = 0 := by decide
  have hB : align_to (1024 : Int) 65536 = 65536 := by decide
  have hC : ¬((65536 : Int) < 65536) := by decide
  have hcg : codegen_wasm defStore none =
      .ok (["(module\n",
            lnStr 1 "(memory (export \"memory\") 2)",
            "\n",
            lnStr 1 (";; Stack pointer (grows downward from " ++
              toString (65536 : Int) ++ ")"),
            lnStr 1 ("(global $__sp (mut i32) (i32.const " ++
              toString (65536 : Int) ++ "))"),
            "\n", "\n", ")\n"], defStore) := by
    simp [codegen_wasm, assign_global_offsets, gOffsLoop,
      assign_wasm_offsets, emit_data, emit_functions, hA, hB, hC]
  exact c8_determinism defStore none _ _ _ _ hcg hcg

end Chibicc
